import Mathlib

/-!
# Hatch generator (`main.cpp`): embedding and verified properties

The program reads four points, builds the four contour edges, generates a family of
parallel hatch lines, clips every line against the edges and prints the sorted segments.

The program is embedded twice.

* In exact arithmetic: every definition of the first part is generic over a linear ordered
  field `α` (with a floor function for the float-to-int conversion).  The C library `sqrt`
  is taken as a parameter `sqrt : α → α`; theorems that depend on it assume its contract
  `SqrtSpec sqrt` (a non-negative root of every non-negative number), which `Real.sqrt`
  satisfies.  In the same way `cos`, `sin` and `M_PI` are parameters of
  `calculateDirection`, instantiated with `Real.cos`, `Real.sin` and `Real.pi` in the
  theorems about angles.  The `(NAN, NAN)` sentinel of `findIntersection` is `none`.  The
  `int` is the 32-bit machine integer: `floatToInt` and `truncToInt` are the conversion
  from a floating value, `wrapInt` the two's-complement wrap.  A second copy of the
  pipeline (`hatchChecked`) stops as soon as a divisor is zero, the conversion is out of
  range or the loop counter overflows.

* Over the arithmetic of the machine: the definitions with the suffix `A` follow the source
  operation by operation and take the arithmetic of `float` as a parameter `A : Arith F`.
  `binary32` is the IEEE 754 arithmetic of the compiled program (round to nearest, ties to
  even, with infinities and NaN), `exactArith` is exact arithmetic, for which the
  definitions with the suffix `A` coincide with those of the first part (`hatchA_exact`).

Statements about all runs of the program are proved for every `Arith`; statements of
geometry (intersection points, orthogonality, coverage) are proved in exact arithmetic and
say so; the points where binary32 departs from them are exhibited on concrete inputs.
-/

namespace Hatch

variable {α : Type}

/-! ## Basic structures -/

/-- 2D point structure (`struct Point`). -/
structure Point (α : Type) where
  x : α
  y : α
deriving DecidableEq

/-- Direction vector (`struct Vector`). -/
structure Vector (α : Type) where
  x : α
  y : α
deriving DecidableEq

/-- Infinite line defined by origin point and direction vector (`struct Line`). -/
structure Line (α : Type) where
  origin : Point α
  direction : Vector α
deriving DecidableEq

/-- Line segment between two points (`struct Segment`); `end_` is the field `end`. -/
structure Segment (α : Type) where
  start : Point α
  end_ : Point α
deriving DecidableEq

/-- `Point::operator<`: first by `y`, for equal `y` by `x`. -/
def Point.lt [LinearOrderedField α] (p other : Point α) : Prop :=
  if p.y ≠ other.y then p.y < other.y else p.x < other.x

instance Point.decidableLt [LinearOrderedField α] : DecidableRel (Point.lt : Point α → Point α → Prop) :=
  fun p other => by unfold Point.lt; exact inferInstance

/-- `Segment::operator<`: first by `start.x`, then `start.y`, then `end.x`, then `end.y`. -/
def Segment.lt [LinearOrderedField α] (s other : Segment α) : Prop :=
  if s.start.x ≠ other.start.x then s.start.x < other.start.x
  else if s.start.y ≠ other.start.y then s.start.y < other.start.y
  else if s.end_.x ≠ other.end_.x then s.end_.x < other.end_.x
  else s.end_.y < other.end_.y

instance Segment.decidableLt [LinearOrderedField α] :
    DecidableRel (Segment.lt : Segment α → Segment α → Prop) :=
  fun s other => by unfold Segment.lt; exact inferInstance

/-- The comparison `std::sort` works with on points: `a` may stand before `b` when
`b < a` is false. -/
def Point.notAfter [LinearOrderedField α] (a b : Point α) : Prop := ¬ Point.lt b a

instance Point.decidableNotAfter [LinearOrderedField α] :
    DecidableRel (Point.notAfter : Point α → Point α → Prop) :=
  fun a b => by unfold Point.notAfter; exact inferInstance

/-- The comparison `std::sort` works with on segments. -/
def Segment.notAfter [LinearOrderedField α] (a b : Segment α) : Prop := ¬ Segment.lt b a

instance Segment.decidableNotAfter [LinearOrderedField α] :
    DecidableRel (Segment.notAfter : Segment α → Segment α → Prop) :=
  fun a b => by unfold Segment.notAfter; exact inferInstance

/-- `sort(points.begin(), points.end())` with `Point::operator<`. -/
def sortPoints [LinearOrderedField α] (points : List (Point α)) : List (Point α) :=
  points.insertionSort Point.notAfter

/-- `sort(hatch_segments.begin(), hatch_segments.end())` with `Segment::operator<`. -/
def sortSegments [LinearOrderedField α] (segs : List (Segment α)) : List (Segment α) :=
  segs.insertionSort Segment.notAfter

/-- Indexing `points[i]` of a vector of points (every use in the program is in bounds). -/
def at_ [Zero α] (points : List (Point α)) (i : Nat) : Point α :=
  points.getD i ⟨0, 0⟩

/-! ## Contour builder -/

/-- `parseContour(vector<Point>& points)`: returns the edges together with the caller's
vector after the call (it is sorted in place when it has 4 entries). -/
def parseContour [LinearOrderedField α] (points : List (Point α)) :
    List (Segment α) × List (Point α) :=
  if points.length ≠ 4 then
    ([], points)
  else
    let points := sortPoints points
    ([ ⟨at_ points 0, at_ points 1⟩,    -- bottom
       ⟨at_ points 2, at_ points 3⟩,    -- up
       ⟨at_ points 0, at_ points 2⟩,    -- left
       ⟨at_ points 1, at_ points 3⟩ ],  -- right
     points)

/-- `findCenter`: arithmetic mean of all points. -/
def findCenter [LinearOrderedField α] (points : List (Point α)) : Point α :=
  let center := points.foldl (fun (c : Point α) p => ⟨c.x + p.x, c.y + p.y⟩) ⟨0, 0⟩
  ⟨center.x / (points.length : α), center.y / (points.length : α)⟩

/-! ## Intersector -/

/-- The literal `1e-10`. -/
def tol [LinearOrderedField α] : α := 1 / 10 ^ 10

/-- `seg_vec` of `findIntersection`. -/
def segVec [LinearOrderedField α] (segment : Segment α) : Vector α :=
  ⟨segment.end_.x - segment.start.x, segment.end_.y - segment.start.y⟩

/-- `det` of `findIntersection`. -/
def det [LinearOrderedField α] (line : Line α) (segment : Segment α) : α :=
  line.direction.x * (-(segVec segment).y) - line.direction.y * (-(segVec segment).x)

/-- `right` of `findIntersection`. -/
def rightSide [LinearOrderedField α] (line : Line α) (segment : Segment α) : Vector α :=
  ⟨segment.start.x - line.origin.x, segment.start.y - line.origin.y⟩

/-- Line parameter `t` of `findIntersection`. -/
def paramT [LinearOrderedField α] (line : Line α) (segment : Segment α) : α :=
  ((rightSide line segment).x * (-(segVec segment).y)
    - (rightSide line segment).y * (-(segVec segment).x)) / det line segment

/-- Segment parameter `u` of `findIntersection`. -/
def paramU [LinearOrderedField α] (line : Line α) (segment : Segment α) : α :=
  (line.direction.x * (rightSide line segment).y
    - line.direction.y * (rightSide line segment).x) / det line segment

/-- `findIntersection(line, segment)` in exact arithmetic; `none` is the `(NAN, NAN)`
sentinel.  (`findIntersectionA` is the same function over an arbitrary arithmetic.) -/
def findIntersection [LinearOrderedField α] (line : Line α) (segment : Segment α) :
    Option (Point α) :=
  if |det line segment| < tol then
    none
  else if 0 ≤ paramU line segment ∧ paramU line segment ≤ 1 then
    some ⟨line.origin.x + line.direction.x * paramT line segment,
          line.origin.y + line.direction.y * paramT line segment⟩
  else
    none

/-! ## Hatch generator -/

/-- `INT_MIN` of the 32-bit `int`. -/
def intMin : ℤ := -(2 ^ 31)

/-- `INT_MAX` of the 32-bit `int`. -/
def intMax : ℤ := 2 ^ 31 - 1

/-- Conversion of a floating value to `int`: truncation toward zero.  The result is `none`
when the truncated value is not representable in the 32-bit `int`; the conversion is then
undefined in C++. -/
def floatToInt [LinearOrderedField α] [FloorRing α] (v : α) : Option ℤ :=
  if intMin ≤ (if 0 ≤ v then ⌊v⌋ else ⌈v⌉) ∧ (if 0 ≤ v then ⌊v⌋ else ⌈v⌉) ≤ intMax then
    some (if 0 ≤ v then ⌊v⌋ else ⌈v⌉)
  else
    none

/-- The `int` that a conversion from a floating value stores: the truncated value when it
is representable, and otherwise `INT_MIN`, the value the x86 conversion instruction
delivers for an out-of-range operand. -/
def truncToInt [LinearOrderedField α] [FloorRing α] (v : α) : ℤ :=
  (floatToInt v).getD intMin

/-- Two's-complement wrap of an integer into the range of the 32-bit `int`. -/
def wrapInt (n : ℤ) : ℤ :=
  (n + 2 ^ 31) % 2 ^ 32 - 2 ^ 31

/-- `diagonal` of `main`, read from `points[0]` and `points[3]` of the vector as it is
after `parseContour` returned. -/
def diagonal [LinearOrderedField α] (sqrt : α → α) (points : List (Point α)) : α :=
  sqrt (((at_ points 3).x - (at_ points 0).x) ^ 2 + ((at_ points 3).y - (at_ points 0).y) ^ 2)

/-- `lines_per_side` of `main`: the sum computed in exact arithmetic and stored into the
32-bit `int`.  (`linesPerSideA` is the same over an arbitrary arithmetic.) -/
def linesPerSide [LinearOrderedField α] [FloorRing α] (sqrt : α → α)
    (points : List (Point α)) (step : α) : ℤ :=
  truncToInt (diagonal sqrt points / step + 3)

/-- `step_vector` of `main` in exact arithmetic.  (`stepVectorA` is the same over an
arbitrary arithmetic.) -/
def stepVector [LinearOrderedField α] (sqrt : α → α) (hatch_direction : Vector α) (step : α) :
    Vector α :=
  let perpendicular : Vector α := ⟨-hatch_direction.y, hatch_direction.x⟩
  let perp_length := sqrt (perpendicular.x * perpendicular.x + perpendicular.y * perpendicular.y)
  ⟨perpendicular.x * (step / perp_length), perpendicular.y * (step / perp_length)⟩

/-- The values of `i` in `for (int i = lo; i <= hi; i++)`. -/
def intRange (lo hi : ℤ) : List ℤ :=
  (List.range (hi - lo + 1).toNat).map (fun (k : ℕ) => lo + (k : ℤ))

/-- The hatch line of index `i`. -/
def hatchLine [LinearOrderedField α] (center : Point α) (step_vector hatch_direction : Vector α)
    (i : ℤ) : Line α :=
  ⟨⟨center.x + step_vector.x * (i : α), center.y + step_vector.y * (i : α)⟩, hatch_direction⟩

/-- The vector `hatch_lines` of `main`: the loop `for (int i = -lines_per_side;
i <= lines_per_side; i++)`, the negation taken in the 32-bit `int`.  (For
`lines_per_side = INT_MAX` the increment of the counter overflows; `hatchLinesChecked`
excludes this case.) -/
def hatchLines [LinearOrderedField α] (center : Point α) (step_vector hatch_direction : Vector α)
    (lines_per_side : ℤ) : List (Line α) :=
  (intRange (wrapInt (-lines_per_side)) lines_per_side).map
    (hatchLine center step_vector hatch_direction)

/-- The duplicate test of the inner loop: some collected point is within `1e-10` in both
coordinates. -/
def isDuplicate [LinearOrderedField α] (intersections : List (Point α)) (p : Point α) : Bool :=
  intersections.any (fun existing => decide (|p.x - existing.x| < tol ∧ |p.y - existing.y| < tol))

/-- One pass of the loop over the edges: the working set after looking at `edge`. -/
def addIntersection [LinearOrderedField α] (hatch_line : Line α)
    (intersections : List (Point α)) (edge : Segment α) : List (Point α) :=
  match findIntersection hatch_line edge with
  | none => intersections
  | some p => if isDuplicate intersections p then intersections else intersections ++ [p]

/-- The vector `intersections` after the loop over all edges. -/
def collectIntersections [LinearOrderedField α] (edges : List (Segment α))
    (hatch_line : Line α) : List (Point α) :=
  edges.foldl (addIntersection hatch_line) []

/-- What one hatch line contributes to `hatch_segments`. -/
def emitSegment [LinearOrderedField α] (edges : List (Segment α)) (hatch_line : Line α) :
    Option (Segment α) :=
  let intersections := collectIntersections edges hatch_line
  if intersections.length = 2 then some ⟨at_ intersections 0, at_ intersections 1⟩ else none

/-- The vector `hatch_segments` before it is sorted. -/
def emittedSegments [LinearOrderedField α] (edges : List (Segment α))
    (hatch_lines : List (Line α)) : List (Segment α) :=
  hatch_lines.filterMap (emitSegment edges)

/-- The geometry part of `main` (lines 136-205), from the points read, the hatch
direction and the step to the sorted segments; `none` is the exit with code 1 when the
number of points is not 4. -/
def hatch [LinearOrderedField α] [FloorRing α] (sqrt : α → α) (points : List (Point α))
    (hatch_direction : Vector α) (step : α) : Option (List (Segment α)) :=
  if points.length ≠ 4 then
    none
  else
    let parsed := parseContour points
    let edges := parsed.1
    let points := parsed.2
    let center := findCenter points
    let lines_per_side := linesPerSide sqrt points step
    let step_vector := stepVector sqrt hatch_direction step
    let hatch_lines := hatchLines center step_vector hatch_direction lines_per_side
    some (sortSegments (emittedSegments edges hatch_lines))

/-! ## Notions the specification speaks about -/

/-- Contract of the square root: on non-negative numbers it returns the non-negative
root. -/
def SqrtSpec [LinearOrderedField α] (sqrt : α → α) : Prop :=
  ∀ v, 0 ≤ v → 0 ≤ sqrt v ∧ sqrt v * sqrt v = v

/-- Euclidean length of a segment. -/
def segmentLength [LinearOrderedField α] (sqrt : α → α) (s : Segment α) : α :=
  sqrt ((s.end_.x - s.start.x) ^ 2 + (s.end_.y - s.start.y) ^ 2)

/-- The point `P` lies on the segment `s`: `P = start + u * (end - start)` for some
`0 ≤ u ≤ 1`. -/
def OnSegment [LinearOrderedField α] (s : Segment α) (P : Point α) : Prop :=
  ∃ u : α, 0 ≤ u ∧ u ≤ 1 ∧ P.x = s.start.x + u * (s.end_.x - s.start.x)
    ∧ P.y = s.start.y + u * (s.end_.y - s.start.y)

/-- The point `P` lies on the boundary of the rectangle `[x0, x1] × [y0, y1]`. -/
def OnRectBoundary [LinearOrderedField α] (x0 x1 y0 y1 : α) (P : Point α) : Prop :=
  (x0 ≤ P.x ∧ P.x ≤ x1 ∧ y0 ≤ P.y ∧ P.y ≤ y1) ∧ (P.x = x0 ∨ P.x = x1 ∨ P.y = y0 ∨ P.y = y1)

/-- The point `P` lies on the infinite line `l`: `P = origin + t * direction` for some
`t`. -/
def OnLine [LinearOrderedField α] (l : Line α) (P : Point α) : Prop :=
  ∃ t : α, P.x = l.origin.x + l.direction.x * t ∧ P.y = l.origin.y + l.direction.y * t

/-- The line crosses the segment at a single point strictly between the segment's
endpoints: some point `P = start + u * (end - start)` with `0 < u < 1` lies on the line,
and it is the only point on both the line and the segment. -/
def CrossesInside [LinearOrderedField α] (l : Line α) (s : Segment α) : Prop :=
  ∃ P : Point α, OnLine l P ∧
    (∃ u : α, 0 < u ∧ u < 1 ∧ P.x = s.start.x + u * (s.end_.x - s.start.x)
      ∧ P.y = s.start.y + u * (s.end_.y - s.start.y)) ∧
    ∀ Q : Point α, OnLine l Q → OnSegment s Q → Q = P

/-- Signed perpendicular offset of `P` from the centre: the component of `P - center`
along the perpendicular `(-d.y, d.x)` of the hatch direction `d`. -/
def perpOffset [LinearOrderedField α] (center : Point α) (d : Vector α) (P : Point α) : α :=
  (P.x - center.x) * (-d.y) + (P.y - center.y) * d.x

/-- The tuple `(start.x, start.y, end.x, end.y)` of a segment, carrying the lexicographic
order. -/
def Segment.key [LinearOrderedField α] (s : Segment α) : α ×ₗ α ×ₗ α ×ₗ α :=
  toLex (s.start.x, toLex (s.start.y, toLex (s.end_.x, s.end_.y)))

/-! ## Direction calculator and the entry point with an angle -/

/-- `calculateDirection(angle_deg)`; the C library `cos`, `sin` and the constant `M_PI` are
parameters. -/
def calculateDirection [LinearOrderedField α] (cos sin : α → α) (pi : α) (angle_deg : α) :
    Vector α :=
  let angle_rad := angle_deg * pi / 180
  ⟨cos angle_rad, sin angle_rad⟩

/-- The geometry part of `main` from the points, the angle and the step:
`hatch_direction = calculateDirection(angle)` feeds the hatch generator. -/
def hatchAngle [LinearOrderedField α] [FloorRing α] (cos sin : α → α) (pi : α) (sqrt : α → α)
    (points : List (Point α)) (angle step : α) : Option (List (Segment α)) :=
  hatch sqrt points (calculateDirection cos sin pi angle) step

/-- Perpendicular distance of the point `P` from the line `l`: the cross product of
`P - origin` with the direction, divided by the length of the direction. -/
def pointLineDistance [LinearOrderedField α] (sqrt : α → α) (l : Line α) (P : Point α) : α :=
  |(P.x - l.origin.x) * l.direction.y - (P.y - l.origin.y) * l.direction.x|
    / sqrt (l.direction.x * l.direction.x + l.direction.y * l.direction.y)

/-- The tolerance test of the duplicate check: both coordinate differences of the new
point `p` and the collected point `existing` are below `1e-10` in absolute value. -/
def WithinTol [LinearOrderedField α] (p existing : Point α) : Prop :=
  |p.x - existing.x| < tol ∧ |p.y - existing.y| < tol

/-- The unordered pair of endpoints of a segment. -/
def Segment.endpoints (s : Segment α) : Sym2 (Point α) :=
  Sym2.mk (s.start, s.end_)

/-- The point `P` lies in the filled rectangle `[x0, x1] × [y0, y1]`. -/
def InRect [LinearOrderedField α] (x0 x1 y0 y1 : α) (P : Point α) : Prop :=
  x0 ≤ P.x ∧ P.x ≤ x1 ∧ y0 ≤ P.y ∧ P.y ≤ y1

/-! ## The pipeline with every division and conversion checked

The same statements as above, where a run stops with `none` as soon as a division has a zero
divisor, the conversion to `int` is out of range, or the loop counter of the line loop
leaves the range of `int`. -/

/-- A division `a / b`, defined when the divisor is not zero. -/
def divChecked [LinearOrderedField α] (a b : α) : Option α :=
  if b = 0 then none else some (a / b)

/-- `findCenter` with its two divisions checked. -/
def findCenterChecked [LinearOrderedField α] (points : List (Point α)) : Option (Point α) :=
  let center := points.foldl (fun (c : Point α) p => ⟨c.x + p.x, c.y + p.y⟩) ⟨0, 0⟩
  (divChecked center.x (points.length : α)).bind fun x =>
  (divChecked center.y (points.length : α)).bind fun y =>
  some ⟨x, y⟩

/-- `findIntersection` with its two divisions checked; the inner `none` is the `(NAN, NAN)`
sentinel. -/
def findIntersectionChecked [LinearOrderedField α] (line : Line α) (segment : Segment α) :
    Option (Option (Point α)) :=
  if |det line segment| < tol then
    some none
  else
    (divChecked ((rightSide line segment).x * (-(segVec segment).y)
      - (rightSide line segment).y * (-(segVec segment).x)) (det line segment)).bind fun t =>
    (divChecked (line.direction.x * (rightSide line segment).y
      - line.direction.y * (rightSide line segment).x) (det line segment)).bind fun u =>
    if 0 ≤ u ∧ u ≤ 1 then
      some (some ⟨line.origin.x + line.direction.x * t, line.origin.y + line.direction.y * t⟩)
    else
      some none

/-- `lines_per_side` with the division and the conversion to `int` checked. -/
def linesPerSideChecked [LinearOrderedField α] [FloorRing α] (sqrt : α → α)
    (points : List (Point α)) (step : α) : Option ℤ :=
  (divChecked (diagonal sqrt points) step).bind fun q => floatToInt (q + 3)

/-- `step_vector` with the division by `perp_length` checked. -/
def stepVectorChecked [LinearOrderedField α] (sqrt : α → α) (hatch_direction : Vector α)
    (step : α) : Option (Vector α) :=
  let perpendicular : Vector α := ⟨-hatch_direction.y, hatch_direction.x⟩
  let perp_length := sqrt (perpendicular.x * perpendicular.x + perpendicular.y * perpendicular.y)
  (divChecked step perp_length).bind fun k =>
  some ⟨perpendicular.x * k, perpendicular.y * k⟩

/-- The line loop `for (int i = -lines_per_side; i <= lines_per_side; i++)`, defined when
neither the negation nor the increment overflows the `int`. -/
def hatchLinesChecked [LinearOrderedField α] (center : Point α)
    (step_vector hatch_direction : Vector α) (lines_per_side : ℤ) : Option (List (Line α)) :=
  if lines_per_side = intMin ∨ lines_per_side = intMax then
    none
  else
    some ((intRange (-lines_per_side) lines_per_side).map
      (hatchLine center step_vector hatch_direction))

/-- One pass of the loop over the edges, with the checked intersector. -/
def addIntersectionChecked [LinearOrderedField α] (hatch_line : Line α)
    (intersections : List (Point α)) (edge : Segment α) : Option (List (Point α)) :=
  (findIntersectionChecked hatch_line edge).bind fun r =>
    match r with
    | none => some intersections
    | some p => if isDuplicate intersections p then some intersections
        else some (intersections ++ [p])

/-- The loop over the edges started from the working set `acc`, with the checked
intersector. -/
def collectFromChecked [LinearOrderedField α] (hatch_line : Line α) :
    List (Segment α) → List (Point α) → Option (List (Point α))
  | [], acc => some acc
  | edge :: rest, acc =>
    (addIntersectionChecked hatch_line acc edge).bind (collectFromChecked hatch_line rest)

/-- What one hatch line contributes, with the checked intersector. -/
def emitSegmentChecked [LinearOrderedField α] (edges : List (Segment α)) (hatch_line : Line α) :
    Option (Option (Segment α)) :=
  (collectFromChecked hatch_line edges []).bind fun intersections =>
    if intersections.length = 2 then some (some ⟨at_ intersections 0, at_ intersections 1⟩)
    else some none

/-- The loop over the hatch lines, with the checked intersector. -/
def emittedSegmentsChecked [LinearOrderedField α] (edges : List (Segment α)) :
    List (Line α) → Option (List (Segment α))
  | [] => some []
  | hatch_line :: rest =>
    (emitSegmentChecked edges hatch_line).bind fun r =>
    (emittedSegmentsChecked edges rest).bind fun segs =>
      match r with
      | none => some segs
      | some s => some (s :: segs)

/-- The geometry part of `main` with every division, the conversion to `int` and the loop
counter checked: `none` when the number of points is not 4 or one of these operations is
not defined. -/
def hatchChecked [LinearOrderedField α] [FloorRing α] (sqrt : α → α) (points : List (Point α))
    (hatch_direction : Vector α) (step : α) : Option (List (Segment α)) :=
  if points.length ≠ 4 then
    none
  else
    let parsed := parseContour points
    let edges := parsed.1
    let points := parsed.2
    (findCenterChecked points).bind fun center =>
    (linesPerSideChecked sqrt points step).bind fun lines_per_side =>
    (stepVectorChecked sqrt hatch_direction step).bind fun step_vector =>
    (hatchLinesChecked center step_vector hatch_direction lines_per_side).bind fun hatch_lines =>
    (emittedSegmentsChecked edges hatch_lines).bind fun hatch_segments =>
    some (sortSegments hatch_segments)

/-- The checked pipeline from the points, the angle and the step. -/
def hatchAngleChecked [LinearOrderedField α] [FloorRing α] (cos sin : α → α) (pi : α)
    (sqrt : α → α) (points : List (Point α)) (angle step : α) : Option (List (Segment α)) :=
  hatchChecked sqrt points (calculateDirection cos sin pi angle) step

/-! ## The program over the arithmetic of the machine

The definitions of this part follow the source operation by operation and leave the
arithmetic of `float` open: every `+`, `-`, `*`, `/`, comparison, conversion and library
call of the source is one call of the corresponding field of `Arith`.  Nothing is assumed
about the operations, so a statement proved for every `Arith` holds for the rounding
binary32 arithmetic of the compiled program as well as for exact arithmetic. -/

/-- The operations on `float` values the program uses; `F` is the type of the values. -/
structure Arith (F : Type) where
  /-- `a + b`. -/
  add : F → F → F
  /-- `a - b`. -/
  sub : F → F → F
  /-- `a * b`. -/
  mul : F → F → F
  /-- `a / b`. -/
  div : F → F → F
  /-- `-a`. -/
  neg : F → F
  /-- `sqrt(a)` of line 154. -/
  sqrt : F → F
  /-- `sqrt(pow(a, 2) + pow(b, 2))` of lines 146-149, stored into a `float`. -/
  sqrtSumSq : F → F → F
  /-- Conversion of an integer (a literal, `points.size()`, or the `int i`) to `float`. -/
  ofInt : ℤ → F
  /-- The `int` stored by the conversion of a `float` to `int` (line 150). -/
  toInt : F → ℤ
  /-- `a < b`. -/
  lt : F → F → Bool
  /-- `a <= b`. -/
  le : F → F → Bool
  /-- `a != b`. -/
  ne : F → F → Bool
  /-- `fabs(a) < 1e-10`. -/
  absLtTol : F → Bool
  /-- `isnan(a)`. -/
  isnan : F → Bool
  /-- The constant `NAN`. -/
  nan : F

variable {F : Type}

/-- `Point::operator<` over the arithmetic `A`. -/
def Point.ltA (A : Arith F) (p other : Point F) : Bool :=
  if A.ne p.y other.y then A.lt p.y other.y else A.lt p.x other.x

/-- `Segment::operator<` over the arithmetic `A`. -/
def Segment.ltA (A : Arith F) (s other : Segment F) : Bool :=
  if A.ne s.start.x other.start.x then A.lt s.start.x other.start.x
  else if A.ne s.start.y other.start.y then A.lt s.start.y other.start.y
  else if A.ne s.end_.x other.end_.x then A.lt s.end_.x other.end_.x
  else A.lt s.end_.y other.end_.y

/-- `sort(points.begin(), points.end())` over the arithmetic `A`. -/
def sortPointsA (A : Arith F) (points : List (Point F)) : List (Point F) :=
  points.insertionSort (fun a b => Point.ltA A b a = false)

/-- `sort(hatch_segments.begin(), hatch_segments.end())` over the arithmetic `A`. -/
def sortSegmentsA (A : Arith F) (segs : List (Segment F)) : List (Segment F) :=
  segs.insertionSort (fun a b => Segment.ltA A b a = false)

/-- Indexing `points[i]` (every use in the program is in bounds). -/
def atA (A : Arith F) (points : List (Point F)) (i : Nat) : Point F :=
  points.getD i ⟨A.nan, A.nan⟩

/-- `parseContour` over the arithmetic `A`: the edges and the caller's vector after the
call. -/
def parseContourA (A : Arith F) (points : List (Point F)) :
    List (Segment F) × List (Point F) :=
  if points.length ≠ 4 then
    ([], points)
  else
    let points := sortPointsA A points
    ([ ⟨atA A points 0, atA A points 1⟩,    -- bottom
       ⟨atA A points 2, atA A points 3⟩,    -- up
       ⟨atA A points 0, atA A points 2⟩,    -- left
       ⟨atA A points 1, atA A points 3⟩ ],  -- right
     points)

/-- `findCenter` over the arithmetic `A`. -/
def findCenterA (A : Arith F) (points : List (Point F)) : Point F :=
  let center := points.foldl (fun (c : Point F) p => ⟨A.add c.x p.x, A.add c.y p.y⟩)
    ⟨A.ofInt 0, A.ofInt 0⟩
  ⟨A.div center.x (A.ofInt (points.length : ℤ)), A.div center.y (A.ofInt (points.length : ℤ))⟩

/-- `seg_vec` of `findIntersection`. -/
def segVecA (A : Arith F) (segment : Segment F) : Vector F :=
  ⟨A.sub segment.end_.x segment.start.x, A.sub segment.end_.y segment.start.y⟩

/-- `det` of `findIntersection`, as the program computes it. -/
def detA (A : Arith F) (line : Line F) (segment : Segment F) : F :=
  A.sub (A.mul line.direction.x (A.neg (segVecA A segment).y))
    (A.mul line.direction.y (A.neg (segVecA A segment).x))

/-- `right` of `findIntersection`. -/
def rightSideA (A : Arith F) (line : Line F) (segment : Segment F) : Vector F :=
  ⟨A.sub segment.start.x line.origin.x, A.sub segment.start.y line.origin.y⟩

/-- Line parameter `t` of `findIntersection`, as the program computes it. -/
def paramTA (A : Arith F) (line : Line F) (segment : Segment F) : F :=
  A.div
    (A.sub (A.mul (rightSideA A line segment).x (A.neg (segVecA A segment).y))
      (A.mul (rightSideA A line segment).y (A.neg (segVecA A segment).x)))
    (detA A line segment)

/-- Segment parameter `u` of `findIntersection`, as the program computes it. -/
def paramUA (A : Arith F) (line : Line F) (segment : Segment F) : F :=
  A.div
    (A.sub (A.mul line.direction.x (rightSideA A line segment).y)
      (A.mul line.direction.y (rightSideA A line segment).x))
    (detA A line segment)

/-- `findIntersection(line, segment)` over the arithmetic `A`; `none` stands for the two
`return {NAN, NAN}`, and `u >= 0` is read as `0 <= u`. -/
def findIntersectionA (A : Arith F) (line : Line F) (segment : Segment F) :
    Option (Point F) :=
  if A.absLtTol (detA A line segment) then
    none
  else if A.le (A.ofInt 0) (paramUA A line segment) && A.le (paramUA A line segment) (A.ofInt 1)
  then
    some ⟨A.add line.origin.x (A.mul line.direction.x (paramTA A line segment)),
          A.add line.origin.y (A.mul line.direction.y (paramTA A line segment))⟩
  else
    none

/-- `diagonal` of `main` over the arithmetic `A`. -/
def diagonalA (A : Arith F) (points : List (Point F)) : F :=
  A.sqrtSumSq (A.sub (atA A points 3).x (atA A points 0).x)
    (A.sub (atA A points 3).y (atA A points 0).y)

/-- `lines_per_side` of `main` over the arithmetic `A`. -/
def linesPerSideA (A : Arith F) (points : List (Point F)) (step : F) : ℤ :=
  A.toInt (A.add (A.div (diagonalA A points) step) (A.ofInt 3))

/-- `step_vector` of `main` over the arithmetic `A`. -/
def stepVectorA (A : Arith F) (hatch_direction : Vector F) (step : F) : Vector F :=
  let perpendicular : Vector F := ⟨A.neg hatch_direction.y, hatch_direction.x⟩
  let perp_length := A.sqrt (A.add (A.mul perpendicular.x perpendicular.x)
    (A.mul perpendicular.y perpendicular.y))
  ⟨A.mul perpendicular.x (A.div step perp_length), A.mul perpendicular.y (A.div step perp_length)⟩

/-- The hatch line of index `i` over the arithmetic `A`. -/
def hatchLineA (A : Arith F) (center : Point F) (step_vector hatch_direction : Vector F)
    (i : ℤ) : Line F :=
  ⟨⟨A.add center.x (A.mul step_vector.x (A.ofInt i)),
    A.add center.y (A.mul step_vector.y (A.ofInt i))⟩, hatch_direction⟩

/-- The vector `hatch_lines` of `main` over the arithmetic `A`. -/
def hatchLinesA (A : Arith F) (center : Point F) (step_vector hatch_direction : Vector F)
    (lines_per_side : ℤ) : List (Line F) :=
  (intRange (wrapInt (-lines_per_side)) lines_per_side).map
    (hatchLineA A center step_vector hatch_direction)

/-- The duplicate test of the inner loop over the arithmetic `A`. -/
def isDuplicateA (A : Arith F) (intersections : List (Point F)) (p : Point F) : Bool :=
  intersections.any (fun existing =>
    A.absLtTol (A.sub p.x existing.x) && A.absLtTol (A.sub p.y existing.y))

/-- One pass of the loop over the edges over the arithmetic `A`; the sentinel and a
computed point with a NaN `x` are skipped by the test `!isnan(intersection.x)`. -/
def addIntersectionA (A : Arith F) (hatch_line : Line F) (intersections : List (Point F))
    (edge : Segment F) : List (Point F) :=
  match findIntersectionA A hatch_line edge with
  | none => intersections
  | some p =>
    if A.isnan p.x then intersections
    else if isDuplicateA A intersections p then intersections
    else intersections ++ [p]

/-- The vector `intersections` after the loop over all edges, over the arithmetic `A`. -/
def collectIntersectionsA (A : Arith F) (edges : List (Segment F)) (hatch_line : Line F) :
    List (Point F) :=
  edges.foldl (addIntersectionA A hatch_line) []

/-- What one hatch line contributes to `hatch_segments`, over the arithmetic `A`. -/
def emitSegmentA (A : Arith F) (edges : List (Segment F)) (hatch_line : Line F) :
    Option (Segment F) :=
  let intersections := collectIntersectionsA A edges hatch_line
  if intersections.length = 2 then some ⟨atA A intersections 0, atA A intersections 1⟩
  else none

/-- The vector `hatch_segments` before it is sorted, over the arithmetic `A`. -/
def emittedSegmentsA (A : Arith F) (edges : List (Segment F)) (hatch_lines : List (Line F)) :
    List (Segment F) :=
  hatch_lines.filterMap (emitSegmentA A edges)

/-- The geometry part of `main` (lines 136-205) over the arithmetic `A`; `none` is the exit
with code 1 when the number of points is not 4. -/
def hatchA (A : Arith F) (points : List (Point F)) (hatch_direction : Vector F) (step : F) :
    Option (List (Segment F)) :=
  if points.length ≠ 4 then
    none
  else
    let parsed := parseContourA A points
    let edges := parsed.1
    let points := parsed.2
    let center := findCenterA A points
    let lines_per_side := linesPerSideA A points step
    let step_vector := stepVectorA A hatch_direction step
    let hatch_lines := hatchLinesA A center step_vector hatch_direction lines_per_side
    some (sortSegmentsA A (emittedSegmentsA A edges hatch_lines))

/-! ## Binary floating-point arithmetic (IEEE 754, round to nearest, ties to even) -/

/-- A floating-point datum: the finite number `(-1)^sign * m * 2^e`, an infinity, or a
NaN. -/
inductive Binary where
  | fin (sign : Bool) (m : ℕ) (e : ℤ)
  | inf (sign : Bool)
  | nan
deriving DecidableEq

/-- A binary format: the number `prec` of bits of the significand, the exponent `emin` of
the last bit of a subnormal number, and `emax`, where `2^emax` is the least power of two
beyond the finite numbers. -/
structure BinFormat where
  prec : ℕ
  emin : ℤ
  emax : ℤ

/-- The format of `float`. -/
def binary32Format : BinFormat := ⟨24, -149, 128⟩

/-- The format of `double`. -/
def binary64Format : BinFormat := ⟨53, -1074, 1024⟩

/-- Number of binary digits of `n`, by halving (`fuel` bounds the number of steps). -/
def bitLengthAux : ℕ → ℕ → ℕ
  | 0, _ => 0
  | fuel + 1, n => if n = 0 then 0 else bitLengthAux fuel (n / 2) + 1

/-- Number of binary digits of `n`. -/
def bitLength (n : ℕ) : ℕ := bitLengthAux n n

/-- Removes the trailing zero bits of a significand (`fuel` bounds the number of steps). -/
def stripZerosAux : ℕ → ℕ → ℤ → ℕ × ℤ
  | 0, m, e => (m, e)
  | fuel + 1, m, e => if m % 2 = 0 ∧ m ≠ 0 then stripZerosAux fuel (m / 2) (e + 1) else (m, e)

/-- The finite datum `(-1)^sign * m * 2^e` in its unique form (odd significand, or zero
with exponent 0), or the infinity of that sign when it is beyond the finite range of the
format. -/
def pack (f : BinFormat) (sign : Bool) (m : ℕ) (e : ℤ) : Binary :=
  if m = 0 then Binary.fin sign 0 0
  else if f.emax < e + (bitLength m : ℤ) then Binary.inf sign
  else Binary.fin sign (stripZerosAux m m e).1 (stripZerosAux m m e).2

/-- Rounding to nearest, ties to even: the number `m * 2^e`, plus a non-zero rest below the
last bit of `m` when `sticky` is set, is rounded to `prec` bits with the last bit not below
`emin`.  An operation that sets `sticky` supplies at least `prec + 2` bits in `m`. -/
def roundMag (f : BinFormat) (sign : Bool) (m : ℕ) (e : ℤ) (sticky : Bool) : Binary :=
  let eLast := max (e + (bitLength m : ℤ) - (f.prec : ℤ)) f.emin
  if eLast ≤ e then
    pack f sign m e
  else
    let k := (eLast - e).toNat
    let q := m / 2 ^ k
    let r := m % 2 ^ k
    let half := 2 ^ (k - 1)
    if half < r ∨ (r = half ∧ (sticky = true ∨ q % 2 = 1)) then pack f sign (q + 1) eLast
    else pack f sign q eLast

/-- The integer `(-1)^sign * m * 2^(e - e0)`, for `e0 ≤ e`. -/
def scaled (sign : Bool) (m : ℕ) (e e0 : ℤ) : ℤ :=
  if sign then -((m : ℤ) * 2 ^ (e - e0).toNat) else (m : ℤ) * 2 ^ (e - e0).toNat

/-- `-a`. -/
def Binary.neg : Binary → Binary
  | Binary.fin s m e => Binary.fin (!s) m e
  | Binary.inf s => Binary.inf (!s)
  | Binary.nan => Binary.nan

/-- `fabs(a)`. -/
def Binary.abs : Binary → Binary
  | Binary.fin _ m e => Binary.fin false m e
  | Binary.inf _ => Binary.inf false
  | Binary.nan => Binary.nan

/-- `a + b` in the format `f`. -/
def Binary.add (f : BinFormat) : Binary → Binary → Binary
  | Binary.nan, _ => Binary.nan
  | _, Binary.nan => Binary.nan
  | Binary.inf s, Binary.inf t => if s = t then Binary.inf s else Binary.nan
  | Binary.inf s, Binary.fin _ _ _ => Binary.inf s
  | Binary.fin _ _ _, Binary.inf t => Binary.inf t
  | Binary.fin s1 m1 e1, Binary.fin s2 m2 e2 =>
    let v := scaled s1 m1 e1 (min e1 e2) + scaled s2 m2 e2 (min e1 e2)
    if v = 0 then Binary.fin (s1 && s2) 0 0
    else roundMag f (decide (v < 0)) v.natAbs (min e1 e2) false

/-- `a - b` in the format `f`. -/
def Binary.sub (f : BinFormat) (a b : Binary) : Binary :=
  Binary.add f a (Binary.neg b)

/-- `a * b` in the format `f`. -/
def Binary.mul (f : BinFormat) : Binary → Binary → Binary
  | Binary.nan, _ => Binary.nan
  | _, Binary.nan => Binary.nan
  | Binary.inf s, Binary.inf t => Binary.inf (xor s t)
  | Binary.inf s, Binary.fin t m _ => if m = 0 then Binary.nan else Binary.inf (xor s t)
  | Binary.fin s m _, Binary.inf t => if m = 0 then Binary.nan else Binary.inf (xor s t)
  | Binary.fin s1 m1 e1, Binary.fin s2 m2 e2 => roundMag f (xor s1 s2) (m1 * m2) (e1 + e2) false

/-- `a / b` in the format `f`. -/
def Binary.div (f : BinFormat) : Binary → Binary → Binary
  | Binary.nan, _ => Binary.nan
  | _, Binary.nan => Binary.nan
  | Binary.inf _, Binary.inf _ => Binary.nan
  | Binary.inf s, Binary.fin t _ _ => Binary.inf (xor s t)
  | Binary.fin s _ _, Binary.inf t => Binary.fin (xor s t) 0 0
  | Binary.fin s1 m1 e1, Binary.fin s2 m2 e2 =>
    if m2 = 0 then
      if m1 = 0 then Binary.nan else Binary.inf (xor s1 s2)
    else
      let k := f.prec + 2 + bitLength m2
      roundMag f (xor s1 s2) (m1 * 2 ^ k / m2) (e1 - e2 - (k : ℤ))
        (decide (m1 * 2 ^ k % m2 ≠ 0))

/-- Integer square root, bit by bit from bit `k - 1` down. -/
def isqrtAux : ℕ → ℕ → ℕ → ℕ
  | 0, _, r => r
  | k + 1, n, r =>
    if (r + 2 ^ k) * (r + 2 ^ k) ≤ n then isqrtAux k n (r + 2 ^ k) else isqrtAux k n r

/-- Integer square root: the greatest `r` with `r * r ≤ n`. -/
def isqrt (n : ℕ) : ℕ := isqrtAux (bitLength n / 2 + 1) n 0

/-- `sqrt(a)` in the format `f`. -/
def Binary.sqrt (f : BinFormat) : Binary → Binary
  | Binary.nan => Binary.nan
  | Binary.inf s => if s then Binary.nan else Binary.inf false
  | Binary.fin s m e =>
    if m = 0 then Binary.fin s 0 0
    else if s then Binary.nan
    else
      let k := if (e - 2 * ((f.prec : ℤ) + 2)) % 2 = 0 then 2 * (f.prec + 2)
        else 2 * (f.prec + 2) + 1
      roundMag f false (isqrt (m * 2 ^ k)) ((e - (k : ℤ)) / 2)
        (decide (isqrt (m * 2 ^ k) * isqrt (m * 2 ^ k) ≠ m * 2 ^ k))

/-- Conversion to the format `f` (of a `double` to `float`; of a `float` to `double` it is
exact). -/
def Binary.convert (f : BinFormat) : Binary → Binary
  | Binary.fin s m e => roundMag f s m e false
  | Binary.inf s => Binary.inf s
  | Binary.nan => Binary.nan

/-- Conversion of an integer to the format `f`. -/
def Binary.ofInt (f : BinFormat) (n : ℤ) : Binary :=
  roundMag f (decide (n < 0)) n.natAbs 0 false

/-- Conversion to the 32-bit `int`: truncation toward zero; for a value out of range, an
infinity or a NaN, `INT_MIN`, as delivered by the x86 conversion instruction. -/
def Binary.toInt : Binary → ℤ
  | Binary.fin s m e =>
    if intMin ≤ scaled s (if 0 ≤ e then m * 2 ^ e.toNat else m / 2 ^ (-e).toNat) 0 0 ∧
        scaled s (if 0 ≤ e then m * 2 ^ e.toNat else m / 2 ^ (-e).toNat) 0 0 ≤ intMax then
      scaled s (if 0 ≤ e then m * 2 ^ e.toNat else m / 2 ^ (-e).toNat) 0 0
    else intMin
  | Binary.inf _ => intMin
  | Binary.nan => intMin

/-- `a < b`. -/
def Binary.lt : Binary → Binary → Bool
  | Binary.nan, _ => false
  | _, Binary.nan => false
  | Binary.inf s, Binary.inf t => s && !t
  | Binary.inf s, Binary.fin _ _ _ => s
  | Binary.fin _ _ _, Binary.inf t => !t
  | Binary.fin s1 m1 e1, Binary.fin s2 m2 e2 =>
    decide (scaled s1 m1 e1 (min e1 e2) < scaled s2 m2 e2 (min e1 e2))

/-- `a <= b`. -/
def Binary.le : Binary → Binary → Bool
  | Binary.nan, _ => false
  | _, Binary.nan => false
  | Binary.inf s, Binary.inf t => s || !t
  | Binary.inf s, Binary.fin _ _ _ => s
  | Binary.fin _ _ _, Binary.inf t => !t
  | Binary.fin s1 m1 e1, Binary.fin s2 m2 e2 =>
    decide (scaled s1 m1 e1 (min e1 e2) ≤ scaled s2 m2 e2 (min e1 e2))

/-- `a != b`. -/
def Binary.ne : Binary → Binary → Bool
  | Binary.nan, _ => true
  | _, Binary.nan => true
  | Binary.inf s, Binary.inf t => s != t
  | Binary.inf _, Binary.fin _ _ _ => true
  | Binary.fin _ _ _, Binary.inf _ => true
  | Binary.fin s1 m1 e1, Binary.fin s2 m2 e2 =>
    decide (scaled s1 m1 e1 (min e1 e2) ≠ scaled s2 m2 e2 (min e1 e2))

/-- `isnan(a)`. -/
def Binary.isnan : Binary → Bool
  | Binary.nan => true
  | _ => false

/-- The `double` literal `1e-10`: the `double` nearest to `1 / 10^10`. -/
def tolDouble : Binary :=
  Binary.div binary64Format (Binary.ofInt binary64Format 1) (Binary.ofInt binary64Format (10 ^ 10))

/-- The arithmetic of the compiled program: `float` is binary32; `pow` and the `sqrt` of
lines 146-149 work in `double` and the result is rounded to `float`; the comparison with
the `double` literal `1e-10` is exact. -/
def binary32 : Arith Binary where
  add := Binary.add binary32Format
  sub := Binary.sub binary32Format
  mul := Binary.mul binary32Format
  div := Binary.div binary32Format
  neg := Binary.neg
  sqrt := Binary.sqrt binary32Format
  sqrtSumSq := fun a b =>
    Binary.convert binary32Format
      (Binary.sqrt binary64Format
        (Binary.add binary64Format (Binary.mul binary64Format a a)
          (Binary.mul binary64Format b b)))
  ofInt := Binary.ofInt binary32Format
  toInt := Binary.toInt
  lt := Binary.lt
  le := Binary.le
  ne := Binary.ne
  absLtTol := fun a => Binary.lt (Binary.abs a) tolDouble
  isnan := Binary.isnan
  nan := Binary.nan

/-- The rational value of a finite datum (0 for an infinity or a NaN). -/
def Binary.toRat : Binary → ℚ
  | Binary.fin s m e => if s then -((m : ℚ) * 2 ^ e) else (m : ℚ) * 2 ^ e
  | _ => 0

/-- The `float` read from the decimal literal `n / d` (as by `stof`): the binary32 number
nearest to it. -/
def decimalLit (n d : ℕ) : Binary :=
  Binary.div binary32Format (Binary.fin false n 0) (Binary.fin false d 0)

/-- Exact arithmetic as an arithmetic of the program: the operations of the ordered field
`α` with the square root `sqrt`, the conversion `truncToInt` to the 32-bit `int`, and no
NaN. -/
def exactArith [LinearOrderedField α] [FloorRing α] (sqrt : α → α) : Arith α where
  add := fun a b => a + b
  sub := fun a b => a - b
  mul := fun a b => a * b
  div := fun a b => a / b
  neg := fun a => -a
  sqrt := sqrt
  sqrtSumSq := fun a b => sqrt (a ^ 2 + b ^ 2)
  ofInt := fun n => (n : α)
  toInt := truncToInt
  lt := fun a b => decide (a < b)
  le := fun a b => decide (a ≤ b)
  ne := fun a b => decide (a ≠ b)
  absLtTol := fun a => decide (|a| < tol)
  isnan := fun _ => false
  nan := 0

/-! ## Order lemmas and the contour builder -/

set_option maxRecDepth 1000000

section
variable [LinearOrderedField α]

theorem point_lt_iff (p q : Point α) :
    Point.lt p q ↔ p.y < q.y ∨ (p.y = q.y ∧ p.x < q.x) := by
  unfold Point.lt
  by_cases h : p.y = q.y
  · simp [h]
  · simp [h]

theorem point_notAfter_iff (a b : Point α) :
    Point.notAfter a b ↔ a.y < b.y ∨ (a.y = b.y ∧ a.x ≤ b.x) := by
  unfold Point.notAfter
  rw [point_lt_iff]
  constructor
  · intro h
    push_neg at h
    rcases lt_trichotomy a.y b.y with h1 | h1 | h1
    · exact Or.inl h1
    · exact Or.inr ⟨h1, h.2 h1.symm⟩
    · exact absurd h1 (not_lt.mpr h.1)
  · rintro (h | ⟨h1, h2⟩) <;> push_neg
    · exact ⟨le_of_lt h, fun h3 => absurd h (by rw [h3]; exact lt_irrefl _)⟩
    · exact ⟨le_of_eq h1, fun _ => h2⟩

theorem point_notAfter_total (a b : Point α) : Point.notAfter a b ∨ Point.notAfter b a := by
  simp only [point_notAfter_iff]
  rcases lt_trichotomy a.y b.y with h | h | h
  · exact Or.inl (Or.inl h)
  · rcases le_total a.x b.x with h2 | h2
    · exact Or.inl (Or.inr ⟨h, h2⟩)
    · exact Or.inr (Or.inr ⟨h.symm, h2⟩)
  · exact Or.inr (Or.inl h)

theorem point_notAfter_trans (a b c : Point α) (h1 : Point.notAfter a b)
    (h2 : Point.notAfter b c) : Point.notAfter a c := by
  simp only [point_notAfter_iff] at *
  rcases h1 with h1 | ⟨h1, h1x⟩ <;> rcases h2 with h2 | ⟨h2, h2x⟩
  · exact Or.inl (lt_trans h1 h2)
  · exact Or.inl (h2 ▸ h1)
  · exact Or.inl (h1 ▸ h2)
  · exact Or.inr ⟨h1.trans h2, le_trans h1x h2x⟩

theorem point_notAfter_antisymm (a b : Point α) (h1 : Point.notAfter a b)
    (h2 : Point.notAfter b a) : a = b := by
  simp only [point_notAfter_iff] at *
  cases a; cases b
  simp only [Point.mk.injEq] at *
  rcases h1 with h1 | ⟨h1, h1x⟩ <;> rcases h2 with h2 | ⟨h2, h2x⟩
  · exact absurd h1 (not_lt.mpr (le_of_lt h2))
  · exact absurd h1 (by rw [h2]; exact lt_irrefl _)
  · exact absurd h2 (by rw [h1]; exact lt_irrefl _)
  · exact ⟨le_antisymm h1x h2x, h1⟩

theorem sortPoints_perm (l : List (Point α)) : (sortPoints l).Perm l :=
  List.perm_insertionSort _ l

theorem sortPoints_sorted (l : List (Point α)) : (sortPoints l).Sorted Point.notAfter :=
  @List.sorted_insertionSort _ Point.notAfter _ ⟨point_notAfter_total⟩ ⟨point_notAfter_trans⟩ l

theorem sortPoints_unique (l l2 : List (Point α)) (hp : l2.Perm l)
    (hs : l2.Sorted Point.notAfter) : sortPoints l = l2 :=
  @List.eq_of_perm_of_sorted _ Point.notAfter ⟨point_notAfter_antisymm⟩ _ _
    ((sortPoints_perm l).trans hp.symm) (sortPoints_sorted l) hs

/-- On exactly 4 points `parseContour` pairs up the sorted points. -/
theorem parseContour_of_four (points : List (Point α)) (hlen : points.length = 4) :
    ∃ p0 p1 p2 p3 : Point α,
      [p0, p1, p2, p3].Perm points ∧
      [p0, p1, p2, p3].Sorted (fun a b => ¬ Point.lt b a) ∧
      parseContour points =
        ([⟨p0, p1⟩, ⟨p2, p3⟩, ⟨p0, p2⟩, ⟨p1, p3⟩], [p0, p1, p2, p3]) := by
  have hl : (sortPoints points).length = 4 := by
    rw [(sortPoints_perm points).length_eq, hlen]
  have hperm := sortPoints_perm points
  have hsorted := sortPoints_sorted points
  have hpc : parseContour points =
      ([⟨at_ (sortPoints points) 0, at_ (sortPoints points) 1⟩,
        ⟨at_ (sortPoints points) 2, at_ (sortPoints points) 3⟩,
        ⟨at_ (sortPoints points) 0, at_ (sortPoints points) 2⟩,
        ⟨at_ (sortPoints points) 1, at_ (sortPoints points) 3⟩], sortPoints points) := by
    simp [parseContour, hlen]
  rw [hpc]
  match hs : sortPoints points, hl with
  | [p0, p1, p2, p3], _ =>
    rw [hs] at hperm hsorted
    exact ⟨p0, p1, p2, p3, hperm, hsorted, by simp [at_]⟩

/-- On any other number of points `parseContour` returns no edges and does not touch the
vector. -/
theorem parseContour_of_not_four (points : List (Point α)) (hlen : points.length ≠ 4) :
    parseContour points = ([], points) := by
  simp [parseContour, hlen]

/-- C1: `parseContour` on a list of exactly 4 points returns the edges
`[(p0,p1), (p2,p3), (p0,p2), (p1,p3)]` in this order, where `p0..p3` are the input points
sorted ascending by `Point::operator<` (and the caller's vector is left sorted); on a list
of any other length it returns no edges and leaves the list as it was. -/
theorem parseContour_spec (points : List (Point α)) :
    (points.length = 4 →
      ∃ p0 p1 p2 p3 : Point α,
        [p0, p1, p2, p3].Perm points ∧
        [p0, p1, p2, p3].Sorted (fun a b => ¬ Point.lt b a) ∧
        parseContour points =
          ([⟨p0, p1⟩, ⟨p2, p3⟩, ⟨p0, p2⟩, ⟨p1, p3⟩], [p0, p1, p2, p3])) ∧
    (points.length ≠ 4 → parseContour points = ([], points)) :=
  ⟨parseContour_of_four points, parseContour_of_not_four points⟩

theorem parseContour_spec_witness :
    ∃ p0 p1 p2 p3 : Point ℚ,
      [p0, p1, p2, p3].Perm [⟨10, 10⟩, ⟨0, 0⟩, ⟨10, 0⟩, ⟨0, 10⟩] ∧
      [p0, p1, p2, p3].Sorted (fun a b => ¬ Point.lt b a) ∧
      parseContour [⟨10, 10⟩, ⟨0, 0⟩, ⟨10, 0⟩, ⟨0, 10⟩] =
        ([⟨p0, p1⟩, ⟨p2, p3⟩, ⟨p0, p2⟩, ⟨p1, p3⟩], [p0, p1, p2, p3]) :=
  (parseContour_spec [⟨10, 10⟩, ⟨0, 0⟩, ⟨10, 0⟩, ⟨0, 10⟩]).1 (by decide)


theorem SqrtSpec.eq_of_mul_self {sqrt : α → α} (hs : SqrtSpec sqrt) {r v : α} (hr : 0 ≤ r)
    (hv : r * r = v) : sqrt v = r := by
  have hv0 : 0 ≤ v := by rw [← hv]; exact mul_self_nonneg r
  obtain ⟨h0, h1⟩ := hs v hv0
  have h2 : (sqrt v - r) * (sqrt v + r) = 0 := by
    have : (sqrt v - r) * (sqrt v + r) = sqrt v * sqrt v - r * r := by ring
    rw [this, h1, hv, sub_self]
  rcases mul_eq_zero.mp h2 with h | h
  · exact sub_eq_zero.mp h
  · have h3 : sqrt v = 0 := by linarith
    have h4 : r = 0 := by linarith
    rw [h3, h4]

theorem rectangle_corners_sorted (x0 x1 y0 y1 : α) (hx : x0 < x1) (hy : y0 < y1) :
    ([⟨x0, y0⟩, ⟨x1, y0⟩, ⟨x0, y1⟩, ⟨x1, y1⟩] : List (Point α)).Sorted Point.notAfter := by
  simp only [List.Sorted, List.pairwise_cons, List.mem_cons, List.mem_singleton,
    point_notAfter_iff, forall_eq_or_imp, forall_eq, List.not_mem_nil, false_implies,
    implies_true, List.Pairwise.nil, and_true]
  refine ⟨⟨Or.inr ⟨trivial, le_of_lt hx⟩, Or.inl hy, Or.inl hy⟩, ⟨Or.inl hy, Or.inl hy⟩,
    Or.inr ⟨trivial, le_of_lt hx⟩⟩

theorem rectangle_parse_edges (x0 x1 y0 y1 : α) (hx : x0 < x1) (hy : y0 < y1)
    (points : List (Point α))
    (hp : points.Perm [⟨x0, y0⟩, ⟨x1, y0⟩, ⟨x0, y1⟩, ⟨x1, y1⟩]) :
    parseContour points =
      ([⟨⟨x0, y0⟩, ⟨x1, y0⟩⟩, ⟨⟨x0, y1⟩, ⟨x1, y1⟩⟩, ⟨⟨x0, y0⟩, ⟨x0, y1⟩⟩,
        ⟨⟨x1, y0⟩, ⟨x1, y1⟩⟩], [⟨x0, y0⟩, ⟨x1, y0⟩, ⟨x0, y1⟩, ⟨x1, y1⟩]) := by
  have hlen : points.length = 4 := by rw [hp.length_eq]; rfl
  have hsort := sortPoints_unique points _ hp.symm (rectangle_corners_sorted x0 x1 y0 y1 hx hy)
  simp [parseContour, hlen, hsort, at_]

theorem onSegment_horizontal (a b y : α) (hab : a < b) (P : Point α) :
    OnSegment ⟨⟨a, y⟩, ⟨b, y⟩⟩ P ↔ P.y = y ∧ a ≤ P.x ∧ P.x ≤ b := by
  have hpos : 0 < b - a := sub_pos.mpr hab
  constructor
  · rintro ⟨u, hu0, hu1, hxu, hyu⟩
    simp only [sub_self, mul_zero, add_zero] at hyu
    refine ⟨hyu, ?_, ?_⟩
    · rw [hxu]; nlinarith [mul_nonneg hu0 hpos.le]
    · rw [hxu]; nlinarith [mul_nonneg (sub_nonneg.mpr hu1) hpos.le]
  · rintro ⟨hyP, h1, h2⟩
    refine ⟨(P.x - a) / (b - a), div_nonneg (sub_nonneg.mpr h1) hpos.le, ?_, ?_, ?_⟩
    · rw [div_le_one hpos]; linarith
    · simp only
      field_simp
    · simp [hyP]

theorem onSegment_vertical (x a b : α) (hab : a < b) (P : Point α) :
    OnSegment ⟨⟨x, a⟩, ⟨x, b⟩⟩ P ↔ P.x = x ∧ a ≤ P.y ∧ P.y ≤ b := by
  have hpos : 0 < b - a := sub_pos.mpr hab
  constructor
  · rintro ⟨u, hu0, hu1, hxu, hyu⟩
    simp only [sub_self, mul_zero, add_zero] at hxu
    refine ⟨hxu, ?_, ?_⟩
    · rw [hyu]; nlinarith [mul_nonneg hu0 hpos.le]
    · rw [hyu]; nlinarith [mul_nonneg (sub_nonneg.mpr hu1) hpos.le]
  · rintro ⟨hxP, h1, h2⟩
    refine ⟨(P.y - a) / (b - a), div_nonneg (sub_nonneg.mpr h1) hpos.le, ?_, ?_, ?_⟩
    · rw [div_le_one hpos]; linarith
    · simp [hxP]
    · simp only
      field_simp

/-- C2: for an axis-aligned rectangle with `x0 < x1`, `y0 < y1` whose four corners are
given in any order, `parseContour` returns exactly the four sides bottom, top, left, right;
bottom and top have length `x1 - x0`, left and right have length `y1 - y0`, and a point
lies on one of the edges exactly when it lies on the rectangle's boundary. -/
theorem parseContour_rectangle (sqrt : α → α) (hs : SqrtSpec sqrt) (x0 x1 y0 y1 : α)
    (hx : x0 < x1) (hy : y0 < y1) (points : List (Point α))
    (hp : points.Perm [⟨x0, y0⟩, ⟨x1, y0⟩, ⟨x0, y1⟩, ⟨x1, y1⟩]) :
    (parseContour points).1 =
      [⟨⟨x0, y0⟩, ⟨x1, y0⟩⟩, ⟨⟨x0, y1⟩, ⟨x1, y1⟩⟩, ⟨⟨x0, y0⟩, ⟨x0, y1⟩⟩,
        ⟨⟨x1, y0⟩, ⟨x1, y1⟩⟩] ∧
    ((parseContour points).1.map (segmentLength sqrt)) = [x1 - x0, x1 - x0, y1 - y0, y1 - y0] ∧
    ∀ P : Point α, (∃ e ∈ (parseContour points).1, OnSegment e P) ↔ OnRectBoundary x0 x1 y0 y1 P := by
  rw [rectangle_parse_edges x0 x1 y0 y1 hx hy points hp]
  have hx0 : 0 ≤ x1 - x0 := (sub_pos.mpr hx).le
  have hy0 : 0 ≤ y1 - y0 := (sub_pos.mpr hy).le
  refine ⟨rfl, ?_, ?_⟩
  · simp only [List.map_cons, List.map_nil, segmentLength, sub_self]
    rw [hs.eq_of_mul_self hx0 (by ring : (x1 - x0) * (x1 - x0) = (x1 - x0) ^ 2 + 0 ^ 2),
      hs.eq_of_mul_self hy0 (by ring : (y1 - y0) * (y1 - y0) = 0 ^ 2 + (y1 - y0) ^ 2)]
  · intro P
    simp only [List.mem_cons, List.mem_singleton, List.not_mem_nil, or_false,
      exists_eq_or_imp, exists_eq_left, onSegment_horizontal _ _ _ hx,
      onSegment_vertical _ _ _ hy, OnRectBoundary]
    constructor
    · rintro (⟨h1, h2, h3⟩ | ⟨h1, h2, h3⟩ | ⟨h1, h2, h3⟩ | ⟨h1, h2, h3⟩)
      · exact ⟨⟨h2, h3, h1.ge, by rw [h1]; exact hy.le⟩, Or.inr (Or.inr (Or.inl h1))⟩
      · exact ⟨⟨h2, h3, by rw [h1]; exact hy.le, h1.le⟩, Or.inr (Or.inr (Or.inr h1))⟩
      · exact ⟨⟨h1.ge, by rw [h1]; exact hx.le, h2, h3⟩, Or.inl h1⟩
      · exact ⟨⟨by rw [h1]; exact hx.le, h1.le, h2, h3⟩, Or.inr (Or.inl h1)⟩
    · rintro ⟨⟨h1, h2, h3, h4⟩, h | h | h | h⟩
      · exact Or.inr (Or.inr (Or.inl ⟨h, h3, h4⟩))
      · exact Or.inr (Or.inr (Or.inr ⟨h, h3, h4⟩))
      · exact Or.inl ⟨h, h1, h2⟩
      · exact Or.inr (Or.inl ⟨h, h1, h2⟩)

theorem real_sqrtSpec : SqrtSpec Real.sqrt :=
  fun v hv => ⟨Real.sqrt_nonneg v, Real.mul_self_sqrt hv⟩

theorem parseContour_rectangle_witness :
    (parseContour ([⟨10, 0⟩, ⟨0, 0⟩, ⟨0, 10⟩, ⟨10, 10⟩] : List (Point ℝ))).1 =
      [⟨⟨0, 0⟩, ⟨10, 0⟩⟩, ⟨⟨0, 10⟩, ⟨10, 10⟩⟩, ⟨⟨0, 0⟩, ⟨0, 10⟩⟩, ⟨⟨10, 0⟩, ⟨10, 10⟩⟩] ∧
    ((parseContour ([⟨10, 0⟩, ⟨0, 0⟩, ⟨0, 10⟩, ⟨10, 10⟩] : List (Point ℝ))).1.map
      (segmentLength Real.sqrt)) = [10 - 0, 10 - 0, 10 - 0, 10 - 0] ∧
    ∀ P : Point ℝ,
      (∃ e ∈ (parseContour ([⟨10, 0⟩, ⟨0, 0⟩, ⟨0, 10⟩, ⟨10, 10⟩] : List (Point ℝ))).1,
        OnSegment e P) ↔ OnRectBoundary 0 10 0 10 P :=
  parseContour_rectangle Real.sqrt real_sqrtSpec 0 10 0 10 (by norm_num) (by norm_num)
    [⟨10, 0⟩, ⟨0, 0⟩, ⟨0, 10⟩, ⟨10, 10⟩] (List.Perm.swap _ _ _)

/-! ## Intersector -/

theorem tol_pos : (0 : α) < tol := by
  unfold tol; positivity

theorem det_ne_zero_of_not_lt_tol {line : Line α} {segment : Segment α}
    (h : ¬ |det line segment| < tol) : det line segment ≠ 0 := by
  intro h0
  apply h
  rw [h0, abs_zero]
  exact tol_pos

theorem findIntersection_eq_some_iff (line : Line α) (segment : Segment α) (P : Point α) :
    findIntersection line segment = some P ↔
      ¬ |det line segment| < tol ∧ 0 ≤ paramU line segment ∧ paramU line segment ≤ 1 ∧
      P = ⟨line.origin.x + line.direction.x * paramT line segment,
           line.origin.y + line.direction.y * paramT line segment⟩ := by
  unfold findIntersection
  by_cases h1 : |det line segment| < tol
  · simp [h1]
  · by_cases h2 : 0 ≤ paramU line segment ∧ paramU line segment ≤ 1
    · simp only [h1, h2, if_false, if_true, Option.some.injEq, not_false_eq_true, and_self,
        true_and]
      exact eq_comm
    · simp only [h1, h2, if_false]
      constructor
      · intro h; cases h
      · rintro ⟨_, h3, h4, _⟩; exact absurd ⟨h3, h4⟩ h2

/-- The Cramer solution solves the system: with `det ≠ 0`,
`origin + t * direction = start + u * (end - start)` in both coordinates. -/
theorem cramer_solves (line : Line α) (segment : Segment α) (h : det line segment ≠ 0) :
    line.origin.x + line.direction.x * paramT line segment =
      segment.start.x + paramU line segment * (segment.end_.x - segment.start.x) ∧
    line.origin.y + line.direction.y * paramT line segment =
      segment.start.y + paramU line segment * (segment.end_.y - segment.start.y) := by
  have ht : paramT line segment * det line segment =
      (rightSide line segment).x * (-(segVec segment).y)
        - (rightSide line segment).y * (-(segVec segment).x) := div_mul_cancel₀ _ h
  have hu : paramU line segment * det line segment =
      line.direction.x * (rightSide line segment).y
        - line.direction.y * (rightSide line segment).x := div_mul_cancel₀ _ h
  constructor
  · apply mul_right_cancel₀ h
    have e1 : (line.origin.x + line.direction.x * paramT line segment) * det line segment =
        line.origin.x * det line segment
          + line.direction.x * (paramT line segment * det line segment) := by ring
    have e2 : (segment.start.x + paramU line segment * (segment.end_.x - segment.start.x))
          * det line segment =
        segment.start.x * det line segment
          + (paramU line segment * det line segment) * (segment.end_.x - segment.start.x) := by
      ring
    rw [e1, e2, ht, hu]
    simp only [det, segVec, rightSide]
    ring
  · apply mul_right_cancel₀ h
    have e1 : (line.origin.y + line.direction.y * paramT line segment) * det line segment =
        line.origin.y * det line segment
          + line.direction.y * (paramT line segment * det line segment) := by ring
    have e2 : (segment.start.y + paramU line segment * (segment.end_.y - segment.start.y))
          * det line segment =
        segment.start.y * det line segment
          + (paramU line segment * det line segment) * (segment.end_.y - segment.start.y) := by
      ring
    rw [e1, e2, ht, hu]
    simp only [det, segVec, rightSide]
    ring

/-- In exact arithmetic `findIntersection` returns the sentinel exactly when
`|det| < 1e-10` or `u` lies outside `[0, 1]`, where `det = d.x * (-s.y) - d.y * (-s.x)`,
`s = end - start`, `u = (d.x * r.y - d.y * r.x) / det` and `r = start - origin`; `u = 0`
and `u = 1` are accepted, and every value of the line parameter `t` occurs among returned
intersections. -/
theorem findIntersection_exact_iff :
    (∀ (line : Line α) (segment : Segment α),
      (findIntersection line segment = none ↔
        |det line segment| < tol ∨ paramU line segment < 0 ∨ 1 < paramU line segment) ∧
      det line segment =
        line.direction.x * (-(segment.end_.y - segment.start.y))
          - line.direction.y * (-(segment.end_.x - segment.start.x)) ∧
      paramU line segment =
        (line.direction.x * (segment.start.y - line.origin.y)
          - line.direction.y * (segment.start.x - line.origin.x)) / det line segment ∧
      (¬ |det line segment| < tol → (paramU line segment = 0 ∨ paramU line segment = 1) →
        findIntersection line segment ≠ none)) ∧
    (∀ t0 : α, ∃ (line : Line α) (segment : Segment α),
      paramT line segment = t0 ∧ findIntersection line segment ≠ none) := by
  constructor
  · intro line segment
    have hiff : findIntersection line segment = none ↔
        |det line segment| < tol ∨ paramU line segment < 0 ∨ 1 < paramU line segment := by
      unfold findIntersection
      by_cases h1 : |det line segment| < tol
      · simp [h1]
      · by_cases h2 : 0 ≤ paramU line segment ∧ paramU line segment ≤ 1
        · simp only [h1, h2, if_false, if_true, false_or]
          constructor
          · intro h; cases h
          · rintro (h | h)
            · exact absurd h2.1 (not_le.mpr h)
            · exact absurd h2.2 (not_le.mpr h)
        · simp only [h1, h2, if_false, false_or, true_iff]
          by_contra hc
          push_neg at hc
          exact h2 hc
    refine ⟨hiff, rfl, rfl, ?_⟩
    intro hdet hu hnone
    rcases hiff.mp hnone with h | h | h
    · exact hdet h
    · rcases hu with hu | hu <;> rw [hu] at h
      · exact lt_irrefl _ h
      · exact absurd h (by norm_num)
    · rcases hu with hu | hu <;> rw [hu] at h
      · exact absurd h (by norm_num)
      · exact lt_irrefl _ h
  · intro t0
    refine ⟨⟨⟨0, 0⟩, ⟨1, 0⟩⟩, ⟨⟨t0, -1⟩, ⟨t0, 1⟩⟩, ?_, ?_⟩
    · simp only [paramT, det, segVec, rightSide]
      field_simp
    · have hd : det (⟨⟨0, 0⟩, ⟨1, 0⟩⟩ : Line α) ⟨⟨t0, -1⟩, ⟨t0, 1⟩⟩ = -2 := by
        simp only [det, segVec]; ring
      have hu : paramU (⟨⟨0, 0⟩, ⟨1, 0⟩⟩ : Line α) ⟨⟨t0, -1⟩, ⟨t0, 1⟩⟩ = 1 / 2 := by
        simp only [paramU, hd, rightSide]; norm_num
      have ht : ¬ |(-2 : α)| < tol := by
        unfold tol; norm_num
      have hsome := (findIntersection_eq_some_iff (⟨⟨0, 0⟩, ⟨1, 0⟩⟩ : Line α)
        ⟨⟨t0, -1⟩, ⟨t0, 1⟩⟩ _).mpr ⟨by rw [hd]; exact ht, by rw [hu]; norm_num,
          by rw [hu]; norm_num, rfl⟩
      rw [hsome]
      exact Option.some_ne_none _

/-- C4: whenever `findIntersection` returns a point `P`, then `P = o + t * d` for the
computed `t`, `P = p1 + u * (p2 - p1)` for the computed `u`, and `0 ≤ u ≤ 1`; so `P` lies
on the line and on the segment. -/
theorem findIntersection_sound (line : Line α) (segment : Segment α) (P : Point α)
    (h : findIntersection line segment = some P) :
    (P.x = line.origin.x + line.direction.x * paramT line segment ∧
     P.y = line.origin.y + line.direction.y * paramT line segment) ∧
    (P.x = segment.start.x + paramU line segment * (segment.end_.x - segment.start.x) ∧
     P.y = segment.start.y + paramU line segment * (segment.end_.y - segment.start.y)) ∧
    (0 ≤ paramU line segment ∧ paramU line segment ≤ 1) ∧
    OnLine line P ∧ OnSegment segment P := by
  obtain ⟨hdet, hu0, hu1, hP⟩ := (findIntersection_eq_some_iff line segment P).mp h
  obtain ⟨hx, hy⟩ := cramer_solves line segment (det_ne_zero_of_not_lt_tol hdet)
  subst hP
  exact ⟨⟨rfl, rfl⟩, ⟨hx, hy⟩, ⟨hu0, hu1⟩, ⟨paramT line segment, rfl, rfl⟩,
    ⟨paramU line segment, hu0, hu1, hx, hy⟩⟩

theorem findIntersection_sound_witness :
    (((0 : ℚ) = 5 + 1 * paramT (⟨⟨5, 3⟩, ⟨1, 0⟩⟩ : Line ℚ) ⟨⟨0, 0⟩, ⟨0, 10⟩⟩ ∧
      (3 : ℚ) = 3 + 0 * paramT (⟨⟨5, 3⟩, ⟨1, 0⟩⟩ : Line ℚ) ⟨⟨0, 0⟩, ⟨0, 10⟩⟩) ∧
     ((0 : ℚ) = 0 + paramU (⟨⟨5, 3⟩, ⟨1, 0⟩⟩ : Line ℚ) ⟨⟨0, 0⟩, ⟨0, 10⟩⟩ * (0 - 0) ∧
      (3 : ℚ) = 0 + paramU (⟨⟨5, 3⟩, ⟨1, 0⟩⟩ : Line ℚ) ⟨⟨0, 0⟩, ⟨0, 10⟩⟩ * (10 - 0)) ∧
     (0 ≤ paramU (⟨⟨5, 3⟩, ⟨1, 0⟩⟩ : Line ℚ) ⟨⟨0, 0⟩, ⟨0, 10⟩⟩ ∧
      paramU (⟨⟨5, 3⟩, ⟨1, 0⟩⟩ : Line ℚ) ⟨⟨0, 0⟩, ⟨0, 10⟩⟩ ≤ 1) ∧
     OnLine (⟨⟨5, 3⟩, ⟨1, 0⟩⟩ : Line ℚ) ⟨0, 3⟩ ∧
     OnSegment (⟨⟨0, 0⟩, ⟨0, 10⟩⟩ : Segment ℚ) ⟨0, 3⟩) :=
  findIntersection_sound ⟨⟨5, 3⟩, ⟨1, 0⟩⟩ ⟨⟨0, 0⟩, ⟨0, 10⟩⟩ ⟨0, 3⟩
    (by norm_num [findIntersection, det, segVec, paramU, paramT, rightSide, tol])

/-- Under a crossing `o + t0 * d = p1 + u0 * (p2 - p1)` with `det ≠ 0` the computed segment
parameter is `u0`. -/
theorem paramU_eq_of_crossing (line : Line α) (segment : Segment α) (t0 u0 : α)
    (h : det line segment ≠ 0)
    (hx : line.origin.x + line.direction.x * t0 =
      segment.start.x + u0 * (segment.end_.x - segment.start.x))
    (hy : line.origin.y + line.direction.y * t0 =
      segment.start.y + u0 * (segment.end_.y - segment.start.y)) :
    paramU line segment = u0 := by
  unfold paramU
  rw [div_eq_iff h]
  simp only [det, segVec, rightSide]
  linear_combination (-line.direction.x) * hy + line.direction.y * hx

/-- C5 (as stated it fails): the horizontal line through the origin crosses the segment
from `(0, -1e-11)` to `(0, 1e-11)` at the single point `(0, 0)`, the segment's midpoint, yet
`findIntersection` returns the sentinel because `|det| = 2e-11 < 1e-10`.  And in binary32
the same line crosses the segment from `(0, -1)` to `(0, 1e-8)` strictly between its
endpoints with `|det| = 1`, but `1e-8 + 1` rounds to `1` and the computed `u` is exactly
1, not `< 1`. -/
theorem crossing_missed_small_det :
    CrossesInside (⟨⟨0, 0⟩, ⟨1, 0⟩⟩ : Line ℚ) ⟨⟨0, -(1 / 10 ^ 11)⟩, ⟨0, 1 / 10 ^ 11⟩⟩ ∧
    findIntersection (⟨⟨0, 0⟩, ⟨1, 0⟩⟩ : Line ℚ) ⟨⟨0, -(1 / 10 ^ 11)⟩, ⟨0, 1 / 10 ^ 11⟩⟩
      = none ∧
    Binary.toRat (decimalLit 1 (10 ^ 8)) = 11258999 / 2 ^ 50 ∧
    Binary.toRat (binary32.ofInt (-1)) = -1 ∧
    CrossesInside (⟨⟨0, 0⟩, ⟨1, 0⟩⟩ : Line ℚ) ⟨⟨0, -1⟩, ⟨0, 11258999 / 2 ^ 50⟩⟩ ∧
    Binary.toRat (detA binary32
      ⟨⟨binary32.ofInt 0, binary32.ofInt 0⟩, ⟨binary32.ofInt 1, binary32.ofInt 0⟩⟩
      ⟨⟨binary32.ofInt 0, binary32.ofInt (-1)⟩, ⟨binary32.ofInt 0, decimalLit 1 (10 ^ 8)⟩⟩)
      = -1 ∧
    paramUA binary32
      ⟨⟨binary32.ofInt 0, binary32.ofInt 0⟩, ⟨binary32.ofInt 1, binary32.ofInt 0⟩⟩
      ⟨⟨binary32.ofInt 0, binary32.ofInt (-1)⟩, ⟨binary32.ofInt 0, decimalLit 1 (10 ^ 8)⟩⟩
      = binary32.ofInt 1 := by
  have hlit : decimalLit 1 (10 ^ 8) = Binary.fin false 11258999 (-50) := rfl
  have hm1 : binary32.ofInt (-1) = Binary.fin true 1 0 := rfl
  have hdet : detA binary32
      ⟨⟨binary32.ofInt 0, binary32.ofInt 0⟩, ⟨binary32.ofInt 1, binary32.ofInt 0⟩⟩
      ⟨⟨binary32.ofInt 0, binary32.ofInt (-1)⟩, ⟨binary32.ofInt 0, decimalLit 1 (10 ^ 8)⟩⟩ =
      Binary.fin true 1 0 := rfl
  refine ⟨?_, ?_, ?_, ?_, ?_, ?_, rfl⟩
  · refine ⟨⟨0, 0⟩, ⟨0, by norm_num, by norm_num⟩, ⟨1 / 2, by norm_num, by norm_num,
      by norm_num, by norm_num⟩, ?_⟩
    rintro ⟨qx, qy⟩ ⟨t, _, hty⟩ ⟨u, _, _, hux, _⟩
    simp only at hty hux
    simp only [Point.mk.injEq]
    constructor
    · rw [hux]; ring
    · rw [hty]; ring
  · norm_num [findIntersection, det, segVec, tol, abs_lt]
  · rw [hlit]; norm_num [Binary.toRat]
  · rw [hm1]; norm_num [Binary.toRat]
  · refine ⟨⟨0, 0⟩, ⟨0, by norm_num, by norm_num⟩, ⟨1 / (1 + 11258999 / 2 ^ 50), by norm_num,
      by norm_num, by norm_num, by norm_num⟩, ?_⟩
    rintro ⟨qx, qy⟩ ⟨t, _, hty⟩ ⟨u, _, _, hux, _⟩
    simp only at hty hux
    simp only [Point.mk.injEq]
    constructor
    · rw [hux]; ring
    · rw [hty]; ring
  · rw [hdet]; norm_num [Binary.toRat]

/-- C5 (amended): in exact arithmetic, when `|det| ≥ 1e-10` and the line crosses the
segment at a single point strictly between the segment's endpoints, `findIntersection`
returns a point, the computed `u` satisfies `0 < u < 1`, and the returned point lies on
the line and on the segment. -/
theorem findIntersection_complete (line : Line α) (segment : Segment α)
    (hdet : tol ≤ |det line segment|) (hcross : CrossesInside line segment) :
    ∃ P : Point α, findIntersection line segment = some P ∧
      0 < paramU line segment ∧ paramU line segment < 1 ∧
      OnLine line P ∧ OnSegment segment P := by
  have hdet2 : ¬ |det line segment| < tol := not_lt.mpr hdet
  have hne := det_ne_zero_of_not_lt_tol hdet2
  obtain ⟨P, ⟨t0, htx, hty⟩, ⟨u0, hu0, hu1, hux, huy⟩, _⟩ := hcross
  have hu : paramU line segment = u0 :=
    paramU_eq_of_crossing line segment t0 u0 hne (htx ▸ hux) (hty ▸ huy)
  have hsome := (findIntersection_eq_some_iff line segment
    ⟨line.origin.x + line.direction.x * paramT line segment,
     line.origin.y + line.direction.y * paramT line segment⟩).mpr
    ⟨hdet2, by rw [hu]; exact hu0.le, by rw [hu]; exact hu1.le, rfl⟩
  obtain ⟨hx, hy⟩ := cramer_solves line segment hne
  refine ⟨_, hsome, by rw [hu]; exact hu0, by rw [hu]; exact hu1,
    ⟨paramT line segment, rfl, rfl⟩, ⟨paramU line segment, ?_, ?_, hx, hy⟩⟩
  · rw [hu]; exact hu0.le
  · rw [hu]; exact hu1.le

theorem findIntersection_complete_witness :
    ∃ P : Point ℚ, findIntersection (⟨⟨5, 3⟩, ⟨1, 0⟩⟩ : Line ℚ) ⟨⟨0, 0⟩, ⟨0, 10⟩⟩ = some P ∧
      0 < paramU (⟨⟨5, 3⟩, ⟨1, 0⟩⟩ : Line ℚ) ⟨⟨0, 0⟩, ⟨0, 10⟩⟩ ∧
      paramU (⟨⟨5, 3⟩, ⟨1, 0⟩⟩ : Line ℚ) ⟨⟨0, 0⟩, ⟨0, 10⟩⟩ < 1 ∧
      OnLine (⟨⟨5, 3⟩, ⟨1, 0⟩⟩ : Line ℚ) P ∧ OnSegment (⟨⟨0, 0⟩, ⟨0, 10⟩⟩ : Segment ℚ) P :=
  findIntersection_complete ⟨⟨5, 3⟩, ⟨1, 0⟩⟩ ⟨⟨0, 0⟩, ⟨0, 10⟩⟩
    (by norm_num [det, segVec, tol])
    ⟨⟨0, 3⟩, ⟨-5, by norm_num, by norm_num⟩,
      ⟨3 / 10, by norm_num, by norm_num, by norm_num, by norm_num⟩,
      by
        rintro ⟨qx, qy⟩ ⟨t, _, hty⟩ ⟨u, _, _, hux, _⟩
        simp only at hty hux
        simp only [Point.mk.injEq]
        constructor
        · rw [hux]; ring
        · rw [hty]; ring⟩

/-! ## End to end on the square -/

theorem findIntersection_eq_none_of_det (line : Line α) (segment : Segment α)
    (h : |det line segment| < tol) : findIntersection line segment = none := by
  simp [findIntersection, h]

/-- A horizontal line against the four edges of the square `[0, 10] × [0, 10]`. -/
theorem collect_square_horizontal (cx y : α) :
    collectIntersections
        [⟨⟨0, 0⟩, ⟨10, 0⟩⟩, ⟨⟨0, 10⟩, ⟨10, 10⟩⟩, ⟨⟨0, 0⟩, ⟨0, 10⟩⟩, ⟨⟨10, 0⟩, ⟨10, 10⟩⟩]
        (⟨⟨cx, y⟩, ⟨1, 0⟩⟩ : Line α) =
      if 0 ≤ y ∧ y ≤ 10 then [⟨0, y⟩, ⟨10, y⟩] else [] := by
  have hb : findIntersection (⟨⟨cx, y⟩, ⟨1, 0⟩⟩ : Line α) ⟨⟨0, 0⟩, ⟨10, 0⟩⟩ = none :=
    findIntersection_eq_none_of_det _ _ (by simp [det, segVec, tol_pos])
  have ht : findIntersection (⟨⟨cx, y⟩, ⟨1, 0⟩⟩ : Line α) ⟨⟨0, 10⟩, ⟨10, 10⟩⟩ = none :=
    findIntersection_eq_none_of_det _ _ (by simp [det, segVec, tol_pos])
  have hd1 : det (⟨⟨cx, y⟩, ⟨1, 0⟩⟩ : Line α) ⟨⟨0, 0⟩, ⟨0, 10⟩⟩ = -10 := by
    simp [det, segVec]
  have hd2 : det (⟨⟨cx, y⟩, ⟨1, 0⟩⟩ : Line α) ⟨⟨10, 0⟩, ⟨10, 10⟩⟩ = -10 := by
    simp [det, segVec]
  have hu1 : paramU (⟨⟨cx, y⟩, ⟨1, 0⟩⟩ : Line α) ⟨⟨0, 0⟩, ⟨0, 10⟩⟩ = y / 10 := by
    simp only [paramU, hd1, rightSide]; field_simp
  have hu2 : paramU (⟨⟨cx, y⟩, ⟨1, 0⟩⟩ : Line α) ⟨⟨10, 0⟩, ⟨10, 10⟩⟩ = y / 10 := by
    simp only [paramU, hd2, rightSide]; field_simp
  have ht1 : paramT (⟨⟨cx, y⟩, ⟨1, 0⟩⟩ : Line α) ⟨⟨0, 0⟩, ⟨0, 10⟩⟩ = -cx := by
    simp only [paramT, hd1, rightSide, segVec]; field_simp
  have ht2 : paramT (⟨⟨cx, y⟩, ⟨1, 0⟩⟩ : Line α) ⟨⟨10, 0⟩, ⟨10, 10⟩⟩ = 10 - cx := by
    simp only [paramT, hd2, rightSide, segVec]; field_simp
  have htol : ¬ |(-10 : α)| < tol := by unfold tol; norm_num
  have hrange : (0 ≤ y / 10 ∧ y / 10 ≤ 1) ↔ (0 ≤ y ∧ y ≤ 10) := by
    rw [le_div_iff₀ (by norm_num : (0 : α) < 10), div_le_iff₀ (by norm_num : (0 : α) < 10)]
    simp
  have hl : findIntersection (⟨⟨cx, y⟩, ⟨1, 0⟩⟩ : Line α) ⟨⟨0, 0⟩, ⟨0, 10⟩⟩ =
      if 0 ≤ y ∧ y ≤ 10 then some ⟨0, y⟩ else none := by
    simp only [findIntersection, hd1, htol, if_false, hu1, ht1, hrange]
    simp
  have hr : findIntersection (⟨⟨cx, y⟩, ⟨1, 0⟩⟩ : Line α) ⟨⟨10, 0⟩, ⟨10, 10⟩⟩ =
      if 0 ≤ y ∧ y ≤ 10 then some ⟨10, y⟩ else none := by
    simp only [findIntersection, hd2, htol, if_false, hu2, ht2, hrange]
    simp
  have hdup : ¬ (10 : α) < tol := by unfold tol; norm_num
  by_cases hy : 0 ≤ y ∧ y ≤ 10
  · simp [collectIntersections, addIntersection, hb, ht, hl, hr, hy, isDuplicate, hdup]
  · simp [collectIntersections, addIntersection, hb, ht, hl, hr, hy]

theorem emit_square_horizontal (cx y : α) :
    emitSegment
        [⟨⟨0, 0⟩, ⟨10, 0⟩⟩, ⟨⟨0, 10⟩, ⟨10, 10⟩⟩, ⟨⟨0, 0⟩, ⟨0, 10⟩⟩, ⟨⟨10, 0⟩, ⟨10, 10⟩⟩]
        (⟨⟨cx, y⟩, ⟨1, 0⟩⟩ : Line α) =
      if 0 ≤ y ∧ y ≤ 10 then some ⟨⟨0, y⟩, ⟨10, y⟩⟩ else none := by
  unfold emitSegment
  simp only [collect_square_horizontal]
  by_cases hy : 0 ≤ y ∧ y ≤ 10
  · simp [hy, at_]
  · simp [hy]

theorem findCenter_four (a b c d : Point α) :
    findCenter [a, b, c, d] =
      ⟨(a.x + b.x + c.x + d.x) / 4, (a.y + b.y + c.y + d.y) / 4⟩ := by
  simp only [findCenter, List.foldl_cons, List.foldl_nil, List.length_cons, List.length_nil,
    zero_add]
  norm_num

theorem stepVector_unit (sqrt : α → α) (hs : SqrtSpec sqrt) (d : Vector α) (step : α)
    (hd : d.x * d.x + d.y * d.y = 1) :
    stepVector sqrt d step = ⟨-d.y * step, d.x * step⟩ := by
  have h1 : sqrt (-d.y * -d.y + d.x * d.x) = 1 :=
    hs.eq_of_mul_self zero_le_one (by linear_combination (-1 : α) * hd)
  simp only [stepVector, h1, div_one]

theorem floatToInt_of_nonneg [FloorRing α] (v : α) (h : 0 ≤ v) (hlt : v < 2 ^ 31) :
    floatToInt v = some ⌊v⌋ := by
  have h1 : intMin ≤ ⌊v⌋ := by
    have := Int.floor_nonneg.mpr h
    unfold intMin
    omega
  have h2 : ⌊v⌋ ≤ intMax := by
    have h3 : ⌊v⌋ < 2 ^ 31 := by
      rw [Int.floor_lt]
      exact_mod_cast hlt
    unfold intMax
    omega
  simp [floatToInt, h, h1, h2]

theorem floatToInt_of_large [FloorRing α] (v : α) (h : 2 ^ 31 ≤ v) : floatToInt v = none := by
  have h0 : (0 : α) ≤ v := le_trans (by positivity) h
  have h3 : ¬ ⌊v⌋ ≤ intMax := by
    have h4 : (2 : ℤ) ^ 31 ≤ ⌊v⌋ := by
      rw [Int.le_floor]
      exact_mod_cast h
    unfold intMax
    omega
  simp [floatToInt, h0, h3]

theorem truncToInt_of_nonneg [FloorRing α] (v : α) (h : 0 ≤ v) (hlt : v < 2 ^ 31) :
    truncToInt v = ⌊v⌋ := by
  simp [truncToInt, floatToInt_of_nonneg v h hlt]

theorem truncToInt_of_large [FloorRing α] (v : α) (h : 2 ^ 31 ≤ v) :
    truncToInt v = intMin := by
  simp [truncToInt, floatToInt_of_large v h]

theorem truncToInt_range [FloorRing α] (v : α) :
    intMin ≤ truncToInt v ∧ truncToInt v ≤ intMax := by
  unfold truncToInt floatToInt
  by_cases h : intMin ≤ (if 0 ≤ v then ⌊v⌋ else ⌈v⌉) ∧ (if 0 ≤ v then ⌊v⌋ else ⌈v⌉) ≤ intMax
  · rw [if_pos h]
    exact h
  · rw [if_neg h]
    simp [intMin, intMax]

theorem wrapInt_neg (L : ℤ) (h0 : -(2 ^ 31) < L) (h1 : L ≤ 2 ^ 31) : wrapInt (-L) = -L := by
  unfold wrapInt
  omega

/-- C6: for the square `(0,0), (10,0), (0,10), (10,10)`, direction `(1, 0)` (angle 0) and
step 1 the sorted output is exactly the 11 segments `(0,k) -> (10,k)`, `k = 0..10`, in
ascending `k`.  There are 17 lines per side; the generated lines are `y = -12, ..., 22`
through `x = 5`; the line `y = 5 + i` contributes its segment exactly when
`0 ≤ 5 + i ≤ 10` (the boundary lines `y = 0` and `y = 10` included) and nothing
otherwise. -/
theorem hatch_square [FloorRing α] (sqrt : α → α) (hs : SqrtSpec sqrt) :
    hatch sqrt [⟨0, 0⟩, ⟨10, 0⟩, ⟨0, 10⟩, ⟨10, 10⟩] ⟨1, 0⟩ 1 =
      some [⟨⟨0, 0⟩, ⟨10, 0⟩⟩, ⟨⟨0, 1⟩, ⟨10, 1⟩⟩, ⟨⟨0, 2⟩, ⟨10, 2⟩⟩, ⟨⟨0, 3⟩, ⟨10, 3⟩⟩,
        ⟨⟨0, 4⟩, ⟨10, 4⟩⟩, ⟨⟨0, 5⟩, ⟨10, 5⟩⟩, ⟨⟨0, 6⟩, ⟨10, 6⟩⟩, ⟨⟨0, 7⟩, ⟨10, 7⟩⟩,
        ⟨⟨0, 8⟩, ⟨10, 8⟩⟩, ⟨⟨0, 9⟩, ⟨10, 9⟩⟩, ⟨⟨0, 10⟩, ⟨10, 10⟩⟩] ∧
    linesPerSide sqrt (parseContour [⟨0, 0⟩, ⟨10, 0⟩, ⟨0, 10⟩, ⟨10, 10⟩]).2 1 = 17 ∧
    hatchLines (findCenter (parseContour [(⟨0, 0⟩ : Point α), ⟨10, 0⟩, ⟨0, 10⟩, ⟨10, 10⟩]).2)
        (stepVector sqrt ⟨1, 0⟩ 1) ⟨1, 0⟩ 17 =
      (intRange (-17) 17).map (fun i : ℤ => (⟨⟨5, 5 + (i : α)⟩, ⟨1, 0⟩⟩ : Line α)) ∧
    ∀ i : ℤ,
      emitSegment (parseContour [(⟨0, 0⟩ : Point α), ⟨10, 0⟩, ⟨0, 10⟩, ⟨10, 10⟩]).1
          ⟨⟨5, 5 + (i : α)⟩, ⟨1, 0⟩⟩ =
        if 0 ≤ 5 + (i : α) ∧ 5 + (i : α) ≤ 10 then some ⟨⟨0, 5 + (i : α)⟩, ⟨10, 5 + (i : α)⟩⟩
        else none := by
  have hpc := rectangle_parse_edges (0 : α) 10 0 10 (by norm_num) (by norm_num)
    [⟨0, 0⟩, ⟨10, 0⟩, ⟨0, 10⟩, ⟨10, 10⟩] (List.Perm.refl _)
  have hc : findCenter [(⟨0, 0⟩ : Point α), ⟨10, 0⟩, ⟨0, 10⟩, ⟨10, 10⟩] = ⟨5, 5⟩ := by
    rw [findCenter_four]; norm_num
  have hsv : stepVector sqrt (⟨1, 0⟩ : Vector α) 1 = ⟨0, 1⟩ := by
    rw [stepVector_unit sqrt hs _ _ (by norm_num)]; norm_num
  have hL : linesPerSide sqrt [(⟨0, 0⟩ : Point α), ⟨10, 0⟩, ⟨0, 10⟩, ⟨10, 10⟩] 1 = 17 := by
    obtain ⟨h0, h1⟩ := hs ((10 - 0) ^ 2 + (10 - 0) ^ 2) (by norm_num)
    have hlo : (14 : α) ≤ sqrt ((10 - 0) ^ 2 + (10 - 0) ^ 2) := by
      by_contra hc
      push_neg at hc
      nlinarith
    have hhi : sqrt ((10 - 0) ^ 2 + (10 - 0) ^ 2) < (15 : α) := by
      by_contra hc
      push_neg at hc
      nlinarith
    simp only [linesPerSide, diagonal, at_, List.getD_cons_zero, List.getD_cons_succ, div_one]
    have h31 : (18 : α) < 2 ^ 31 := by norm_num
    rw [truncToInt_of_nonneg _ (by linarith) (by linarith), Int.floor_eq_iff]
    constructor
    · push_cast; linarith
    · push_cast; linarith
  have hlines : hatchLines (⟨5, 5⟩ : Point α) ⟨0, 1⟩ ⟨1, 0⟩ 17 =
      (intRange (-17) 17).map (fun i : ℤ => (⟨⟨5, 5 + (i : α)⟩, ⟨1, 0⟩⟩ : Line α)) := by
    simp only [hatchLines, wrapInt_neg 17 (by norm_num) (by norm_num)]
    apply List.map_congr_left
    intro i _
    simp [hatchLine]
  have hrange : intRange (-17) 17 = [-17, -16, -15, -14, -13, -12, -11, -10, -9, -8, -7, -6,
      -5, -4, -3, -2, -1, 0, 1, 2, 3, 4, 5, 6, 7, 8, 9, 10, 11, 12, 13, 14, 15, 16, 17] := by
    decide
  rw [hpc]
  refine ⟨?_, hL, ?_, ?_⟩
  · simp only [hatch, List.length_cons, List.length_nil, hpc, hc, hL, hsv, hlines, hrange,
      emittedSegments]
    simp only [List.map_cons, List.map_nil, List.filterMap_cons, List.filterMap_nil,
      emit_square_horizontal]
    norm_num
    apply List.Sorted.insertionSort_eq
    simp only [List.Sorted, List.pairwise_cons, List.mem_cons, List.mem_singleton,
      forall_eq_or_imp, forall_eq, List.not_mem_nil, false_implies, implies_true,
      List.Pairwise.nil, and_true, Segment.notAfter, Segment.lt]
    norm_num
  · rw [hc, hsv, hlines]
  · intro i
    exact emit_square_horizontal 5 (5 + (i : α))

theorem hatch_square_witness :
    SqrtSpec Real.sqrt ∧
    hatch Real.sqrt [⟨0, 0⟩, ⟨10, 0⟩, ⟨0, 10⟩, ⟨10, 10⟩] ⟨1, 0⟩ 1 =
      some [⟨⟨0, 0⟩, ⟨10, 0⟩⟩, ⟨⟨0, 1⟩, ⟨10, 1⟩⟩, ⟨⟨0, 2⟩, ⟨10, 2⟩⟩, ⟨⟨0, 3⟩, ⟨10, 3⟩⟩,
        ⟨⟨0, 4⟩, ⟨10, 4⟩⟩, ⟨⟨0, 5⟩, ⟨10, 5⟩⟩, ⟨⟨0, 6⟩, ⟨10, 6⟩⟩, ⟨⟨0, 7⟩, ⟨10, 7⟩⟩,
        ⟨⟨0, 8⟩, ⟨10, 8⟩⟩, ⟨⟨0, 9⟩, ⟨10, 9⟩⟩, ⟨⟨0, 10⟩, ⟨10, 10⟩⟩] :=
  ⟨real_sqrtSpec, (hatch_square Real.sqrt real_sqrtSpec).1⟩

/-! ## The diagonal and the reach of the line family -/

theorem parseContour_snd (points : List (Point α)) (hlen : points.length = 4) :
    (parseContour points).2 = sortPoints points := by
  simp [parseContour, hlen]

/-- C7 (as stated it fails): for the input `(0,0), (3,0), (3,4), (0,4)` the first and the
last point of the input order are at distance 4, but `main` computes `diagonal = 5`, the
distance between `(0,0)` and `(3,4)`, because `parseContour` has sorted the vector. -/
theorem diagonal_not_input_order :
    diagonal Real.sqrt (parseContour [⟨0, 0⟩, ⟨3, 0⟩, ⟨3, 4⟩, ⟨0, 4⟩]).2 = 5 ∧
    Real.sqrt (((0 : ℝ) - 0) ^ 2 + ((4 : ℝ) - 0) ^ 2) = 4 := by
  have hsorted : sortPoints ([⟨0, 0⟩, ⟨3, 0⟩, ⟨3, 4⟩, ⟨0, 4⟩] : List (Point ℝ)) =
      [⟨0, 0⟩, ⟨3, 0⟩, ⟨0, 4⟩, ⟨3, 4⟩] := by
    apply sortPoints_unique
    · exact List.Perm.cons _ (List.Perm.cons _ (List.Perm.swap _ _ _))
    · exact rectangle_corners_sorted 0 3 0 4 (by norm_num) (by norm_num)
  constructor
  · rw [parseContour_snd _ (by rfl), hsorted]
    simp only [diagonal, at_, List.getD_cons_zero, List.getD_cons_succ]
    exact real_sqrtSpec.eq_of_mul_self (by norm_num) (by norm_num)
  · exact real_sqrtSpec.eq_of_mul_self (by norm_num) (by norm_num)

/-- C7 (amended): for every 4-point input the value `diagonal` used to size the line
family is the distance between the least point `p0` and the greatest point `p3` of the
input under `Point::operator<` (the first and last entries after `parseContour` sorted the
vector): `diagonal = sqrt((p3.x - p0.x)^2 + (p3.y - p0.y)^2)`; it is the same for every
ordering of the same four points. -/
theorem diagonal_sorted (sqrt : α → α) (points : List (Point α)) (hlen : points.length = 4) :
    (∃ p0 p3 : Point α, p0 ∈ points ∧ p3 ∈ points ∧
      (∀ q ∈ points, ¬ Point.lt q p0 ∧ ¬ Point.lt p3 q) ∧
      diagonal sqrt (parseContour points).2 =
        sqrt ((p3.x - p0.x) ^ 2 + (p3.y - p0.y) ^ 2)) ∧
    ∀ points2 : List (Point α), points2.Perm points →
      diagonal sqrt (parseContour points2).2 = diagonal sqrt (parseContour points).2 := by
  constructor
  · obtain ⟨p0, p1, p2, p3, hperm, hsorted, hpc⟩ := parseContour_of_four points hlen
    refine ⟨p0, p3, hperm.subset (by simp), hperm.subset (by simp), ?_, ?_⟩
    · intro q hq
      have hq2 : q ∈ [p0, p1, p2, p3] := hperm.symm.subset hq
      simp only [List.Sorted, List.pairwise_cons, List.mem_cons, List.mem_singleton,
        forall_eq_or_imp, forall_eq, List.not_mem_nil, false_implies, implies_true,
        List.Pairwise.nil, and_true] at hsorted
      obtain ⟨⟨h01, h02, h03⟩, ⟨h12, h13⟩, h23⟩ := hsorted
      have hrefl : ∀ a : Point α, ¬ Point.lt a a := fun a h => by
        rw [point_lt_iff] at h
        rcases h with h | ⟨_, h⟩ <;> exact lt_irrefl _ h
      simp only [List.mem_cons, List.mem_singleton, List.not_mem_nil, or_false] at hq2
      rcases hq2 with rfl | rfl | rfl | rfl
      · exact ⟨hrefl _, h03⟩
      · exact ⟨h01, h13⟩
      · exact ⟨h02, h23⟩
      · exact ⟨h03, hrefl _⟩
    · rw [hpc]
      simp [diagonal, at_]
  · intro points2 hp
    have hlen2 : points2.length = 4 := by rw [hp.length_eq, hlen]
    rw [parseContour_snd _ hlen2, parseContour_snd _ hlen]
    rw [sortPoints_unique points2 (sortPoints points)
      ((sortPoints_perm points).trans hp.symm) (sortPoints_sorted points)]

theorem diagonal_sorted_witness :
    (∃ p0 p3 : Point ℝ, p0 ∈ [(⟨0, 0⟩ : Point ℝ), ⟨3, 0⟩, ⟨3, 4⟩, ⟨0, 4⟩] ∧
      p3 ∈ [(⟨0, 0⟩ : Point ℝ), ⟨3, 0⟩, ⟨3, 4⟩, ⟨0, 4⟩] ∧
      (∀ q ∈ [(⟨0, 0⟩ : Point ℝ), ⟨3, 0⟩, ⟨3, 4⟩, ⟨0, 4⟩], ¬ Point.lt q p0 ∧ ¬ Point.lt p3 q) ∧
      diagonal Real.sqrt (parseContour [⟨0, 0⟩, ⟨3, 0⟩, ⟨3, 4⟩, ⟨0, 4⟩]).2 =
        Real.sqrt ((p3.x - p0.x) ^ 2 + (p3.y - p0.y) ^ 2)) ∧
    ∀ points2 : List (Point ℝ), points2.Perm [⟨0, 0⟩, ⟨3, 0⟩, ⟨3, 4⟩, ⟨0, 4⟩] →
      diagonal Real.sqrt (parseContour points2).2 =
        diagonal Real.sqrt (parseContour [⟨0, 0⟩, ⟨3, 0⟩, ⟨3, 4⟩, ⟨0, 4⟩]).2 :=
  diagonal_sorted Real.sqrt [⟨0, 0⟩, ⟨3, 0⟩, ⟨3, 4⟩, ⟨0, 4⟩] rfl

theorem mem_intRange (lo hi i : ℤ) : i ∈ intRange lo hi ↔ lo ≤ i ∧ i ≤ hi := by
  simp only [intRange, List.mem_map, List.mem_range]
  constructor
  · rintro ⟨k, hk, rfl⟩
    omega
  · rintro ⟨h1, h2⟩
    exact ⟨(i - lo).toNat, by omega, by omega⟩

/-- A line whose index lies in `-L..L` is among the generated lines when `L` is in the
range where the negation does not wrap. -/
theorem hatchLine_mem_hatchLines (center : Point α) (sv d : Vector α) (L i : ℤ)
    (h0 : -(2 ^ 31) < L) (h1 : L ≤ 2 ^ 31) (hlo : -L ≤ i) (hhi : i ≤ L) :
    hatchLine center sv d i ∈ hatchLines center sv d L := by
  unfold hatchLines
  rw [wrapInt_neg L h0 h1]
  exact List.mem_map.mpr ⟨i, (mem_intRange _ _ _).mpr ⟨hlo, hhi⟩, rfl⟩

theorem linesPerSide_le_intMax [FloorRing α] (sqrt : α → α) (points : List (Point α))
    (step : α) : linesPerSide sqrt points step ≤ 2 ^ 31 := by
  have h := (truncToInt_range (diagonal sqrt points / step + 3)).2
  unfold intMax at h
  unfold linesPerSide
  omega

theorem diagonal_nonneg (sqrt : α → α) (hs : SqrtSpec sqrt) (points : List (Point α)) :
    0 ≤ diagonal sqrt points :=
  (hs _ (add_nonneg (sq_nonneg _) (sq_nonneg _))).1

theorem linesPerSide_eq_floor [FloorRing α] (sqrt : α → α) (hs : SqrtSpec sqrt)
    (points : List (Point α)) (step : α) (hstep : 0 < step)
    (hrange : diagonal sqrt points / step + 3 < 2 ^ 31 - 1) :
    linesPerSide sqrt points step = ⌊diagonal sqrt points / step⌋ + 3 := by
  have hq : 0 ≤ diagonal sqrt points / step :=
    div_nonneg (diagonal_nonneg sqrt hs points) hstep.le
  unfold linesPerSide
  rw [truncToInt_of_nonneg _ (by linarith) (by linarith)]
  have h : diagonal sqrt points / step + 3 = diagonal sqrt points / step + ((3 : ℤ) : α) := by
    push_cast; rfl
  rw [h, Int.floor_add_int]

/-- With `step > 0` and the conversion to `int` in range the outermost lines lie farther
out than `diagonal + 2 * step`. -/
theorem linesPerSide_reach [FloorRing α] (sqrt : α → α) (hs : SqrtSpec sqrt)
    (points : List (Point α)) (step : α) (hstep : 0 < step)
    (hrange : diagonal sqrt points / step + 3 < 2 ^ 31 - 1) :
    diagonal sqrt points + 2 * step < (linesPerSide sqrt points step : α) * step := by
  have hD := diagonal_nonneg sqrt hs points
  have hq : 0 ≤ diagonal sqrt points / step := div_nonneg hD hstep.le
  unfold linesPerSide
  rw [truncToInt_of_nonneg _ (by linarith) (by linarith)]
  have h1 := Int.lt_floor_add_one (diagonal sqrt points / step + 3)
  have h2 : diagonal sqrt points / step + 2 < (⌊diagonal sqrt points / step + 3⌋ : α) := by
    linarith
  have h3 := mul_lt_mul_of_pos_right h2 hstep
  have h4 : (diagonal sqrt points / step + 2) * step = diagonal sqrt points + 2 * step := by
    field_simp
  linarith

/-- The perpendicular offset of a point is at most its distance from the centre. -/
theorem perpOffset_sq_le (center : Point α) (d : Vector α) (P : Point α)
    (hd : d.x * d.x + d.y * d.y = 1) :
    (perpOffset center d P) ^ 2 ≤ (P.x - center.x) ^ 2 + (P.y - center.y) ^ 2 := by
  unfold perpOffset
  have h : (P.x - center.x) ^ 2 + (P.y - center.y) ^ 2 -
      ((P.x - center.x) * (-d.y) + (P.y - center.y) * d.x) ^ 2 =
      ((P.x - center.x) * d.x + (P.y - center.y) * d.y) ^ 2 := by
    have e : (P.x - center.x) ^ 2 + (P.y - center.y) ^ 2 =
        ((P.x - center.x) ^ 2 + (P.y - center.y) ^ 2) * (d.x * d.x + d.y * d.y) := by
      rw [hd, mul_one]
    rw [e]; ring
  have h2 := sq_nonneg ((P.x - center.x) * d.x + (P.y - center.y) * d.y)
  linarith

/-- A point of the hatch line of index `i` has perpendicular offset `i * step`. -/
theorem perpOffset_on_hatchLine (center : Point α) (d : Vector α) (step : α) (i : ℤ)
    (hd : d.x * d.x + d.y * d.y = 1) (X : Point α)
    (hX : OnLine (hatchLine center ⟨-d.y * step, d.x * step⟩ d i) X) :
    perpOffset center d X = (i : α) * step := by
  obtain ⟨t, hx, hy⟩ := hX
  simp only [hatchLine] at hx hy
  unfold perpOffset
  rw [hx, hy]
  linear_combination ((i : α) * step) * hd

/-- The perpendicular offset of a point of a segment lies between the offsets of the
segment's endpoints. -/
theorem perpOffset_on_segment (center : Point α) (d : Vector α) (e : Segment α) (X : Point α)
    (M : α) (hs : |perpOffset center d e.start| < M) (he : |perpOffset center d e.end_| < M)
    (hX : OnSegment e X) : |perpOffset center d X| < M := by
  obtain ⟨u, hu0, hu1, hx, hy⟩ := hX
  have hlin : perpOffset center d X =
      (1 - u) * perpOffset center d e.start + u * perpOffset center d e.end_ := by
    unfold perpOffset
    rw [hx, hy]; ring
  rw [abs_lt] at hs he ⊢
  rw [hlin]
  have h1u : 0 ≤ 1 - u := by linarith
  constructor
  · nlinarith [mul_nonneg h1u (by linarith : 0 ≤ perpOffset center d e.start + M),
      mul_nonneg hu0 (by linarith : 0 ≤ perpOffset center d e.end_ + M)]
  · nlinarith [mul_nonneg h1u (by linarith : 0 ≤ M - perpOffset center d e.start),
      mul_nonneg hu0 (by linarith : 0 ≤ M - perpOffset center d e.end_)]

/-- Both endpoints of every edge built by `parseContour` are input points. -/
theorem parseContour_endpoints (points : List (Point α)) (e : Segment α)
    (he : e ∈ (parseContour points).1) : e.start ∈ points ∧ e.end_ ∈ points := by
  by_cases hlen : points.length = 4
  · obtain ⟨p0, p1, p2, p3, hperm, _, hpc⟩ := parseContour_of_four points hlen
    rw [hpc] at he
    simp only [List.mem_cons, List.mem_singleton, List.not_mem_nil, or_false] at he
    have h0 : p0 ∈ points := hperm.subset (by simp)
    have h1 : p1 ∈ points := hperm.subset (by simp)
    have h2 : p2 ∈ points := hperm.subset (by simp)
    have h3 : p3 ∈ points := hperm.subset (by simp)
    rcases he with rfl | rfl | rfl | rfl
    · exact ⟨h0, h1⟩
    · exact ⟨h2, h3⟩
    · exact ⟨h0, h2⟩
    · exact ⟨h1, h3⟩
  · rw [parseContour_of_not_four points hlen] at he
    simp at he

/-- C8 (as stated it fails): for the flat rhombus `(0,0), (-1000,1/2), (1000,1/2), (0,1)`,
step 1 and the unit direction `(0, 1)`, `diagonal = 1` and `L = 4`, but the contour point
`(1000, 1/2)` has perpendicular offset `-1000` from the centre; the line of index 500
crosses the contour from `(-500, 1/4)` to `(-500, 3/4)` and is not in the range `-4..4`. -/
theorem flat_rhombus_not_covered :
    linesPerSide Real.sqrt (parseContour [⟨0, 0⟩, ⟨-1000, 1 / 2⟩, ⟨1000, 1 / 2⟩, ⟨0, 1⟩]).2 1 = 4 ∧
    (⟨1000, 1 / 2⟩ : Point ℝ) ∈ [(⟨0, 0⟩ : Point ℝ), ⟨-1000, 1 / 2⟩, ⟨1000, 1 / 2⟩, ⟨0, 1⟩] ∧
    perpOffset (findCenter (parseContour [(⟨0, 0⟩ : Point ℝ), ⟨-1000, 1 / 2⟩, ⟨1000, 1 / 2⟩, ⟨0, 1⟩]).2) ⟨0, 1⟩ ⟨1000, 1 / 2⟩ = -1000 ∧
    ¬ |perpOffset (findCenter (parseContour [(⟨0, 0⟩ : Point ℝ), ⟨-1000, 1 / 2⟩, ⟨1000, 1 / 2⟩, ⟨0, 1⟩]).2) ⟨0, 1⟩ ⟨1000, 1 / 2⟩| <
        ((4 : ℤ) : ℝ) * 1 ∧
    (500 : ℤ) ∉ intRange (-4) 4 ∧
    emitSegment (parseContour [(⟨0, 0⟩ : Point ℝ), ⟨-1000, 1 / 2⟩, ⟨1000, 1 / 2⟩, ⟨0, 1⟩]).1
        (hatchLine (findCenter (parseContour [(⟨0, 0⟩ : Point ℝ), ⟨-1000, 1 / 2⟩, ⟨1000, 1 / 2⟩, ⟨0, 1⟩]).2) (stepVector Real.sqrt ⟨0, 1⟩ 1) ⟨0, 1⟩ 500)
      = some ⟨⟨-500, 1 / 4⟩, ⟨-500, 3 / 4⟩⟩ := by
  have hsorted : ([(⟨0, 0⟩ : Point ℝ), ⟨-1000, 1 / 2⟩, ⟨1000, 1 / 2⟩, ⟨0, 1⟩]).Sorted Point.notAfter := by
    simp only [List.Sorted, List.pairwise_cons, List.mem_cons, List.mem_singleton,
      point_notAfter_iff, forall_eq_or_imp, forall_eq, List.not_mem_nil, false_implies,
      implies_true, List.Pairwise.nil, and_true]
    norm_num
  have hsort := sortPoints_unique [(⟨0, 0⟩ : Point ℝ), ⟨-1000, 1 / 2⟩, ⟨1000, 1 / 2⟩, ⟨0, 1⟩] _ (List.Perm.refl _) hsorted
  have hpc : parseContour [(⟨0, 0⟩ : Point ℝ), ⟨-1000, 1 / 2⟩, ⟨1000, 1 / 2⟩, ⟨0, 1⟩] =
      ([⟨⟨0, 0⟩, ⟨-1000, 1 / 2⟩⟩, ⟨⟨1000, 1 / 2⟩, ⟨0, 1⟩⟩, ⟨⟨0, 0⟩, ⟨1000, 1 / 2⟩⟩,
        ⟨⟨-1000, 1 / 2⟩, ⟨0, 1⟩⟩], [⟨0, 0⟩, ⟨-1000, 1 / 2⟩, ⟨1000, 1 / 2⟩, ⟨0, 1⟩]) := by
    simp only [parseContour, List.length_cons, List.length_nil, hsort]
    simp [at_]
  have hc : findCenter [(⟨0, 0⟩ : Point ℝ), ⟨-1000, 1 / 2⟩, ⟨1000, 1 / 2⟩, ⟨0, 1⟩] = ⟨0, 1 / 2⟩ := by
    rw [findCenter_four]; norm_num
  have hsv : stepVector Real.sqrt (⟨0, 1⟩ : Vector ℝ) 1 = ⟨-1, 0⟩ := by
    rw [stepVector_unit Real.sqrt real_sqrtSpec _ _ (by norm_num)]; norm_num
  have hdiag : diagonal Real.sqrt [(⟨0, 0⟩ : Point ℝ), ⟨-1000, 1 / 2⟩, ⟨1000, 1 / 2⟩, ⟨0, 1⟩] = 1 := by
    simp only [diagonal, at_, List.getD_cons_zero, List.getD_cons_succ]
    exact real_sqrtSpec.eq_of_mul_self (by norm_num) (by norm_num)
  have hL : linesPerSide Real.sqrt [(⟨0, 0⟩ : Point ℝ), ⟨-1000, 1 / 2⟩, ⟨1000, 1 / 2⟩, ⟨0, 1⟩] 1 = 4 := by
    simp only [linesPerSide, hdiag]
    rw [truncToInt_of_nonneg _ (by norm_num) (by norm_num), Int.floor_eq_iff]
    norm_num
  rw [hpc]
  refine ⟨hL, by simp, ?_, ?_, by decide, ?_⟩
  · rw [hc]; norm_num [perpOffset]
  · rw [hc]; norm_num [perpOffset]
  · rw [hc, hsv]
    norm_num [emitSegment, collectIntersections, addIntersection, findIntersection, det,
      segVec, paramU, paramT, rightSide, tol, hatchLine, isDuplicate, at_, abs_lt]

/-- C8 (amended): in exact arithmetic, for every 4 input points none of which is farther
from the centre than `diagonal` (the distance between the least and the greatest point in
the `Point` order), every `step > 0` with `diagonal / step + 3 < 2^31 - 1` (so that the
conversion to `int` is in range and the loop counter does not overflow) and every unit
hatch direction, with
`L = lines_per_side = floor(diagonal / step) + 3`, each contour point has a perpendicular
offset from the centre of absolute value `< L * step`, and every line `centre + i * offset`
(`i` any integer) of the family that meets a contour edge has `-L < i < L` and is among the
generated lines. -/
theorem line_family_covers [FloorRing α] (sqrt : α → α) (hs : SqrtSpec sqrt)
    (points : List (Point α)) (_hlen : points.length = 4) (step : α) (hstep : 0 < step)
    (hrange : diagonal sqrt (parseContour points).2 / step + 3 < 2 ^ 31 - 1)
    (d : Vector α) (hd : d.x * d.x + d.y * d.y = 1)
    (hreach : ∀ P ∈ points,
      (P.x - (findCenter (parseContour points).2).x) ^ 2
        + (P.y - (findCenter (parseContour points).2).y) ^ 2
        ≤ (diagonal sqrt (parseContour points).2) ^ 2) :
    linesPerSide sqrt (parseContour points).2 step =
      ⌊diagonal sqrt (parseContour points).2 / step⌋ + 3 ∧
    (∀ P ∈ points, |perpOffset (findCenter (parseContour points).2) d P| <
      (linesPerSide sqrt (parseContour points).2 step : α) * step) ∧
    ∀ i : ℤ,
      (∃ e ∈ (parseContour points).1, ∃ X : Point α,
        OnLine (hatchLine (findCenter (parseContour points).2) (stepVector sqrt d step) d i) X ∧
        OnSegment e X) →
      -linesPerSide sqrt (parseContour points).2 step < i ∧
      i < linesPerSide sqrt (parseContour points).2 step ∧
      hatchLine (findCenter (parseContour points).2) (stepVector sqrt d step) d i ∈
        hatchLines (findCenter (parseContour points).2) (stepVector sqrt d step) d
          (linesPerSide sqrt (parseContour points).2 step) := by
  have hD := diagonal_nonneg sqrt hs (parseContour points).2
  have hL := linesPerSide_reach sqrt hs (parseContour points).2 step hstep hrange
  have hpts : ∀ P ∈ points, |perpOffset (findCenter (parseContour points).2) d P| <
      (linesPerSide sqrt (parseContour points).2 step : α) * step := by
    intro P hP
    have h1 := perpOffset_sq_le (findCenter (parseContour points).2) d P hd
    have h2 := hreach P hP
    have h3 : |perpOffset (findCenter (parseContour points).2) d P| ≤
        diagonal sqrt (parseContour points).2 :=
      abs_le_of_sq_le_sq' (le_trans h1 h2) hD |> abs_le.mpr
    linarith
  refine ⟨linesPerSide_eq_floor sqrt hs _ step hstep hrange, hpts, ?_⟩
  rintro i ⟨e, he, X, hline, hseg⟩
  obtain ⟨hes, hee⟩ := parseContour_endpoints points e he
  have hX := perpOffset_on_segment (findCenter (parseContour points).2) d e X _
    (hpts _ hes) (hpts _ hee) hseg
  rw [stepVector_unit sqrt hs d step hd] at hline ⊢
  rw [perpOffset_on_hatchLine _ d step i hd X hline, abs_lt] at hX
  have hlo : ((-linesPerSide sqrt (parseContour points).2 step : ℤ) : α) < (i : α) := by
    push_cast
    by_contra hc
    push_neg at hc
    nlinarith [mul_le_mul_of_nonneg_right hc hstep.le]
  have hhi : (i : α) < (linesPerSide sqrt (parseContour points).2 step : α) := by
    by_contra hc
    push_neg at hc
    nlinarith [mul_le_mul_of_nonneg_right hc hstep.le]
  have hlo2 := Int.cast_lt.mp hlo
  have hhi2 := Int.cast_lt.mp hhi
  refine ⟨hlo2, hhi2, ?_⟩
  exact hatchLine_mem_hatchLines _ _ _ _ i (by omega)
    (linesPerSide_le_intMax sqrt _ step) hlo2.le hhi2.le

/-- The diagonal of the square `(0,0), (10,0), (0,10), (10,10)` is below 15. -/
theorem square_diagonal_lt :
    diagonal Real.sqrt (parseContour [(⟨0, 0⟩ : Point ℝ), ⟨10, 0⟩, ⟨0, 10⟩, ⟨10, 10⟩]).2 < 15 := by
  rw [rectangle_parse_edges (0 : ℝ) 10 0 10 (by norm_num) (by norm_num) _ (List.Perm.refl _)]
  simp only [diagonal, at_, List.getD_cons_zero, List.getD_cons_succ]
  rw [Real.sqrt_lt' (by norm_num)]
  norm_num

theorem line_family_covers_witness :
    (∀ P ∈ [(⟨0, 0⟩ : Point ℝ), ⟨10, 0⟩, ⟨0, 10⟩, ⟨10, 10⟩], |perpOffset (findCenter (parseContour [(⟨0, 0⟩ : Point ℝ), ⟨10, 0⟩, ⟨0, 10⟩, ⟨10, 10⟩]).2) ⟨1, 0⟩ P| <
      (linesPerSide Real.sqrt (parseContour [(⟨0, 0⟩ : Point ℝ), ⟨10, 0⟩, ⟨0, 10⟩, ⟨10, 10⟩]).2 1 : ℝ) * 1) ∧
    ∀ i : ℤ,
      (∃ e ∈ (parseContour [(⟨0, 0⟩ : Point ℝ), ⟨10, 0⟩, ⟨0, 10⟩, ⟨10, 10⟩]).1, ∃ X : Point ℝ,
        OnLine (hatchLine (findCenter (parseContour [(⟨0, 0⟩ : Point ℝ), ⟨10, 0⟩, ⟨0, 10⟩, ⟨10, 10⟩]).2)
          (stepVector Real.sqrt ⟨1, 0⟩ 1) ⟨1, 0⟩ i) X ∧ OnSegment e X) →
      -linesPerSide Real.sqrt (parseContour [(⟨0, 0⟩ : Point ℝ), ⟨10, 0⟩, ⟨0, 10⟩, ⟨10, 10⟩]).2 1 < i ∧
      i < linesPerSide Real.sqrt (parseContour [(⟨0, 0⟩ : Point ℝ), ⟨10, 0⟩, ⟨0, 10⟩, ⟨10, 10⟩]).2 1 ∧
      hatchLine (findCenter (parseContour [(⟨0, 0⟩ : Point ℝ), ⟨10, 0⟩, ⟨0, 10⟩, ⟨10, 10⟩]).2) (stepVector Real.sqrt ⟨1, 0⟩ 1) ⟨1, 0⟩ i ∈
        hatchLines (findCenter (parseContour [(⟨0, 0⟩ : Point ℝ), ⟨10, 0⟩, ⟨0, 10⟩, ⟨10, 10⟩]).2) (stepVector Real.sqrt ⟨1, 0⟩ 1) ⟨1, 0⟩
          (linesPerSide Real.sqrt (parseContour [(⟨0, 0⟩ : Point ℝ), ⟨10, 0⟩, ⟨0, 10⟩, ⟨10, 10⟩]).2 1) :=
  (line_family_covers Real.sqrt real_sqrtSpec
    [(⟨0, 0⟩ : Point ℝ), ⟨10, 0⟩, ⟨0, 10⟩, ⟨10, 10⟩] rfl 1 one_pos
    (by have := square_diagonal_lt; norm_num; linarith) ⟨1, 0⟩ (by norm_num)
    (by
      rw [rectangle_parse_edges (0 : ℝ) 10 0 10 (by norm_num) (by norm_num) _
        (List.Perm.refl _), findCenter_four]
      have hdiag : (diagonal Real.sqrt [(⟨0, 0⟩ : Point ℝ), ⟨10, 0⟩, ⟨0, 10⟩, ⟨10, 10⟩]) ^ 2 = 200 := by
        simp only [diagonal, at_, List.getD_cons_zero, List.getD_cons_succ]
        rw [Real.sq_sqrt (by norm_num)]; norm_num
      rw [hdiag]
      intro P hP
      simp only [List.mem_cons, List.mem_singleton, List.not_mem_nil, or_false] at hP
      rcases hP with rfl | rfl | rfl | rfl <;> norm_num)).2

/-! ## Segment order and the sorter -/

theorem segment_lt_iff (a b : Segment α) :
    Segment.lt a b ↔
      a.start.x < b.start.x ∨ (a.start.x = b.start.x ∧
        (a.start.y < b.start.y ∨ (a.start.y = b.start.y ∧
          (a.end_.x < b.end_.x ∨ (a.end_.x = b.end_.x ∧ a.end_.y < b.end_.y))))) := by
  unfold Segment.lt
  by_cases h1 : a.start.x = b.start.x
  · by_cases h2 : a.start.y = b.start.y
    · by_cases h3 : a.end_.x = b.end_.x
      · simp [h1, h2, h3]
      · simp [h1, h2, h3]
    · simp [h1, h2]
  · simp [h1]

theorem segment_lt_iff_key (a b : Segment α) : Segment.lt a b ↔ a.key < b.key := by
  rw [segment_lt_iff]
  unfold Segment.key
  rw [Prod.Lex.lt_iff, Prod.Lex.lt_iff, Prod.Lex.lt_iff]

theorem segment_key_injective (a b : Segment α) (h : a.key = b.key) : a = b := by
  obtain ⟨⟨ax, ay⟩, ⟨bx, byy⟩⟩ := a
  obtain ⟨⟨cx, cy⟩, ⟨dx, dy⟩⟩ := b
  simp only [Segment.key, EmbeddingLike.apply_eq_iff_eq, Prod.mk.injEq] at h
  obtain ⟨h1, h2, h3, h4⟩ := h
  subst h1 h2 h3 h4
  rfl

theorem segment_notAfter_iff_key (a b : Segment α) : Segment.notAfter a b ↔ a.key ≤ b.key := by
  unfold Segment.notAfter
  rw [segment_lt_iff_key, not_lt]

theorem segment_notAfter_total (a b : Segment α) :
    Segment.notAfter a b ∨ Segment.notAfter b a := by
  simp only [segment_notAfter_iff_key]
  exact le_total _ _

theorem segment_notAfter_trans (a b c : Segment α) (h1 : Segment.notAfter a b)
    (h2 : Segment.notAfter b c) : Segment.notAfter a c := by
  simp only [segment_notAfter_iff_key] at *
  exact le_trans h1 h2

theorem segment_notAfter_antisymm (a b : Segment α) (h1 : Segment.notAfter a b)
    (h2 : Segment.notAfter b a) : a = b := by
  simp only [segment_notAfter_iff_key] at *
  exact segment_key_injective a b (le_antisymm h1 h2)

theorem sortSegments_perm (l : List (Segment α)) : (sortSegments l).Perm l :=
  List.perm_insertionSort _ l

theorem sortSegments_sorted (l : List (Segment α)) :
    (sortSegments l).Sorted Segment.notAfter :=
  @List.sorted_insertionSort _ Segment.notAfter _ ⟨segment_notAfter_total⟩
    ⟨segment_notAfter_trans⟩ l

theorem sortSegments_unique (l l2 : List (Segment α)) (hp : l2.Perm l)
    (hs : l2.Sorted Segment.notAfter) : l2 = sortSegments l :=
  @List.eq_of_perm_of_sorted _ Segment.notAfter ⟨segment_notAfter_antisymm⟩ _ _
    (hp.trans (sortSegments_perm l).symm) hs (sortSegments_sorted l)

theorem hatch_eq_sort [FloorRing α] (sqrt : α → α) (points : List (Point α)) (d : Vector α)
    (step : α) (hlen : points.length = 4) :
    hatch sqrt points d step =
      some (sortSegments (emittedSegments (parseContour points).1
        (hatchLines (findCenter (parseContour points).2) (stepVector sqrt d step) d
          (linesPerSide sqrt (parseContour points).2 step)))) := by
  simp [hatch, hlen]

/-- C9: the output of the pipeline is the sorter applied to the emitted segments; the
sorted list is a permutation of its input (every segment is kept with its multiplicity,
start and end as emitted) and is ascending for `Segment::operator<`, which is the
lexicographic order on `(start.x, start.y, end.x, end.y)`. -/
theorem sortSegments_spec [FloorRing α] :
    (∀ segs : List (Segment α),
      (sortSegments segs).Perm segs ∧
      (∀ s : Segment α, (sortSegments segs).count s = segs.count s) ∧
      (sortSegments segs).Sorted (fun a b => ¬ Segment.lt b a)) ∧
    (∀ a b : Segment α, Segment.lt a b ↔ a.key < b.key) ∧
    (∀ (sqrt : α → α) (points : List (Point α)) (d : Vector α) (step : α)
      (out : List (Segment α)), hatch sqrt points d step = some out →
      out = sortSegments (emittedSegments (parseContour points).1
        (hatchLines (findCenter (parseContour points).2) (stepVector sqrt d step) d
          (linesPerSide sqrt (parseContour points).2 step)))) := by
  refine ⟨fun segs => ⟨sortSegments_perm segs, fun s => (sortSegments_perm segs).count_eq s,
    sortSegments_sorted segs⟩, segment_lt_iff_key, ?_⟩
  intro sqrt points d step out h
  by_cases hlen : points.length = 4
  · rw [hatch_eq_sort sqrt points d step hlen] at h
    exact (Option.some.inj h).symm
  · simp [hatch, hlen] at h

/-- C10: `Segment::operator<` is a strict total order on the coordinates: irreflexive,
transitive, and two segments neither of which precedes the other have the same
`start.x`, `start.y`, `end.x`, `end.y`.  Hence the sorted sequence is unique: every list
that is a sorted permutation of the emitted segments, and so the result of every correct
sorting procedure, is the sequence the pipeline returns. -/
theorem segment_order_strict_total [FloorRing α] :
    (∀ a : Segment α, ¬ Segment.lt a a) ∧
    (∀ a b c : Segment α, Segment.lt a b → Segment.lt b c → Segment.lt a c) ∧
    (∀ a b : Segment α, ¬ Segment.lt a b → ¬ Segment.lt b a →
      a.start.x = b.start.x ∧ a.start.y = b.start.y ∧ a.end_.x = b.end_.x ∧
        a.end_.y = b.end_.y) ∧
    (∀ segs out : List (Segment α), out.Perm segs →
      out.Sorted (fun a b => ¬ Segment.lt b a) → out = sortSegments segs) ∧
    (∀ (srt : List (Segment α) → List (Segment α)),
      (∀ l, (srt l).Perm l ∧ (srt l).Sorted (fun a b => ¬ Segment.lt b a)) →
      ∀ (sqrt : α → α) (points : List (Point α)) (d : Vector α) (step : α),
        points.length = 4 →
        hatch sqrt points d step =
          some (srt (emittedSegments (parseContour points).1
            (hatchLines (findCenter (parseContour points).2) (stepVector sqrt d step) d
              (linesPerSide sqrt (parseContour points).2 step))))) := by
  refine ⟨?_, ?_, ?_, ?_, ?_⟩
  · intro a h
    rw [segment_lt_iff_key] at h
    exact lt_irrefl _ h
  · intro a b c h1 h2
    rw [segment_lt_iff_key] at *
    exact lt_trans h1 h2
  · intro a b h1 h2
    have h := segment_notAfter_antisymm a b h2 h1
    subst h
    exact ⟨rfl, rfl, rfl, rfl⟩
  · intro segs out hp hs
    exact sortSegments_unique segs out hp hs
  · intro srt hsrt sqrt points d step hlen
    rw [hatch_eq_sort sqrt points d step hlen,
      sortSegments_unique _ _ (hsrt _).1 (hsrt _).2]

/-! ## Direction calculator -/

theorem calculateDirection_unit (theta : ℝ) :
    (calculateDirection Real.cos Real.sin Real.pi theta).x
        * (calculateDirection Real.cos Real.sin Real.pi theta).x
      + (calculateDirection Real.cos Real.sin Real.pi theta).y
        * (calculateDirection Real.cos Real.sin Real.pi theta).y = 1 := by
  simp only [calculateDirection]
  have h := Real.cos_sq_add_sin_sq (theta * Real.pi / 180)
  nlinarith [h]

/-- C11: over the reals `calculateDirection(theta)` is
`(cos(theta*pi/180), sin(theta*pi/180))` for every `theta` (no angle is rejected or
reduced), it is a unit vector, `calculateDirection(0) = (1, 0)` and
`calculateDirection(90) = (0, 1)`. -/
theorem calculateDirection_spec :
    (∀ theta : ℝ,
      calculateDirection Real.cos Real.sin Real.pi theta =
        ⟨Real.cos (theta * Real.pi / 180), Real.sin (theta * Real.pi / 180)⟩ ∧
      (calculateDirection Real.cos Real.sin Real.pi theta).x ^ 2
        + (calculateDirection Real.cos Real.sin Real.pi theta).y ^ 2 = 1) ∧
    calculateDirection Real.cos Real.sin Real.pi 0 = ⟨1, 0⟩ ∧
    calculateDirection Real.cos Real.sin Real.pi 90 = ⟨0, 1⟩ := by
  refine ⟨fun theta => ⟨rfl, ?_⟩, ?_, ?_⟩
  · simp only [calculateDirection]
    exact Real.cos_sq_add_sin_sq _
  · simp [calculateDirection]
  · have h : (90 : ℝ) * Real.pi / 180 = Real.pi / 2 := by ring
    simp only [calculateDirection, h, Real.cos_pi_div_two, Real.sin_pi_div_two]

/-! ## The line family -/

theorem findCenter_eq_sums (points : List (Point α)) :
    findCenter points =
      ⟨(points.map Point.x).sum / (points.length : α),
       (points.map Point.y).sum / (points.length : α)⟩ := by
  have h : ∀ (l : List (Point α)) (c : Point α),
      l.foldl (fun (c : Point α) p => ⟨c.x + p.x, c.y + p.y⟩) c =
        ⟨c.x + (l.map Point.x).sum, c.y + (l.map Point.y).sum⟩ := by
    intro l
    induction l with
    | nil => intro c; simp
    | cons p l ih =>
      intro c
      simp only [List.foldl_cons, ih, List.map_cons, List.sum_cons, add_assoc]
  simp only [findCenter, h, zero_add]

theorem findCenter_perm (l1 l2 : List (Point α)) (hp : l1.Perm l2) :
    findCenter l1 = findCenter l2 := by
  rw [findCenter_eq_sums, findCenter_eq_sums, (hp.map Point.x).sum_eq, (hp.map Point.y).sum_eq,
    hp.length_eq]

theorem linesPerSide_ge_three [FloorRing α] (sqrt : α → α) (hs : SqrtSpec sqrt)
    (points : List (Point α)) (step : α) (hstep : 0 < step)
    (hrange : diagonal sqrt points / step + 3 < 2 ^ 31 - 1) :
    3 ≤ linesPerSide sqrt points step := by
  rw [linesPerSide_eq_floor sqrt hs points step hstep hrange]
  have hq : 0 ≤ diagonal sqrt points / step :=
    div_nonneg (diagonal_nonneg sqrt hs points) hstep.le
  have := Int.floor_nonneg.mpr hq
  omega

/-- In range, `lines_per_side` is at most `INT_MAX - 1`, so the loop counter never
overflows. -/
theorem linesPerSide_lt_intMax [FloorRing α] (sqrt : α → α) (hs : SqrtSpec sqrt)
    (points : List (Point α)) (step : α) (hstep : 0 < step)
    (hrange : diagonal sqrt points / step + 3 < 2 ^ 31 - 1) :
    linesPerSide sqrt points step < 2 ^ 31 - 1 := by
  have hq : 0 ≤ diagonal sqrt points / step :=
    div_nonneg (diagonal_nonneg sqrt hs points) hstep.le
  unfold linesPerSide
  rw [truncToInt_of_nonneg _ (by linarith) (by linarith), Int.floor_lt]
  exact_mod_cast hrange

theorem length_intRange (lo hi : ℤ) : (intRange lo hi).length = (hi - lo + 1).toNat := by
  simp [intRange]

theorem length_hatchLines (center : Point α) (sv d : Vector α) (L : ℤ)
    (h0 : -(2 ^ 31) < L) (h1 : L ≤ 2 ^ 31) :
    (hatchLines center sv d L).length = (2 * L + 1).toNat := by
  simp only [hatchLines, List.length_map, length_intRange, wrapInt_neg L h0 h1]
  congr 1
  ring

theorem getElem_hatchLines (center : Point α) (sv d : Vector α) (L : ℤ) (k : ℕ)
    (h0 : -(2 ^ 31) < L) (h1 : L ≤ 2 ^ 31)
    (hk : k < (hatchLines center sv d L).length) :
    (hatchLines center sv d L)[k] = hatchLine center sv d (-L + (k : ℤ)) := by
  simp [hatchLines, intRange, wrapInt_neg L h0 h1]

/-- On the square with step `1e-9` the value `diagonal / step + 3` is beyond `INT_MAX`. -/
theorem square_tiny_step_large :
    (2 : ℝ) ^ 31 ≤
      diagonal Real.sqrt (parseContour [(⟨0, 0⟩ : Point ℝ), ⟨10, 0⟩, ⟨0, 10⟩, ⟨10, 10⟩]).2
        / (1 / 10 ^ 9) + 3 := by
  rw [rectangle_parse_edges (0 : ℝ) 10 0 10 (by norm_num) (by norm_num) _ (List.Perm.refl _)]
  simp only [diagonal, at_, List.getD_cons_zero, List.getD_cons_succ]
  have h14 : (14 : ℝ) ≤ Real.sqrt ((10 - 0) ^ 2 + (10 - 0) ^ 2) :=
    Real.le_sqrt_of_sq_le (by norm_num)
  have h : Real.sqrt ((10 - 0) ^ 2 + (10 - 0) ^ 2) / (1 / 10 ^ 9) =
      Real.sqrt ((10 - 0) ^ 2 + (10 - 0) ^ 2) * 10 ^ 9 := by
    field_simp
  rw [h]
  nlinarith

/-- C12 (amended): in exact arithmetic, for every 4-point input and `step > 0` with
`diagonal / step + 3 < 2^31 - 1` (so that the conversion to `int` is in range and the
loop counter does not overflow), `L = lines_per_side` equals `floor(diagonal / step) + 3`; the generator produces exactly
`2L + 1` lines; the line at position `k` (counting from 0) is the one of index
`i = -L + k`, with origin `centre + i * offset` and the hatch direction; and the centre is
the arithmetic mean of the 4 input points.  Over every arithmetic of `float` (binary32
included), whenever the stored `lines_per_side = L` satisfies `0 ≤ L ≤ INT_MAX`, the
generator produces exactly `2L + 1` lines and the line at position `k` is the one of index
`i = -L + k`, with the origin `centre + offset * i` computed in that arithmetic and the
hatch direction. -/
theorem hatchLines_spec [FloorRing α] (sqrt : α → α) (hs : SqrtSpec sqrt) (a b c e : Point α)
    (points : List (Point α)) (hpts : points = [a, b, c, e]) (step : α) (hstep : 0 < step)
    (hrange : diagonal sqrt (parseContour points).2 / step + 3 < 2 ^ 31 - 1)
    (d : Vector α) :
    linesPerSide sqrt (parseContour points).2 step =
      ⌊diagonal sqrt (parseContour points).2 / step⌋ + 3 ∧
    findCenter (parseContour points).2 =
      ⟨(a.x + b.x + c.x + e.x) / 4, (a.y + b.y + c.y + e.y) / 4⟩ ∧
    ((hatchLines (findCenter (parseContour points).2) (stepVector sqrt d step) d
        (linesPerSide sqrt (parseContour points).2 step)).length : ℤ) =
      2 * linesPerSide sqrt (parseContour points).2 step + 1 ∧
    (∀ (k : ℕ) (hk : k < (hatchLines (findCenter (parseContour points).2)
        (stepVector sqrt d step) d (linesPerSide sqrt (parseContour points).2 step)).length),
      (hatchLines (findCenter (parseContour points).2) (stepVector sqrt d step) d
        (linesPerSide sqrt (parseContour points).2 step))[k] =
      ⟨⟨(findCenter (parseContour points).2).x + (stepVector sqrt d step).x *
            ((-linesPerSide sqrt (parseContour points).2 step + (k : ℤ) : ℤ) : α),
        (findCenter (parseContour points).2).y + (stepVector sqrt d step).y *
            ((-linesPerSide sqrt (parseContour points).2 step + (k : ℤ) : ℤ) : α)⟩, d⟩) ∧
    ∀ (G : Type) (A : Arith G) (center : Point G) (sv dir : Vector G) (L : ℤ),
      0 ≤ L → L ≤ intMax →
      ((hatchLinesA A center sv dir L).length : ℤ) = 2 * L + 1 ∧
      ∀ (k : ℕ) (hk : k < (hatchLinesA A center sv dir L).length),
        (hatchLinesA A center sv dir L)[k] =
          ⟨⟨A.add center.x (A.mul sv.x (A.ofInt (-L + (k : ℤ)))),
            A.add center.y (A.mul sv.y (A.ofInt (-L + (k : ℤ))))⟩, dir⟩ := by
  have hlen : points.length = 4 := by rw [hpts]; rfl
  have hL3 := linesPerSide_ge_three sqrt hs (parseContour points).2 step hstep hrange
  have hLmax := linesPerSide_le_intMax sqrt (parseContour points).2 step
  refine ⟨linesPerSide_eq_floor sqrt hs _ step hstep hrange, ?_, ?_, ?_, ?_⟩
  · rw [parseContour_snd points hlen, findCenter_perm _ _ (sortPoints_perm points), hpts,
      findCenter_four]
  · rw [length_hatchLines _ _ _ _ (by omega) hLmax, Int.toNat_of_nonneg (by omega)]
  · intro k hk
    rw [getElem_hatchLines _ _ _ _ _ (by omega) hLmax]
    rfl
  · intro G A center sv dir L h0 h1
    unfold intMax at h1
    have hw : wrapInt (-L) = -L := wrapInt_neg L (by omega) (by omega)
    constructor
    · simp only [hatchLinesA, List.length_map, length_intRange, hw]
      omega
    · intro k hk
      simp [hatchLinesA, hatchLineA, intRange, hw]

theorem hatchLines_spec_witness :
    SqrtSpec Real.sqrt ∧ (0 : ℝ) < 1 ∧
    linesPerSide Real.sqrt (parseContour [(⟨0, 0⟩ : Point ℝ), ⟨10, 0⟩, ⟨0, 10⟩, ⟨10, 10⟩]).2 1 =
      ⌊diagonal Real.sqrt (parseContour [(⟨0, 0⟩ : Point ℝ), ⟨10, 0⟩, ⟨0, 10⟩, ⟨10, 10⟩]).2 / 1⌋
        + 3 ∧
    findCenter (parseContour [(⟨0, 0⟩ : Point ℝ), ⟨10, 0⟩, ⟨0, 10⟩, ⟨10, 10⟩]).2 =
      ⟨((0 : ℝ) + 10 + 0 + 10) / 4, ((0 : ℝ) + 0 + 10 + 10) / 4⟩ :=
  ⟨real_sqrtSpec, one_pos,
    (hatchLines_spec Real.sqrt real_sqrtSpec ⟨0, 0⟩ ⟨10, 0⟩ ⟨0, 10⟩ ⟨10, 10⟩ _ rfl 1 one_pos
      (by have := square_diagonal_lt; norm_num; linarith) ⟨1, 0⟩).1,
    (hatchLines_spec Real.sqrt real_sqrtSpec ⟨0, 0⟩ ⟨10, 0⟩ ⟨0, 10⟩ ⟨10, 10⟩ _ rfl 1 one_pos
      (by have := square_diagonal_lt; norm_num; linarith) ⟨1, 0⟩).2.1⟩

/-! ## Spacing -/

theorem perp_length_pos (sqrt : α → α) (hs : SqrtSpec sqrt) (d : Vector α)
    (hd : d.x ≠ 0 ∨ d.y ≠ 0) :
    0 < sqrt (-d.y * -d.y + d.x * d.x) ∧
    sqrt (-d.y * -d.y + d.x * d.x) * sqrt (-d.y * -d.y + d.x * d.x) =
      d.x * d.x + d.y * d.y := by
  have hpos : 0 < -d.y * -d.y + d.x * d.x := by
    rcases hd with h | h
    · have := mul_self_pos.mpr h
      nlinarith [mul_self_nonneg d.y]
    · have := mul_self_pos.mpr h
      nlinarith [mul_self_nonneg d.x]
  obtain ⟨h0, h1⟩ := hs _ hpos.le
  refine ⟨?_, by rw [h1]; ring⟩
  rcases h0.lt_or_eq with h | h
  · exact h
  · rw [← h] at h1
    linarith

theorem stepVector_props (sqrt : α → α) (hs : SqrtSpec sqrt) (d : Vector α)
    (hd : d.x ≠ 0 ∨ d.y ≠ 0) (step : α) :
    (stepVector sqrt d step).x * d.x + (stepVector sqrt d step).y * d.y = 0 ∧
    (stepVector sqrt d step).x * (stepVector sqrt d step).x
      + (stepVector sqrt d step).y * (stepVector sqrt d step).y = step * step ∧
    (stepVector sqrt d step).x * d.y - (stepVector sqrt d step).y * d.x =
      -(step * sqrt (-d.y * -d.y + d.x * d.x)) := by
  obtain ⟨hpos, hsq⟩ := perp_length_pos sqrt hs d hd
  have hne : sqrt (-d.y * -d.y + d.x * d.x) ≠ 0 := hpos.ne.symm
  simp only [stepVector]
  generalize sqrt (-d.y * -d.y + d.x * d.x) = pl at hsq hne
  refine ⟨by ring, ?_, ?_⟩
  · field_simp
    linear_combination (-(step * step)) * hsq
  · field_simp
    linear_combination (step * pl) * hsq

/-- C13 (amended): in exact arithmetic, for every non-zero hatch direction `d` and every
`step > 0` the inter-line offset vector `step * (-dy, dx) / |(-dy, dx)|` is orthogonal to
`d` and has Euclidean length exactly `step`; two consecutive hatch lines have the same
direction and every point of the second lies at perpendicular distance exactly `step` from
the first. -/
theorem spacing_correct (sqrt : α → α) (hs : SqrtSpec sqrt) (d : Vector α)
    (hd : d.x ≠ 0 ∨ d.y ≠ 0) (step : α) (hstep : 0 < step) :
    stepVector sqrt d step =
      ⟨-d.y * (step / sqrt (-d.y * -d.y + d.x * d.x)),
       d.x * (step / sqrt (-d.y * -d.y + d.x * d.x))⟩ ∧
    (stepVector sqrt d step).x * d.x + (stepVector sqrt d step).y * d.y = 0 ∧
    sqrt ((stepVector sqrt d step).x * (stepVector sqrt d step).x
      + (stepVector sqrt d step).y * (stepVector sqrt d step).y) = step ∧
    ∀ (center : Point α) (i : ℤ),
      (hatchLine center (stepVector sqrt d step) d (i + 1)).direction =
        (hatchLine center (stepVector sqrt d step) d i).direction ∧
      ∀ P : Point α, OnLine (hatchLine center (stepVector sqrt d step) d (i + 1)) P →
        pointLineDistance sqrt (hatchLine center (stepVector sqrt d step) d i) P = step := by
  obtain ⟨horth, hlen, hcross⟩ := stepVector_props sqrt hs d hd step
  obtain ⟨hpos, _⟩ := perp_length_pos sqrt hs d hd
  refine ⟨rfl, horth, hs.eq_of_mul_self hstep.le hlen.symm, ?_⟩
  intro center i
  refine ⟨rfl, ?_⟩
  rintro P ⟨t, hx, hy⟩
  simp only [hatchLine] at hx hy
  have harg : d.x * d.x + d.y * d.y = -d.y * -d.y + d.x * d.x := by ring
  have hcr : (P.x - (center.x + (stepVector sqrt d step).x * (i : α))) * d.y
      - (P.y - (center.y + (stepVector sqrt d step).y * (i : α))) * d.x =
      -(step * sqrt (-d.y * -d.y + d.x * d.x)) := by
    rw [hx, hy, ← hcross]
    push_cast
    ring
  simp only [pointLineDistance, hatchLine, hcr, harg, abs_neg]
  rw [abs_of_pos (mul_pos hstep hpos), mul_div_assoc, div_self hpos.ne.symm, mul_one]

theorem spacing_correct_witness :
    SqrtSpec Real.sqrt ∧ (0 : ℝ) < 2 ∧
    (stepVector Real.sqrt (⟨3, 4⟩ : Vector ℝ) 2).x * 3
      + (stepVector Real.sqrt (⟨3, 4⟩ : Vector ℝ) 2).y * 4 = 0 ∧
    Real.sqrt ((stepVector Real.sqrt (⟨3, 4⟩ : Vector ℝ) 2).x
        * (stepVector Real.sqrt (⟨3, 4⟩ : Vector ℝ) 2).x
      + (stepVector Real.sqrt (⟨3, 4⟩ : Vector ℝ) 2).y
        * (stepVector Real.sqrt (⟨3, 4⟩ : Vector ℝ) 2).y) = 2 :=
  ⟨real_sqrtSpec, two_pos,
    (spacing_correct Real.sqrt real_sqrtSpec ⟨3, 4⟩ (Or.inl (by norm_num)) 2 two_pos).2.1,
    (spacing_correct Real.sqrt real_sqrtSpec ⟨3, 4⟩ (Or.inl (by norm_num)) 2 two_pos).2.2.1⟩

/-! ## Emission policy and deduplication -/

theorem isDuplicate_iff (intersections : List (Point α)) (p : Point α) :
    isDuplicate intersections p = true ↔ ∃ existing ∈ intersections, WithinTol p existing := by
  simp [isDuplicate, WithinTol]

theorem emitSegment_eq_some_iff (edges : List (Segment α)) (line : Line α) (s : Segment α) :
    emitSegment edges line = some s ↔
      ∃ a b : Point α, collectIntersections edges line = [a, b] ∧ s = ⟨a, b⟩ := by
  unfold emitSegment
  constructor
  · intro h
    by_cases h2 : (collectIntersections edges line).length = 2
    · simp only [h2, if_true, Option.some.injEq] at h
      match hc : collectIntersections edges line, h2 with
      | [a, b], _ =>
        rw [hc] at h
        exact ⟨a, b, rfl, by rw [← h]; simp [at_]⟩
    · simp [h2] at h
  · rintro ⟨a, b, hc, rfl⟩
    simp [hc, at_]

theorem emitSegment_eq_none_iff (edges : List (Segment α)) (line : Line α) :
    emitSegment edges line = none ↔ (collectIntersections edges line).length ≠ 2 := by
  unfold emitSegment
  by_cases h2 : (collectIntersections edges line).length = 2
  · simp [h2]
  · simp [h2]

theorem length_emittedSegments_le (edges : List (Segment α)) (lines : List (Line α)) :
    (emittedSegments edges lines).length ≤ lines.length :=
  List.length_filterMap_le _ _

theorem length_hatch_le [FloorRing α] (sqrt : α → α) (hs : SqrtSpec sqrt)
    (points : List (Point α)) (d : Vector α) (step : α) (hstep : 0 < step)
    (hrange : diagonal sqrt (parseContour points).2 / step + 3 < 2 ^ 31 - 1)
    (out : List (Segment α)) (h : hatch sqrt points d step = some out) :
    (out.length : ℤ) ≤ 2 * linesPerSide sqrt (parseContour points).2 step + 1 := by
  have hL3 := linesPerSide_ge_three sqrt hs (parseContour points).2 step hstep hrange
  have hLmax := linesPerSide_le_intMax sqrt (parseContour points).2 step
  by_cases hlen : points.length = 4
  · rw [hatch_eq_sort sqrt points d step hlen] at h
    have hout := (Option.some.inj h).symm
    have h1 : out.length ≤ (2 * linesPerSide sqrt (parseContour points).2 step + 1).toNat := by
      rw [hout, (sortSegments_perm _).length_eq,
        ← length_hatchLines (findCenter (parseContour points).2) (stepVector sqrt d step) d
          _ (by omega) hLmax]
      exact length_emittedSegments_le _ _
    omega
  · simp [hatch, hlen] at h

theorem addIntersection_pairwise (line : Line α) (acc : List (Point α)) (edge : Segment α)
    (h : acc.Pairwise (fun p q => ¬ WithinTol q p)) :
    (addIntersection line acc edge).Pairwise (fun p q => ¬ WithinTol q p) := by
  unfold addIntersection
  cases hf : findIntersection line edge with
  | none => exact h
  | some p =>
    simp only
    by_cases hdup : isDuplicate acc p = true
    · simp only [hdup, if_true]; exact h
    · rw [if_neg hdup, List.pairwise_append]
      refine ⟨h, List.pairwise_singleton _ _, ?_⟩
      intro a ha b hb
      rw [List.mem_singleton] at hb
      subst hb
      intro hw
      exact hdup ((isDuplicate_iff acc b).mpr ⟨a, ha, hw⟩)

theorem foldl_addIntersection_pairwise (line : Line α) (edges : List (Segment α))
    (acc : List (Point α)) (h : acc.Pairwise (fun p q => ¬ WithinTol q p)) :
    (edges.foldl (addIntersection line) acc).Pairwise (fun p q => ¬ WithinTol q p) := by
  induction edges generalizing acc with
  | nil => exact h
  | cons e es ih => exact ih _ (addIntersection_pairwise line acc e h)

/-- C15: the working set of one line never holds two points within `1e-10` of each other
in both coordinates: each pass over an edge keeps this, so it holds after every prefix
of the edges; a new point within tolerance of a collected one is dropped; and every
emitted segment has start and end at least `1e-10` apart in `x` or in `y`. -/
theorem dedup_invariant :
    (∀ (line : Line α) (acc : List (Point α)) (edge : Segment α),
      acc.Pairwise (fun p q => ¬ WithinTol q p) →
      (addIntersection line acc edge).Pairwise (fun p q => ¬ WithinTol q p)) ∧
    (∀ (line : Line α) (acc : List (Point α)) (edge : Segment α) (p : Point α),
      findIntersection line edge = some p → (∃ existing ∈ acc, WithinTol p existing) →
      addIntersection line acc edge = acc) ∧
    (∀ (edges : List (Segment α)) (line : Line α) (n : ℕ),
      (collectIntersections (edges.take n) line).Pairwise (fun p q => ¬ WithinTol q p)) ∧
    (∀ (edges : List (Segment α)) (line : Line α) (s : Segment α),
      emitSegment edges line = some s →
      tol ≤ |s.end_.x - s.start.x| ∨ tol ≤ |s.end_.y - s.start.y|) := by
  refine ⟨addIntersection_pairwise, ?_, ?_, ?_⟩
  · intro line acc edge p hf hex
    simp only [addIntersection, hf, (isDuplicate_iff acc p).mpr hex, if_true]
  · intro edges line n
    exact foldl_addIntersection_pairwise line _ [] List.Pairwise.nil
  · intro edges line s h
    obtain ⟨a, b, hc, rfl⟩ := (emitSegment_eq_some_iff edges line s).mp h
    have hp := foldl_addIntersection_pairwise line edges [] List.Pairwise.nil
    change (collectIntersections edges line).Pairwise _ at hp
    rw [hc] at hp
    have hab : ¬ WithinTol b a := by
      simpa using hp
    unfold WithinTol at hab
    by_contra hcon
    push_neg at hcon
    exact hab ⟨hcon.1, hcon.2⟩

/-! ## Vertex grazing -/

/-- A returned intersection lies on the line and on the segment. -/
theorem findIntersection_on_both (line : Line α) (segment : Segment α) (P : Point α)
    (h : findIntersection line segment = some P) : OnLine line P ∧ OnSegment segment P := by
  obtain ⟨hdet, hu0, hu1, hP⟩ := (findIntersection_eq_some_iff line segment P).mp h
  obtain ⟨hx, hy⟩ := cramer_solves line segment (det_ne_zero_of_not_lt_tol hdet)
  subst hP
  exact ⟨⟨paramT line segment, rfl, rfl⟩, ⟨paramU line segment, hu0, hu1, hx, hy⟩⟩

/-- A point of the line that lies on the segment is returned when `|det| ≥ 1e-10`. -/
theorem findIntersection_of_common_point (line : Line α) (segment : Segment α) (V : Point α)
    (hdet : tol ≤ |det line segment|) (hl : OnLine line V) (hs : OnSegment segment V) :
    findIntersection line segment = some V := by
  have hdet2 : ¬ |det line segment| < tol := not_lt.mpr hdet
  have hne := det_ne_zero_of_not_lt_tol hdet2
  obtain ⟨t0, htx, hty⟩ := hl
  obtain ⟨u0, hu0, hu1, hux, huy⟩ := hs
  have hu : paramU line segment = u0 :=
    paramU_eq_of_crossing line segment t0 u0 hne (htx ▸ hux) (hty ▸ huy)
  obtain ⟨hx, hy⟩ := cramer_solves line segment hne
  rw [findIntersection_eq_some_iff]
  refine ⟨hdet2, by rw [hu]; exact hu0, by rw [hu]; exact hu1, ?_⟩
  have e1 : V.x = line.origin.x + line.direction.x * paramT line segment := by
    rw [hx, hu, hux]
  have e2 : V.y = line.origin.y + line.direction.y * paramT line segment := by
    rw [hy, hu, huy]
  cases V
  simp only at e1 e2
  rw [e1, e2]

/-- Every point of an edge of the rectangle lies on the rectangle's boundary. -/
theorem rect_edge_on_boundary (x0 x1 y0 y1 : α) (hx : x0 < x1) (hy : y0 < y1)
    (e : Segment α)
    (he : e ∈ ([⟨⟨x0, y0⟩, ⟨x1, y0⟩⟩, ⟨⟨x0, y1⟩, ⟨x1, y1⟩⟩, ⟨⟨x0, y0⟩, ⟨x0, y1⟩⟩,
      ⟨⟨x1, y0⟩, ⟨x1, y1⟩⟩] : List (Segment α)))
    (Q : Point α) (hQ : OnSegment e Q) : OnRectBoundary x0 x1 y0 y1 Q := by
  simp only [List.mem_cons, List.mem_singleton, List.not_mem_nil, or_false] at he
  unfold OnRectBoundary
  rcases he with rfl | rfl | rfl | rfl
  · obtain ⟨h1, h2, h3⟩ := (onSegment_horizontal _ _ _ hx Q).mp hQ
    exact ⟨⟨h2, h3, h1.ge, by rw [h1]; exact hy.le⟩, Or.inr (Or.inr (Or.inl h1))⟩
  · obtain ⟨h1, h2, h3⟩ := (onSegment_horizontal _ _ _ hx Q).mp hQ
    exact ⟨⟨h2, h3, by rw [h1]; exact hy.le, h1.le⟩, Or.inr (Or.inr (Or.inr h1))⟩
  · obtain ⟨h1, h2, h3⟩ := (onSegment_vertical _ _ _ hy Q).mp hQ
    exact ⟨⟨h1.ge, by rw [h1]; exact hx.le, h2, h3⟩, Or.inl h1⟩
  · obtain ⟨h1, h2, h3⟩ := (onSegment_vertical _ _ _ hy Q).mp hQ
    exact ⟨⟨by rw [h1]; exact hx.le, h1.le, h2, h3⟩, Or.inr (Or.inl h1)⟩

theorem withinTol_self (V : Point α) : WithinTol V V := by
  simp [WithinTol, tol_pos]

/-- When every intersection a line has with the edges is the point `V`, the working set
is empty or `[V]` throughout. -/
theorem foldl_addIntersection_single (line : Line α) (V : Point α) (edges : List (Segment α))
    (hall : ∀ e ∈ edges, ∀ P, findIntersection line e = some P → P = V)
    (acc : List (Point α)) (hacc : acc = [] ∨ acc = [V]) :
    (edges.foldl (addIntersection line) acc = [] ∨
      edges.foldl (addIntersection line) acc = [V]) ∧
    ((acc = [V] ∨ ∃ e ∈ edges, findIntersection line e = some V) →
      edges.foldl (addIntersection line) acc = [V]) := by
  induction edges generalizing acc with
  | nil =>
    refine ⟨hacc, ?_⟩
    rintro (h | ⟨e, he, _⟩)
    · exact h
    · simp at he
  | cons e es ih =>
    have hall2 : ∀ e2 ∈ es, ∀ P, findIntersection line e2 = some P → P = V :=
      fun e2 he2 => hall e2 (List.mem_cons_of_mem _ he2)
    have hdupV : isDuplicate [V] V = true :=
      (isDuplicate_iff [V] V).mpr ⟨V, by simp, withinTol_self V⟩
    have hstep : (addIntersection line acc e = [] ∨ addIntersection line acc e = [V]) ∧
        ((acc = [V] ∨ findIntersection line e = some V) →
          addIntersection line acc e = [V]) := by
      unfold addIntersection
      cases hf : findIntersection line e with
      | none =>
        simp only
        refine ⟨hacc, ?_⟩
        rintro (h | h)
        · exact h
        · cases h
      | some P =>
        have hP : P = V := hall e (List.mem_cons_self _ _) P hf
        subst hP
        simp only
        rcases hacc with h | h
        · subst h
          simp [isDuplicate]
        · subst h
          simp [hdupV]
    obtain ⟨ih1, ih2⟩ := ih hall2 (addIntersection line acc e) hstep.1
    simp only [List.foldl_cons]
    refine ⟨ih1, ?_⟩
    rintro (h | ⟨e2, he2, hf2⟩)
    · exact ih2 (Or.inl (hstep.2 (Or.inl h)))
    · rcases List.mem_cons.mp he2 with h | h
      · subst h
        exact ih2 (Or.inl (hstep.2 (Or.inr hf2)))
      · exact ih2 (Or.inr ⟨e2, h, hf2⟩)

/-- C16 (as stated it fails): for the rectangle `[0, 1e-11] × [0, 1e-11]` the line through
the corner `(0, 0)` with unit direction `(3/5, -4/5)` meets the boundary only at that
corner, but the intersections with the two edges sharing the corner are the sentinel
(`|det| < 1e-10`) and no unique point is collected instead of one.  And in binary32, for
the rectangle `(0,0), (1,0), (0,3), (1,3)`, the direction `(0.70710677, 0.70710677)` of
angle 45 and `step = 1.4142135`, the line of index `-1` has origin `(1.5, 0.5)`: it passes
through the corner `(1, 0)` and meets the rectangle nowhere else, but the intersection
computed with the right edge is `(1, 2^-25)`, not the corner, two points are collected and
the segment `(1, 2^-25) -> (1, 0)` is emitted. -/
theorem grazing_small_rectangle :
    OnLine (⟨⟨0, 0⟩, ⟨3 / 5, -(4 / 5)⟩⟩ : Line ℚ) ⟨0, 0⟩ ∧
    (∀ Q : Point ℚ, OnLine (⟨⟨0, 0⟩, ⟨3 / 5, -(4 / 5)⟩⟩ : Line ℚ) Q →
      OnRectBoundary 0 (1 / 10 ^ 11) 0 (1 / 10 ^ 11) Q → Q = ⟨0, 0⟩) ∧
    findIntersection (⟨⟨0, 0⟩, ⟨3 / 5, -(4 / 5)⟩⟩ : Line ℚ) ⟨⟨0, 0⟩, ⟨1 / 10 ^ 11, 0⟩⟩ = none ∧
    findIntersection (⟨⟨0, 0⟩, ⟨3 / 5, -(4 / 5)⟩⟩ : Line ℚ) ⟨⟨0, 0⟩, ⟨0, 1 / 10 ^ 11⟩⟩ = none ∧
    collectIntersections
      (parseContour ([⟨0, 0⟩, ⟨1 / 10 ^ 11, 0⟩, ⟨0, 1 / 10 ^ 11⟩, ⟨1 / 10 ^ 11, 1 / 10 ^ 11⟩] :
        List (Point ℚ))).1
      ⟨⟨0, 0⟩, ⟨3 / 5, -(4 / 5)⟩⟩ = [] ∧
    Binary.toRat (decimalLit 70710677 (10 ^ 8)) = 11863283 / 2 ^ 24 ∧
    hatchLineA binary32
      (findCenterA binary32 (parseContourA binary32
        [⟨binary32.ofInt 0, binary32.ofInt 0⟩, ⟨binary32.ofInt 1, binary32.ofInt 0⟩,
          ⟨binary32.ofInt 0, binary32.ofInt 3⟩, ⟨binary32.ofInt 1, binary32.ofInt 3⟩]).2)
      (stepVectorA binary32 ⟨decimalLit 70710677 (10 ^ 8), decimalLit 70710677 (10 ^ 8)⟩
        (decimalLit 14142135 (10 ^ 7)))
      ⟨decimalLit 70710677 (10 ^ 8), decimalLit 70710677 (10 ^ 8)⟩ (-1) =
      ⟨⟨Binary.fin false 3 (-1), Binary.fin false 1 (-1)⟩,
        ⟨decimalLit 70710677 (10 ^ 8), decimalLit 70710677 (10 ^ 8)⟩⟩ ∧
    OnLine (⟨⟨3 / 2, 1 / 2⟩, ⟨11863283 / 2 ^ 24, 11863283 / 2 ^ 24⟩⟩ : Line ℚ) ⟨1, 0⟩ ∧
    (∀ Q : Point ℚ,
      OnLine (⟨⟨3 / 2, 1 / 2⟩, ⟨11863283 / 2 ^ 24, 11863283 / 2 ^ 24⟩⟩ : Line ℚ) Q →
      InRect 0 1 0 3 Q → Q = ⟨1, 0⟩) ∧
    collectIntersectionsA binary32
      (parseContourA binary32
        [⟨binary32.ofInt 0, binary32.ofInt 0⟩, ⟨binary32.ofInt 1, binary32.ofInt 0⟩,
          ⟨binary32.ofInt 0, binary32.ofInt 3⟩, ⟨binary32.ofInt 1, binary32.ofInt 3⟩]).1
      ⟨⟨Binary.fin false 3 (-1), Binary.fin false 1 (-1)⟩,
        ⟨decimalLit 70710677 (10 ^ 8), decimalLit 70710677 (10 ^ 8)⟩⟩ =
      [⟨binary32.ofInt 1, Binary.fin false 1 (-25)⟩, ⟨binary32.ofInt 1, binary32.ofInt 0⟩] ∧
    emitSegmentA binary32
      (parseContourA binary32
        [⟨binary32.ofInt 0, binary32.ofInt 0⟩, ⟨binary32.ofInt 1, binary32.ofInt 0⟩,
          ⟨binary32.ofInt 0, binary32.ofInt 3⟩, ⟨binary32.ofInt 1, binary32.ofInt 3⟩]).1
      ⟨⟨Binary.fin false 3 (-1), Binary.fin false 1 (-1)⟩,
        ⟨decimalLit 70710677 (10 ^ 8), decimalLit 70710677 (10 ^ 8)⟩⟩ =
      some ⟨⟨binary32.ofInt 1, Binary.fin false 1 (-25)⟩,
        ⟨binary32.ofInt 1, binary32.ofInt 0⟩⟩ := by
  have hlit : decimalLit 70710677 (10 ^ 8) = Binary.fin false 11863283 (-24) := rfl
  refine ⟨⟨0, by norm_num, by norm_num⟩, ?_, ?_, ?_, ?_, ?_, rfl, ?_, ?_, rfl, rfl⟩
  · rintro ⟨qx, qy⟩ ⟨t, htx, hty⟩ ⟨⟨h1, _, h3, _⟩, _⟩
    simp only at htx hty h1 h3
    have ht : t = 0 := by
      rw [htx] at h1
      rw [hty] at h3
      linarith
    subst ht
    simp only [Point.mk.injEq]
    constructor
    · rw [htx]; norm_num
    · rw [hty]; norm_num
  · norm_num [findIntersection, det, segVec, tol, abs_lt]
  · norm_num [findIntersection, det, segVec, tol, abs_lt]
  · rw [rectangle_parse_edges (0 : ℚ) (1 / 10 ^ 11) 0 (1 / 10 ^ 11) (by norm_num) (by norm_num)
      _ (List.Perm.refl _)]
    norm_num [collectIntersections, addIntersection, findIntersection, det, segVec, tol,
      abs_lt]
  · rw [hlit]; norm_num [Binary.toRat]
  · exact ⟨-(2 ^ 23 / 11863283), by norm_num, by norm_num⟩
  · rintro ⟨qx, qy⟩ ⟨t, htx, hty⟩ ⟨_, h2, h3, _⟩
    simp only at htx hty h2 h3
    have ht : 11863283 / 2 ^ 24 * t = -(1 / 2) := by
      rw [htx] at h2
      rw [hty] at h3
      linarith
    simp only [Point.mk.injEq]
    constructor
    · rw [htx, ht]; norm_num
    · rw [hty, ht]; norm_num

theorem foldl_addIntersection_none (line : Line α) (edges : List (Segment α))
    (hall : ∀ e ∈ edges, findIntersection line e = none) (acc : List (Point α)) :
    edges.foldl (addIntersection line) acc = acc := by
  induction edges generalizing acc with
  | nil => rfl
  | cons e es ih =>
    have he : addIntersection line acc e = acc := by
      unfold addIntersection
      rw [hall e (List.mem_cons_self _ _)]
    rw [List.foldl_cons, he]
    exact ih (fun e2 he2 => hall e2 (List.mem_cons_of_mem _ he2)) acc

/-- C16 (amended): in exact arithmetic, for an axis-aligned rectangle contour and a hatch
line that passes through the corner `V` and meets the boundary at no other point, every
intersection the line has with an edge is `V`; an edge through `V` with `|det| ≥ 1e-10`
gives exactly `V`; when at least one of the edges through `V` has `|det| ≥ 1e-10`
deduplication leaves exactly the one point `V`, and otherwise no point is collected; in
every case no segment is emitted. -/
theorem vertex_grazing (x0 x1 y0 y1 : α) (hx : x0 < x1) (hy : y0 < y1)
    (points : List (Point α))
    (hp : points.Perm [⟨x0, y0⟩, ⟨x1, y0⟩, ⟨x0, y1⟩, ⟨x1, y1⟩])
    (l : Line α) (V : Point α)
    (_hV : V ∈ ([⟨x0, y0⟩, ⟨x1, y0⟩, ⟨x0, y1⟩, ⟨x1, y1⟩] : List (Point α)))
    (hon : OnLine l V)
    (honly : ∀ Q : Point α, OnLine l Q → OnRectBoundary x0 x1 y0 y1 Q → Q = V) :
    (∀ e ∈ (parseContour points).1, ∀ P : Point α, findIntersection l e = some P → P = V) ∧
    (∀ e ∈ (parseContour points).1, OnSegment e V → tol ≤ |det l e| →
      findIntersection l e = some V) ∧
    ((∃ e ∈ (parseContour points).1, OnSegment e V ∧ tol ≤ |det l e|) →
      collectIntersections (parseContour points).1 l = [V]) ∧
    ((¬ ∃ e ∈ (parseContour points).1, OnSegment e V ∧ tol ≤ |det l e|) →
      collectIntersections (parseContour points).1 l = []) ∧
    emitSegment (parseContour points).1 l = none := by
  rw [rectangle_parse_edges x0 x1 y0 y1 hx hy points hp]
  simp only
  have hall : ∀ e ∈ ([⟨⟨x0, y0⟩, ⟨x1, y0⟩⟩, ⟨⟨x0, y1⟩, ⟨x1, y1⟩⟩, ⟨⟨x0, y0⟩, ⟨x0, y1⟩⟩,
      ⟨⟨x1, y0⟩, ⟨x1, y1⟩⟩] : List (Segment α)), ∀ P : Point α,
      findIntersection l e = some P → P = V := by
    intro e he P hf
    obtain ⟨hl, hs⟩ := findIntersection_on_both l e P hf
    exact honly P hl (rect_edge_on_boundary x0 x1 y0 y1 hx hy e he P hs)
  have hsome : ∀ e ∈ ([⟨⟨x0, y0⟩, ⟨x1, y0⟩⟩, ⟨⟨x0, y1⟩, ⟨x1, y1⟩⟩, ⟨⟨x0, y0⟩, ⟨x0, y1⟩⟩,
      ⟨⟨x1, y0⟩, ⟨x1, y1⟩⟩] : List (Segment α)), OnSegment e V → tol ≤ |det l e| →
      findIntersection l e = some V :=
    fun e _ hs hdet => findIntersection_of_common_point l e V hdet hon hs
  obtain ⟨h1, h2⟩ := foldl_addIntersection_single l V _ hall [] (Or.inl rfl)
  refine ⟨hall, hsome, ?_, ?_, ?_⟩
  · rintro ⟨e, he, hs, hdet⟩
    exact h2 (Or.inr ⟨e, he, hsome e he hs hdet⟩)
  · intro hno
    unfold collectIntersections
    refine foldl_addIntersection_none l _ ?_ []
    intro e he
    cases hf : findIntersection l e with
    | none => rfl
    | some P =>
      exfalso
      have hPV := hall e he P hf
      subst hPV
      exact hno ⟨e, he, (findIntersection_on_both l e P hf).2,
        not_lt.mp ((findIntersection_eq_some_iff l e P).mp hf).1⟩
  · rw [emitSegment_eq_none_iff]
    rcases h1 with h | h
    · change collectIntersections _ l = [] at h
      rw [h]; simp
    · change collectIntersections _ l = [V] at h
      rw [h]; simp

theorem vertex_grazing_witness :
    collectIntersections
        (parseContour ([⟨0, 0⟩, ⟨10, 0⟩, ⟨0, 10⟩, ⟨10, 10⟩] : List (Point ℚ))).1
        ⟨⟨0, 0⟩, ⟨1, -1⟩⟩ = [⟨0, 0⟩] ∧
    emitSegment (parseContour ([⟨0, 0⟩, ⟨10, 0⟩, ⟨0, 10⟩, ⟨10, 10⟩] : List (Point ℚ))).1
        ⟨⟨0, 0⟩, ⟨1, -1⟩⟩ = none := by
  have h := vertex_grazing (0 : ℚ) 10 0 10 (by norm_num) (by norm_num)
    [⟨0, 0⟩, ⟨10, 0⟩, ⟨0, 10⟩, ⟨10, 10⟩] (List.Perm.refl _)
    ⟨⟨0, 0⟩, ⟨1, -1⟩⟩ ⟨0, 0⟩ (by simp) ⟨0, by norm_num, by norm_num⟩
    (by
      rintro ⟨qx, qy⟩ ⟨t, htx, hty⟩ ⟨⟨h1, _, h3, _⟩, _⟩
      simp only at htx hty h1 h3
      have ht : t = 0 := by
        rw [htx] at h1
        rw [hty] at h3
        linarith
      subst ht
      simp only [Point.mk.injEq]
      constructor
      · rw [htx]; norm_num
      · rw [hty]; norm_num)
  refine ⟨h.2.2.1 ⟨⟨⟨0, 0⟩, ⟨10, 0⟩⟩, ?_, ⟨0, by norm_num, by norm_num, by norm_num,
    by norm_num⟩, by norm_num [det, segVec, tol]⟩, h.2.2.2.2⟩
  rw [rectangle_parse_edges (0 : ℚ) 10 0 10 (by norm_num) (by norm_num) _ (List.Perm.refl _)]
  simp

/-! ## Totality and independence of the input order -/

theorem linesPerSide_of_step_gt [FloorRing α] (sqrt : α → α) (hs : SqrtSpec sqrt)
    (points : List (Point α)) (step : α) (hstep : 0 < step)
    (hbig : diagonal sqrt points < step) : linesPerSide sqrt points step = 3 := by
  have hq : 0 ≤ diagonal sqrt points / step :=
    div_nonneg (diagonal_nonneg sqrt hs points) hstep.le
  have hq1 : diagonal sqrt points / step < 1 := (div_lt_one hstep).mpr hbig
  have h31 : (4 : α) < 2 ^ 31 - 1 := by norm_num
  rw [linesPerSide_eq_floor sqrt hs points step hstep (by linarith)]
  have hfl : ⌊diagonal sqrt points / step⌋ = 0 := by
    rw [Int.floor_eq_iff]
    constructor
    · simpa using hq
    · simpa using hq1
  rw [hfl]; rfl

/-! ## The checked pipeline -/

theorem divChecked_of_ne (a b : α) (h : b ≠ 0) : divChecked a b = some (a / b) := by
  simp [divChecked, h]

theorem findIntersectionChecked_eq (line : Line α) (segment : Segment α) :
    findIntersectionChecked line segment = some (findIntersection line segment) := by
  unfold findIntersectionChecked findIntersection
  by_cases h : |det line segment| < tol
  · simp [h]
  · have hne := det_ne_zero_of_not_lt_tol h
    simp only [h, if_false, divChecked_of_ne _ _ hne, Option.some_bind, paramU, paramT]
    split <;> rfl

theorem addIntersectionChecked_eq (line : Line α) (acc : List (Point α)) (edge : Segment α) :
    addIntersectionChecked line acc edge = some (addIntersection line acc edge) := by
  unfold addIntersectionChecked addIntersection
  rw [findIntersectionChecked_eq, Option.some_bind]
  cases findIntersection line edge with
  | none => rfl
  | some p =>
    simp only
    split <;> rfl

theorem collectFromChecked_eq (line : Line α) (edges : List (Segment α))
    (acc : List (Point α)) :
    collectFromChecked line edges acc = some (edges.foldl (addIntersection line) acc) := by
  induction edges generalizing acc with
  | nil => rfl
  | cons e es ih =>
    simp only [collectFromChecked, addIntersectionChecked_eq, Option.some_bind, ih,
      List.foldl_cons]

theorem emitSegmentChecked_eq (edges : List (Segment α)) (line : Line α) :
    emitSegmentChecked edges line = some (emitSegment edges line) := by
  unfold emitSegmentChecked emitSegment collectIntersections
  rw [collectFromChecked_eq, Option.some_bind]
  simp only
  split <;> rfl

theorem emittedSegmentsChecked_eq (edges : List (Segment α)) (lines : List (Line α)) :
    emittedSegmentsChecked edges lines = some (emittedSegments edges lines) := by
  induction lines with
  | nil => rfl
  | cons l ls ih =>
    simp only [emittedSegmentsChecked, emitSegmentChecked_eq, Option.some_bind, ih,
      emittedSegments, List.filterMap_cons]
    cases emitSegment edges l <;> rfl

theorem findCenterChecked_eq (points : List (Point α)) (h : points ≠ []) :
    findCenterChecked points = some (findCenter points) := by
  have hne : ((points.length : ℕ) : α) ≠ 0 := by
    have : points.length ≠ 0 := fun h0 => h (List.length_eq_zero.mp h0)
    exact_mod_cast this
  simp only [findCenterChecked, findCenter, divChecked_of_ne _ _ hne, Option.some_bind]

theorem hatchLinesChecked_eq (center : Point α) (sv d : Vector α) (L : ℤ)
    (h0 : -(2 ^ 31) < L) (h1 : L < 2 ^ 31 - 1) :
    hatchLinesChecked center sv d L = some (hatchLines center sv d L) := by
  have hmin : L ≠ intMin := by unfold intMin; omega
  have hmax : L ≠ intMax := by unfold intMax; omega
  simp only [hatchLinesChecked, hmin, hmax, or_self, if_false, hatchLines,
    wrapInt_neg L h0 (by omega)]

theorem stepVectorChecked_eq (sqrt : α → α) (d : Vector α) (step : α)
    (h : sqrt (-d.y * -d.y + d.x * d.x) ≠ 0) :
    stepVectorChecked sqrt d step = some (stepVector sqrt d step) := by
  simp only [stepVectorChecked, stepVector, divChecked_of_ne _ _ h, Option.some_bind]

theorem linesPerSideChecked_eq [FloorRing α] (sqrt : α → α) (hs : SqrtSpec sqrt)
    (points : List (Point α)) (step : α) (hstep : 0 < step)
    (hrange : diagonal sqrt points / step + 3 < 2 ^ 31 - 1) :
    linesPerSideChecked sqrt points step = some (linesPerSide sqrt points step) := by
  have hq : 0 ≤ diagonal sqrt points / step :=
    div_nonneg (diagonal_nonneg sqrt hs points) hstep.le
  simp only [linesPerSideChecked, divChecked_of_ne _ _ hstep.ne.symm, Option.some_bind,
    linesPerSide]
  rw [truncToInt_of_nonneg _ (by linarith) (by linarith)]
  exact floatToInt_of_nonneg _ (by linarith) (by linarith)

/-- Under the conditions of totality the checked pipeline runs through and returns what
the unchecked pipeline returns. -/
theorem hatchChecked_eq [FloorRing α] (sqrt : α → α) (hs : SqrtSpec sqrt)
    (points : List (Point α)) (hlen : points.length = 4) (d : Vector α)
    (hd : d.x * d.x + d.y * d.y = 1) (step : α) (hstep : 0 < step)
    (hrange : diagonal sqrt (parseContour points).2 / step + 3 < 2 ^ 31 - 1) :
    hatchChecked sqrt points d step = hatch sqrt points d step := by
  have h1 : sqrt (-d.y * -d.y + d.x * d.x) = 1 :=
    hs.eq_of_mul_self zero_le_one (by linear_combination (-1 : α) * hd)
  have hp : (parseContour points).2 ≠ [] := by
    intro h0
    have := congrArg List.length h0
    rw [parseContour_snd points hlen, (sortPoints_perm points).length_eq, hlen] at this
    simp at this
  have hL3 := linesPerSide_ge_three sqrt hs (parseContour points).2 step hstep hrange
  have hLmax := linesPerSide_lt_intMax sqrt hs (parseContour points).2 step hstep hrange
  rw [hatch_eq_sort sqrt points d step hlen]
  unfold hatchChecked
  simp only [hlen, ne_eq, not_true_eq_false, if_false, findCenterChecked_eq _ hp,
    Option.some_bind, linesPerSideChecked_eq sqrt hs _ step hstep hrange,
    stepVectorChecked_eq sqrt d step (by rw [h1]; exact one_ne_zero),
    hatchLinesChecked_eq _ _ _ _ (by omega) hLmax, emittedSegmentsChecked_eq]

/-- C17 (as stated it fails): for the square `(0,0), (10,0), (0,10), (10,10)`, angle 0 and
`step = 1e-9 > 0` the value `diagonal / step + 3` is beyond `INT_MAX`: its conversion to
`int` is not defined, so the checked pipeline does not run through; the program goes on
with `INT_MIN` as `lines_per_side`, in exact arithmetic and in binary32.  And in binary32,
for the rectangle `(0,0), (3,0), (0,4), (3,4)` and `step = 5.0000005 > diagonal = 5`, 9
lines are generated, not 7. -/
theorem conversion_out_of_range :
    (0 : ℝ) < 1 / 10 ^ 9 ∧
    floatToInt
      (diagonal Real.sqrt (parseContour [(⟨0, 0⟩ : Point ℝ), ⟨10, 0⟩, ⟨0, 10⟩, ⟨10, 10⟩]).2
        / (1 / 10 ^ 9) + 3) = none ∧
    linesPerSide Real.sqrt
      (parseContour [(⟨0, 0⟩ : Point ℝ), ⟨10, 0⟩, ⟨0, 10⟩, ⟨10, 10⟩]).2 (1 / 10 ^ 9) = intMin ∧
    hatchAngleChecked Real.cos Real.sin Real.pi Real.sqrt
      [⟨0, 0⟩, ⟨10, 0⟩, ⟨0, 10⟩, ⟨10, 10⟩] 0 (1 / 10 ^ 9) = none ∧
    linesPerSideA binary32
      (parseContourA binary32
        [⟨binary32.ofInt 0, binary32.ofInt 0⟩, ⟨binary32.ofInt 10, binary32.ofInt 0⟩,
          ⟨binary32.ofInt 0, binary32.ofInt 10⟩, ⟨binary32.ofInt 10, binary32.ofInt 10⟩]).2
      (decimalLit 1 (10 ^ 9)) = intMin ∧
    binary32.lt
      (diagonalA binary32 (parseContourA binary32
        [⟨binary32.ofInt 0, binary32.ofInt 0⟩, ⟨binary32.ofInt 3, binary32.ofInt 0⟩,
          ⟨binary32.ofInt 0, binary32.ofInt 4⟩, ⟨binary32.ofInt 3, binary32.ofInt 4⟩]).2)
      (decimalLit 50000005 (10 ^ 7)) = true ∧
    (hatchLinesA binary32
      (findCenterA binary32 (parseContourA binary32
        [⟨binary32.ofInt 0, binary32.ofInt 0⟩, ⟨binary32.ofInt 3, binary32.ofInt 0⟩,
          ⟨binary32.ofInt 0, binary32.ofInt 4⟩, ⟨binary32.ofInt 3, binary32.ofInt 4⟩]).2)
      (stepVectorA binary32 ⟨binary32.ofInt 1, binary32.ofInt 0⟩ (decimalLit 50000005 (10 ^ 7)))
      ⟨binary32.ofInt 1, binary32.ofInt 0⟩
      (linesPerSideA binary32
        (parseContourA binary32
          [⟨binary32.ofInt 0, binary32.ofInt 0⟩, ⟨binary32.ofInt 3, binary32.ofInt 0⟩,
            ⟨binary32.ofInt 0, binary32.ofInt 4⟩, ⟨binary32.ofInt 3, binary32.ofInt 4⟩]).2
        (decimalLit 50000005 (10 ^ 7)))).length = 9 := by
  have hconv := floatToInt_of_large _ square_tiny_step_large
  refine ⟨by norm_num, hconv, truncToInt_of_large _ square_tiny_step_large, ?_, rfl, rfl, rfl⟩
  have hL : linesPerSideChecked Real.sqrt
      (parseContour [(⟨0, 0⟩ : Point ℝ), ⟨10, 0⟩, ⟨0, 10⟩, ⟨10, 10⟩]).2 (1 / 10 ^ 9) = none := by
    unfold linesPerSideChecked
    rw [divChecked_of_ne _ _ (by norm_num), Option.some_bind]
    exact hconv
  have hc : (parseContour [(⟨0, 0⟩ : Point ℝ), ⟨10, 0⟩, ⟨0, 10⟩, ⟨10, 10⟩]).2 ≠ [] := by
    rw [rectangle_parse_edges (0 : ℝ) 10 0 10 (by norm_num) (by norm_num) _ (List.Perm.refl _)]
    simp
  unfold hatchAngleChecked hatchChecked
  simp only [List.length_cons, List.length_nil, ne_eq, not_true_eq_false, if_false,
    findCenterChecked_eq _ hc, Option.some_bind, hL, Option.none_bind]

/-- C17 (amended): in exact arithmetic over the reals, once there are 4 points, `step > 0`
with `diagonal / step + 3 < 2^31 - 1` and the direction comes from `calculateDirection`:
the conversion to `int` is defined, every divisor of the pipeline is non-zero
(`perp_length = 1`, the point count is 4, `step > 0`, and an intersection is only computed
when `|det| ≥ 1e-10`, so `det ≠ 0`), the pipeline with every division, the conversion and
the loop counter checked runs through, and it returns the list of the unchecked pipeline,
of at most `2L + 1` segments; when `step > diagonal` exactly 7 lines are generated and at
most 7 segments are returned. -/
theorem pipeline_total (sqrt : ℝ → ℝ) (hs : SqrtSpec sqrt) (points : List (Point ℝ))
    (hlen : points.length = 4) (step : ℝ) (hstep : 0 < step)
    (hrange : diagonal sqrt (parseContour points).2 / step + 3 < 2 ^ 31 - 1) (theta : ℝ) :
    floatToInt (diagonal sqrt (parseContour points).2 / step + 3) =
      some (linesPerSide sqrt (parseContour points).2 step) ∧
    sqrt (-(calculateDirection Real.cos Real.sin Real.pi theta).y
          * -(calculateDirection Real.cos Real.sin Real.pi theta).y
        + (calculateDirection Real.cos Real.sin Real.pi theta).x
          * (calculateDirection Real.cos Real.sin Real.pi theta).x) = 1 ∧
    (((parseContour points).2.length : ℕ) : ℝ) = 4 ∧
    step ≠ 0 ∧
    (∀ (l : Line ℝ) (e : Segment ℝ) (P : Point ℝ), findIntersection l e = some P →
      tol ≤ |det l e| ∧ det l e ≠ 0) ∧
    (∃ out : List (Segment ℝ),
      hatchAngleChecked Real.cos Real.sin Real.pi sqrt points theta step = some out ∧
      hatchAngle Real.cos Real.sin Real.pi sqrt points theta step = some out ∧
      (out.length : ℤ) ≤ 2 * linesPerSide sqrt (parseContour points).2 step + 1) ∧
    (diagonal sqrt (parseContour points).2 < step →
      linesPerSide sqrt (parseContour points).2 step = 3 ∧
      (hatchLines (findCenter (parseContour points).2)
        (stepVector sqrt (calculateDirection Real.cos Real.sin Real.pi theta) step)
        (calculateDirection Real.cos Real.sin Real.pi theta)
        (linesPerSide sqrt (parseContour points).2 step)).length = 7 ∧
      ∃ out : List (Segment ℝ),
        hatchAngle Real.cos Real.sin Real.pi sqrt points theta step = some out ∧
        out.length ≤ 7) := by
  have hunit := calculateDirection_unit theta
  have hout : hatchAngle Real.cos Real.sin Real.pi sqrt points theta step =
      some (sortSegments (emittedSegments (parseContour points).1
        (hatchLines (findCenter (parseContour points).2)
          (stepVector sqrt (calculateDirection Real.cos Real.sin Real.pi theta) step)
          (calculateDirection Real.cos Real.sin Real.pi theta)
          (linesPerSide sqrt (parseContour points).2 step)))) :=
    hatch_eq_sort sqrt points _ step hlen
  have hbound := length_hatch_le sqrt hs points
    (calculateDirection Real.cos Real.sin Real.pi theta) step hstep hrange _ hout
  have hq : 0 ≤ diagonal sqrt (parseContour points).2 / step :=
    div_nonneg (diagonal_nonneg sqrt hs _) hstep.le
  have hchk : hatchAngleChecked Real.cos Real.sin Real.pi sqrt points theta step =
      hatchAngle Real.cos Real.sin Real.pi sqrt points theta step :=
    hatchChecked_eq sqrt hs points hlen _ hunit step hstep hrange
  refine ⟨?_, hs.eq_of_mul_self zero_le_one (by linear_combination (-1 : ℝ) * hunit), ?_,
    hstep.ne.symm, ?_, ⟨_, hchk.trans hout, hout, hbound⟩, ?_⟩
  · unfold linesPerSide
    rw [truncToInt_of_nonneg _ (by linarith) (by linarith)]
    exact floatToInt_of_nonneg _ (by linarith) (by linarith)
  · rw [parseContour_snd points hlen, (sortPoints_perm points).length_eq, hlen]
    norm_num
  · intro l e P h
    obtain ⟨hdet, _⟩ := (findIntersection_eq_some_iff l e P).mp h
    exact ⟨not_lt.mp hdet, det_ne_zero_of_not_lt_tol hdet⟩
  · intro hbig
    have hL := linesPerSide_of_step_gt sqrt hs (parseContour points).2 step hstep hbig
    refine ⟨hL, ?_, _, hout, ?_⟩
    · rw [length_hatchLines _ _ _ _ (by rw [hL]; norm_num) (by rw [hL]; norm_num), hL]; rfl
    · omega

theorem parseContour_perm (points points2 : List (Point α)) (hp : points2.Perm points)
    (hlen : points.length = 4) : parseContour points2 = parseContour points := by
  have hs : sortPoints points2 = sortPoints points :=
    sortPoints_unique points2 (sortPoints points)
      ((sortPoints_perm points).trans hp.symm) (sortPoints_sorted points)
  have hlen2 : points2.length = 4 := by rw [hp.length_eq, hlen]
  simp [parseContour, hlen, hlen2, hs]

/-- C18: for every list of 4 points and every permutation of it, `parseContour` returns
the same edges and leaves the same sorted vector, so the centre and the diagonal agree,
and for every direction (every angle) and step the pipeline returns the identical
sequence of segments. -/
theorem hatch_perm_invariant [FloorRing α] (sqrt : α → α) (points points2 : List (Point α))
    (hlen : points.length = 4) (hp : points2.Perm points) :
    parseContour points2 = parseContour points ∧
    findCenter (parseContour points2).2 = findCenter (parseContour points).2 ∧
    diagonal sqrt (parseContour points2).2 = diagonal sqrt (parseContour points).2 ∧
    (∀ (d : Vector α) (step : α), hatch sqrt points2 d step = hatch sqrt points d step) ∧
    (∀ (cos sin : α → α) (pi angle step : α),
      hatchAngle cos sin pi sqrt points2 angle step =
        hatchAngle cos sin pi sqrt points angle step) := by
  have hpc := parseContour_perm points points2 hp hlen
  have hlen2 : points2.length = 4 := by rw [hp.length_eq, hlen]
  have hh : ∀ (d : Vector α) (step : α),
      hatch sqrt points2 d step = hatch sqrt points d step := by
    intro d step
    rw [hatch_eq_sort sqrt points2 d step hlen2, hatch_eq_sort sqrt points d step hlen, hpc]
  refine ⟨hpc, by rw [hpc], by rw [hpc], hh, ?_⟩
  intro cos sin pi angle step
  exact hh _ step

theorem hatch_perm_invariant_witness :
    hatch Real.sqrt [⟨10, 0⟩, ⟨0, 0⟩, ⟨0, 10⟩, ⟨10, 10⟩] ⟨1, 0⟩ 1 =
      hatch Real.sqrt [⟨0, 0⟩, ⟨10, 0⟩, ⟨0, 10⟩, ⟨10, 10⟩] ⟨1, 0⟩ 1 :=
  (hatch_perm_invariant Real.sqrt [⟨0, 0⟩, ⟨10, 0⟩, ⟨0, 10⟩, ⟨10, 10⟩]
    [⟨10, 0⟩, ⟨0, 0⟩, ⟨0, 10⟩, ⟨10, 10⟩] rfl (List.Perm.swap _ _ _)).2.2.2.1 ⟨1, 0⟩ 1

theorem pipeline_total_witness :
    ∃ out : List (Segment ℝ),
      hatchAngleChecked Real.cos Real.sin Real.pi Real.sqrt
        [⟨0, 0⟩, ⟨10, 0⟩, ⟨0, 10⟩, ⟨10, 10⟩] 30 1 = some out ∧
      hatchAngle Real.cos Real.sin Real.pi Real.sqrt
        [⟨0, 0⟩, ⟨10, 0⟩, ⟨0, 10⟩, ⟨10, 10⟩] 30 1 = some out ∧
      (out.length : ℤ) ≤
        2 * linesPerSide Real.sqrt (parseContour [⟨0, 0⟩, ⟨10, 0⟩, ⟨0, 10⟩, ⟨10, 10⟩]).2 1 + 1 :=
  (pipeline_total Real.sqrt real_sqrtSpec [⟨0, 0⟩, ⟨10, 0⟩, ⟨0, 10⟩, ⟨10, 10⟩] rfl 1 one_pos
    (by have := square_diagonal_lt; norm_num; linarith) 30).2.2.2.2.2.1

/-! ## Parallelograms -/

theorem point_lt_of_notAfter_of_ne (a b : Point α) (h : Point.notAfter a b) (hne : a ≠ b) :
    Point.lt a b := by
  by_contra hc
  exact hne (point_notAfter_antisymm a b h hc)

/-- The `Point` order is compatible with addition: two strict inequalities cannot add up
to an equality of the coordinate sums. -/
theorem point_lt_add_ne (a b c e : Point α) (h1 : Point.lt a b) (h2 : Point.lt c e)
    (hx : a.x + c.x = b.x + e.x) (hy : a.y + c.y = b.y + e.y) : False := by
  rw [point_lt_iff] at h1 h2
  rcases h1 with h1 | ⟨h1, h1x⟩ <;> rcases h2 with h2 | ⟨h2, h2x⟩ <;> linarith

/-- In a parallelogram with opposite vertices `X, Y` and `Z, W`, if the least of the four
points is `X` then the greatest is `Y` and the two in between are `Z` and `W`. -/
theorem parallelogram_sorted_case (X Y Z W p0 p1 p2 p3 : Point α)
    (hXY : X ≠ Y) (hXZ : X ≠ Z) (hXW : X ≠ W) (hYZ : Y ≠ Z) (hYW : Y ≠ W)
    (hx : X.x + Y.x = Z.x + W.x) (hy : X.y + Y.y = Z.y + W.y)
    (hmem : ∀ q : Point α, q ∈ [p0, p1, p2, p3] ↔ (q = X ∨ q = Y ∨ q = Z ∨ q = W))
    (hsorted : [p0, p1, p2, p3].Sorted Point.notAfter)
    (hnodup : [p0, p1, p2, p3].Nodup) (h0 : p0 = X) :
    p3 = Y ∧ ((p1 = Z ∧ p2 = W) ∨ (p1 = W ∧ p2 = Z)) := by
  simp only [List.Sorted, List.pairwise_cons, List.mem_cons, List.mem_singleton,
    forall_eq_or_imp, forall_eq, List.not_mem_nil, false_implies, implies_true,
    List.Pairwise.nil, and_true] at hsorted
  obtain ⟨⟨s01, s02, s03⟩, ⟨s12, s13⟩, s23⟩ := hsorted
  simp only [List.nodup_cons, List.mem_cons, List.mem_singleton, List.not_mem_nil, or_false,
    not_or, not_false_eq_true, List.nodup_nil, and_true] at hnodup
  obtain ⟨⟨n01, n02, n03⟩, ⟨n12, n13⟩, n23⟩ := hnodup
  have hmin : ∀ q : Point α, (q = X ∨ q = Y ∨ q = Z ∨ q = W) → q ≠ p0 → Point.lt p0 q := by
    intro q hq hne
    have hq2 := (hmem q).mpr hq
    simp only [List.mem_cons, List.mem_singleton, List.not_mem_nil, or_false] at hq2
    rcases hq2 with rfl | rfl | rfl | rfl
    · exact absurd rfl hne
    · exact point_lt_of_notAfter_of_ne _ _ s01 n01
    · exact point_lt_of_notAfter_of_ne _ _ s02 n02
    · exact point_lt_of_notAfter_of_ne _ _ s03 n03
  have hmax : ∀ q : Point α, (q = X ∨ q = Y ∨ q = Z ∨ q = W) → q ≠ p3 → Point.lt q p3 := by
    intro q hq hne
    have hq2 := (hmem q).mpr hq
    simp only [List.mem_cons, List.mem_singleton, List.not_mem_nil, or_false] at hq2
    rcases hq2 with rfl | rfl | rfl | rfl
    · exact point_lt_of_notAfter_of_ne _ _ s03 n03
    · exact point_lt_of_notAfter_of_ne _ _ s13 n13
    · exact point_lt_of_notAfter_of_ne _ _ s23 n23
    · exact absurd rfl hne
  have h3mem := (hmem p3).mp (by simp)
  have h1mem := (hmem p1).mp (by simp)
  have h2mem := (hmem p2).mp (by simp)
  subst h0
  have h3 : p3 = Y := by
    rcases h3mem with h | h | h | h
    · exact absurd h.symm n03
    · exact h
    · exfalso
      subst h
      exact point_lt_add_ne p0 W Y p3 (hmin W (by simp) (Ne.symm hXW))
        (hmax Y (by simp) hYZ) (by linarith) (by linarith)
    · exfalso
      subst h
      exact point_lt_add_ne p0 Z Y p3 (hmin Z (by simp) (Ne.symm hXZ))
        (hmax Y (by simp) hYW) (by linarith) (by linarith)
  subst h3
  refine ⟨rfl, ?_⟩
  rcases h1mem with h1 | h1 | h1 | h1
  · exact absurd h1.symm n01
  · exact absurd h1 n13
  · rcases h2mem with h2 | h2 | h2 | h2
    · exact absurd h2.symm n02
    · exact absurd h2 n23
    · exact absurd (h1.trans h2.symm) n12
    · exact Or.inl ⟨h1, h2⟩
  · rcases h2mem with h2 | h2 | h2 | h2
    · exact absurd h2.symm n02
    · exact absurd h2 n23
    · exact Or.inr ⟨h1, h2⟩
    · exact absurd (h1.trans h2.symm) n12

/-- A list of 4 unordered pairs that contains the four sides of a quadrilateral with
pairwise distinct vertices is a permutation of the sides and contains no diagonal. -/
theorem sides_perm_of_subset {β : Type} (A B C D : β) (hAB : A ≠ B) (hAC : A ≠ C)
    (hAD : A ≠ D) (hBC : B ≠ C) (hBD : B ≠ D) (hCD : C ≠ D) (l : List (Sym2 β))
    (hl : l.length = 4)
    (hsub : ∀ z ∈ [Sym2.mk (A, B), Sym2.mk (B, C), Sym2.mk (C, D), Sym2.mk (D, A)], z ∈ l) :
    l.Perm [Sym2.mk (A, B), Sym2.mk (B, C), Sym2.mk (C, D), Sym2.mk (D, A)] ∧
    Sym2.mk (A, C) ∉ l ∧ Sym2.mk (B, D) ∉ l := by
  have hnd : [Sym2.mk (A, B), Sym2.mk (B, C), Sym2.mk (C, D), Sym2.mk (D, A)].Nodup := by
    simp only [List.nodup_cons, List.mem_cons, List.mem_singleton, List.not_mem_nil,
      or_false, not_or, Sym2.eq_iff, not_false_eq_true, List.nodup_nil, and_true]
    simp [hAB, hAC, hAD, hBC, hBD, hCD, hAB.symm, hAC.symm, hAD.symm, hBC.symm, hBD.symm,
      hCD.symm]
  have hperm : [Sym2.mk (A, B), Sym2.mk (B, C), Sym2.mk (C, D), Sym2.mk (D, A)].Perm l :=
    (List.subperm_of_subset hnd hsub).perm_of_length_le (by rw [hl]; rfl)
  refine ⟨hperm.symm, ?_, ?_⟩
  · intro h
    have h2 := hperm.symm.subset h
    simp only [List.mem_cons, List.mem_singleton, List.not_mem_nil, or_false,
      Sym2.eq_iff] at h2
    simp [hAB, hAC, hAD, hBC, hBD, hCD, hAB.symm, hAC.symm, hAD.symm, hBC.symm, hBD.symm,
      hCD.symm] at h2
  · intro h
    have h2 := hperm.symm.subset h
    simp only [List.mem_cons, List.mem_singleton, List.not_mem_nil, or_false,
      Sym2.eq_iff] at h2
    simp [hAB, hAC, hAD, hBC, hBD, hCD, hAB.symm, hAC.symm, hAD.symm, hBC.symm, hBD.symm,
      hCD.symm] at h2

theorem or4_acbd (a b c d : Prop) : (a ∨ b ∨ c ∨ d) ↔ (a ∨ c ∨ b ∨ d) := by tauto

theorem or4_bdac (a b c d : Prop) : (a ∨ b ∨ c ∨ d) ↔ (b ∨ d ∨ a ∨ c) := by tauto

theorem or4_cabd (a b c d : Prop) : (a ∨ b ∨ c ∨ d) ↔ (c ∨ a ∨ b ∨ d) := by tauto

theorem or4_dbac (a b c d : Prop) : (a ∨ b ∨ c ∨ d) ↔ (d ∨ b ∨ a ∨ c) := by tauto

/-- C19: for four pairwise distinct points `A, B, C, D` with `A + C = B + D` given in any
order, `parseContour` returns four edges whose endpoint pairs are exactly the sides
`{A,B}, {B,C}, {C,D}, {D,A}`; neither diagonal `{A,C}`, `{B,D}` is an edge, and the least
and the greatest point of the `Point` order are opposite vertices. -/
theorem parseContour_parallelogram (A B C D : Point α) (hAB : A ≠ B) (hAC : A ≠ C)
    (hAD : A ≠ D) (hBC : B ≠ C) (hBD : B ≠ D) (hCD : C ≠ D)
    (hx : A.x + C.x = B.x + D.x) (hy : A.y + C.y = B.y + D.y)
    (points : List (Point α)) (hp : points.Perm [A, B, C, D]) :
    (Sym2.mk (at_ (parseContour points).2 0, at_ (parseContour points).2 3) = Sym2.mk (A, C) ∨
      Sym2.mk (at_ (parseContour points).2 0, at_ (parseContour points).2 3)
        = Sym2.mk (B, D)) ∧
    ((parseContour points).1.map Segment.endpoints).Perm
      [Sym2.mk (A, B), Sym2.mk (B, C), Sym2.mk (C, D), Sym2.mk (D, A)] ∧
    Sym2.mk (A, C) ∉ (parseContour points).1.map Segment.endpoints ∧
    Sym2.mk (B, D) ∉ (parseContour points).1.map Segment.endpoints := by
  have hlen : points.length = 4 := by rw [hp.length_eq]; rfl
  obtain ⟨p0, p1, p2, p3, hperm, hsorted, hpc⟩ := parseContour_of_four points hlen
  have hperm4 : [p0, p1, p2, p3].Perm [A, B, C, D] := hperm.trans hp
  have hnodup : [p0, p1, p2, p3].Nodup := by
    rw [hperm4.nodup_iff]
    simp [hAB, hAC, hAD, hBC, hBD, hCD]
  have hmem : ∀ q : Point α, q ∈ [p0, p1, p2, p3] ↔ (q = A ∨ q = B ∨ q = C ∨ q = D) := by
    intro q
    rw [hperm4.mem_iff]
    simp
  have h0 := (hmem p0).mp (by simp)
  have key : ∀ l : List (Sym2 (Point α)), l.length = 4 →
      (∀ z ∈ [Sym2.mk (A, B), Sym2.mk (B, C), Sym2.mk (C, D), Sym2.mk (D, A)], z ∈ l) →
      l.Perm [Sym2.mk (A, B), Sym2.mk (B, C), Sym2.mk (C, D), Sym2.mk (D, A)] ∧
      Sym2.mk (A, C) ∉ l ∧ Sym2.mk (B, D) ∉ l :=
    sides_perm_of_subset A B C D hAB hAC hAD hBC hBD hCD
  rw [hpc]
  simp only [List.map_cons, List.map_nil, Segment.endpoints, at_, List.getD_cons_zero,
    List.getD_cons_succ]
  rcases h0 with h0 | h0 | h0 | h0
  · obtain ⟨h3, h12⟩ := parallelogram_sorted_case A C B D p0 p1 p2 p3 hAC hAB hAD hBC.symm hCD
      hx hy (fun q => (hmem q).trans (or4_acbd _ _ _ _)) hsorted hnodup h0
    rcases h12 with ⟨h1, h2⟩ | ⟨h1, h2⟩ <;> subst h0 h1 h2 h3
    · exact ⟨Or.inl rfl, key _ (by rfl) (by simp [Sym2.eq_iff])⟩
    · exact ⟨Or.inl rfl, key _ (by rfl) (by simp [Sym2.eq_iff])⟩
  · obtain ⟨h3, h12⟩ := parallelogram_sorted_case B D A C p0 p1 p2 p3 hBD hAB.symm hBC
      hAD.symm hCD.symm hx.symm hy.symm (fun q => (hmem q).trans (or4_bdac _ _ _ _)) hsorted hnodup h0
    rcases h12 with ⟨h1, h2⟩ | ⟨h1, h2⟩ <;> subst h0 h1 h2 h3
    · exact ⟨Or.inr rfl, key _ (by rfl) (by simp [Sym2.eq_iff])⟩
    · exact ⟨Or.inr rfl, key _ (by rfl) (by simp [Sym2.eq_iff])⟩
  · obtain ⟨h3, h12⟩ := parallelogram_sorted_case C A B D p0 p1 p2 p3 hAC.symm hBC.symm hCD
      hAB hAD (by rw [add_comm]; exact hx) (by rw [add_comm]; exact hy) (fun q => (hmem q).trans (or4_cabd _ _ _ _)) hsorted
      hnodup h0
    rcases h12 with ⟨h1, h2⟩ | ⟨h1, h2⟩ <;> subst h0 h1 h2 h3
    · exact ⟨Or.inl Sym2.eq_swap, key _ (by rfl) (by simp [Sym2.eq_iff])⟩
    · exact ⟨Or.inl Sym2.eq_swap, key _ (by rfl) (by simp [Sym2.eq_iff])⟩
  · obtain ⟨h3, h12⟩ := parallelogram_sorted_case D B A C p0 p1 p2 p3 hBD.symm hAD.symm
      hCD.symm hAB.symm hBC (by rw [add_comm]; exact hx.symm) (by rw [add_comm]; exact hy.symm)
      (fun q => (hmem q).trans (or4_dbac _ _ _ _))
      hsorted hnodup h0
    rcases h12 with ⟨h1, h2⟩ | ⟨h1, h2⟩ <;> subst h0 h1 h2 h3
    · exact ⟨Or.inr Sym2.eq_swap, key _ (by rfl) (by simp [Sym2.eq_iff])⟩
    · exact ⟨Or.inr Sym2.eq_swap, key _ (by rfl) (by simp [Sym2.eq_iff])⟩

theorem parseContour_parallelogram_witness :
    (Sym2.mk (at_ (parseContour ([⟨2, 1⟩, ⟨1, 2⟩, ⟨0, 0⟩, ⟨3, 3⟩] : List (Point ℚ))).2 0,
        at_ (parseContour ([⟨2, 1⟩, ⟨1, 2⟩, ⟨0, 0⟩, ⟨3, 3⟩] : List (Point ℚ))).2 3)
        = Sym2.mk ((⟨0, 0⟩ : Point ℚ), (⟨3, 3⟩ : Point ℚ)) ∨
      Sym2.mk (at_ (parseContour ([⟨2, 1⟩, ⟨1, 2⟩, ⟨0, 0⟩, ⟨3, 3⟩] : List (Point ℚ))).2 0,
        at_ (parseContour ([⟨2, 1⟩, ⟨1, 2⟩, ⟨0, 0⟩, ⟨3, 3⟩] : List (Point ℚ))).2 3)
        = Sym2.mk ((⟨2, 1⟩ : Point ℚ), (⟨1, 2⟩ : Point ℚ))) ∧
    ((parseContour ([⟨2, 1⟩, ⟨1, 2⟩, ⟨0, 0⟩, ⟨3, 3⟩] : List (Point ℚ))).1.map
        Segment.endpoints).Perm
      [Sym2.mk ((⟨0, 0⟩ : Point ℚ), (⟨2, 1⟩ : Point ℚ)), Sym2.mk (⟨2, 1⟩, ⟨3, 3⟩),
        Sym2.mk (⟨3, 3⟩, ⟨1, 2⟩), Sym2.mk (⟨1, 2⟩, ⟨0, 0⟩)] ∧
    Sym2.mk ((⟨0, 0⟩ : Point ℚ), (⟨3, 3⟩ : Point ℚ)) ∉
      (parseContour ([⟨2, 1⟩, ⟨1, 2⟩, ⟨0, 0⟩, ⟨3, 3⟩] : List (Point ℚ))).1.map
        Segment.endpoints ∧
    Sym2.mk ((⟨2, 1⟩ : Point ℚ), (⟨1, 2⟩ : Point ℚ)) ∉
      (parseContour ([⟨2, 1⟩, ⟨1, 2⟩, ⟨0, 0⟩, ⟨3, 3⟩] : List (Point ℚ))).1.map
        Segment.endpoints :=
  parseContour_parallelogram ⟨0, 0⟩ ⟨2, 1⟩ ⟨3, 3⟩ ⟨1, 2⟩ (by decide) (by decide) (by decide)
    (by decide) (by decide) (by decide) (by norm_num) (by norm_num)
    [⟨2, 1⟩, ⟨1, 2⟩, ⟨0, 0⟩, ⟨3, 3⟩] (by decide)

/-! ## Rectangle coverage -/

/-- A point of the rectangle has perpendicular offset at most half the diagonal from the
rectangle's centre. -/
theorem perpOffset_le_half_diagonal (sqrt : α → α) (hs : SqrtSpec sqrt) (x0 x1 y0 y1 : α)
    (d : Vector α) (hd : d.x * d.x + d.y * d.y = 1)
    (P : Point α) (hP : InRect x0 x1 y0 y1 P) :
    |perpOffset ⟨(x0 + x1 + x0 + x1) / 4, (y0 + y0 + y1 + y1) / 4⟩ d P| ≤
      sqrt ((x1 - x0) ^ 2 + (y1 - y0) ^ 2) / 2 := by
  obtain ⟨h1, h2, h3, h4⟩ := hP
  obtain ⟨hD0, hD⟩ := hs ((x1 - x0) ^ 2 + (y1 - y0) ^ 2)
    (add_nonneg (sq_nonneg _) (sq_nonneg _))
  have hoff := perpOffset_sq_le ⟨(x0 + x1 + x0 + x1) / 4, (y0 + y0 + y1 + y1) / 4⟩ d P hd
  simp only at hoff
  have hxs : (P.x - (x0 + x1 + x0 + x1) / 4) ^ 2 ≤ (x1 - x0) ^ 2 / 4 := by
    nlinarith [mul_nonneg (sub_nonneg.mpr h1) (sub_nonneg.mpr h2)]
  have hys : (P.y - (y0 + y0 + y1 + y1) / 4) ^ 2 ≤ (y1 - y0) ^ 2 / 4 := by
    nlinarith [mul_nonneg (sub_nonneg.mpr h3) (sub_nonneg.mpr h4)]
  have hsq : (perpOffset ⟨(x0 + x1 + x0 + x1) / 4, (y0 + y0 + y1 + y1) / 4⟩ d P) ^ 2 ≤
      (sqrt ((x1 - x0) ^ 2 + (y1 - y0) ^ 2) / 2) ^ 2 := by
    have e : (sqrt ((x1 - x0) ^ 2 + (y1 - y0) ^ 2) / 2) ^ 2 =
        ((x1 - x0) ^ 2 + (y1 - y0) ^ 2) / 4 := by
      rw [div_pow, sq, hD]; norm_num
    rw [e]
    linarith
  exact abs_le.mpr (abs_le_of_sq_le_sq' hsq (by linarith))

theorem hatchLines_intMin (center : Point α) (sv d : Vector α) :
    hatchLines center sv d (-(2 ^ 31)) = [hatchLine center sv d (-(2 ^ 31))] := by
  have h : intRange (wrapInt (- -(2 ^ 31))) (-(2 ^ 31)) = [-(2 ^ 31)] := by decide
  simp only [hatchLines, h, List.map_cons, List.map_nil]

/-- C20 (as stated it fails): for the square `(0,0), (10,0), (0,10), (10,10)`, direction
`(1, 0)` and `step = 1e-9 > 0` the conversion of `diagonal / step + 3` to `int` is out of
range and `lines_per_side` is `INT_MIN`: `diagonal / 2 < L * step` fails, and the line of
index 0, which passes through the centre `(5, 5)` of the rectangle, is not among the
generated lines.  In binary32 likewise: the only generated line is the one of index
`INT_MIN`, through `(5, 2.8525164)`, and the line of index 0 through `(5, 5)` is not
generated. -/
theorem rectangle_line_not_generated :
    (0 : ℝ) < 1 / 10 ^ 9 ∧
    ¬ (diagonal Real.sqrt (parseContour [(⟨0, 0⟩ : Point ℝ), ⟨10, 0⟩, ⟨0, 10⟩, ⟨10, 10⟩]).2 / 2 <
      (linesPerSide Real.sqrt
        (parseContour [(⟨0, 0⟩ : Point ℝ), ⟨10, 0⟩, ⟨0, 10⟩, ⟨10, 10⟩]).2 (1 / 10 ^ 9) : ℝ)
        * (1 / 10 ^ 9)) ∧
    (OnLine (hatchLine (findCenter (parseContour [(⟨0, 0⟩ : Point ℝ), ⟨10, 0⟩, ⟨0, 10⟩, ⟨10, 10⟩]).2)
        (stepVector Real.sqrt ⟨1, 0⟩ (1 / 10 ^ 9)) ⟨1, 0⟩ 0) ⟨5, 5⟩ ∧
      InRect (0 : ℝ) 10 0 10 ⟨5, 5⟩) ∧
    hatchLine (findCenter (parseContour [(⟨0, 0⟩ : Point ℝ), ⟨10, 0⟩, ⟨0, 10⟩, ⟨10, 10⟩]).2)
        (stepVector Real.sqrt ⟨1, 0⟩ (1 / 10 ^ 9)) ⟨1, 0⟩ 0 ∉
      hatchLines (findCenter (parseContour [(⟨0, 0⟩ : Point ℝ), ⟨10, 0⟩, ⟨0, 10⟩, ⟨10, 10⟩]).2)
        (stepVector Real.sqrt ⟨1, 0⟩ (1 / 10 ^ 9)) ⟨1, 0⟩
        (linesPerSide Real.sqrt
          (parseContour [(⟨0, 0⟩ : Point ℝ), ⟨10, 0⟩, ⟨0, 10⟩, ⟨10, 10⟩]).2 (1 / 10 ^ 9)) ∧
    hatchLinesA binary32
      (findCenterA binary32 (parseContourA binary32
        [⟨binary32.ofInt 0, binary32.ofInt 0⟩, ⟨binary32.ofInt 10, binary32.ofInt 0⟩,
          ⟨binary32.ofInt 0, binary32.ofInt 10⟩, ⟨binary32.ofInt 10, binary32.ofInt 10⟩]).2)
      (stepVectorA binary32 ⟨binary32.ofInt 1, binary32.ofInt 0⟩ (decimalLit 1 (10 ^ 9)))
      ⟨binary32.ofInt 1, binary32.ofInt 0⟩
      (linesPerSideA binary32
        (parseContourA binary32
          [⟨binary32.ofInt 0, binary32.ofInt 0⟩, ⟨binary32.ofInt 10, binary32.ofInt 0⟩,
            ⟨binary32.ofInt 0, binary32.ofInt 10⟩, ⟨binary32.ofInt 10, binary32.ofInt 10⟩]).2
        (decimalLit 1 (10 ^ 9))) =
      [⟨⟨binary32.ofInt 5, Binary.fin false 11964321 (-22)⟩,
        ⟨binary32.ofInt 1, binary32.ofInt 0⟩⟩] ∧
    hatchLineA binary32
      (findCenterA binary32 (parseContourA binary32
        [⟨binary32.ofInt 0, binary32.ofInt 0⟩, ⟨binary32.ofInt 10, binary32.ofInt 0⟩,
          ⟨binary32.ofInt 0, binary32.ofInt 10⟩, ⟨binary32.ofInt 10, binary32.ofInt 10⟩]).2)
      (stepVectorA binary32 ⟨binary32.ofInt 1, binary32.ofInt 0⟩ (decimalLit 1 (10 ^ 9)))
      ⟨binary32.ofInt 1, binary32.ofInt 0⟩ 0 =
      ⟨⟨binary32.ofInt 5, binary32.ofInt 5⟩, ⟨binary32.ofInt 1, binary32.ofInt 0⟩⟩ ∧
    Binary.toRat (Binary.fin false 11964321 (-22)) ≠ Binary.toRat (binary32.ofInt 5) := by
  have hL : linesPerSide Real.sqrt
      (parseContour [(⟨0, 0⟩ : Point ℝ), ⟨10, 0⟩, ⟨0, 10⟩, ⟨10, 10⟩]).2 (1 / 10 ^ 9) =
      -(2 ^ 31) := by
    unfold linesPerSide
    rw [truncToInt_of_large _ square_tiny_step_large]
    rfl
  have hD := diagonal_nonneg Real.sqrt real_sqrtSpec
    (parseContour [(⟨0, 0⟩ : Point ℝ), ⟨10, 0⟩, ⟨0, 10⟩, ⟨10, 10⟩]).2
  have hc : findCenter (parseContour [(⟨0, 0⟩ : Point ℝ), ⟨10, 0⟩, ⟨0, 10⟩, ⟨10, 10⟩]).2 =
      ⟨5, 5⟩ := by
    rw [rectangle_parse_edges (0 : ℝ) 10 0 10 (by norm_num) (by norm_num) _ (List.Perm.refl _),
      findCenter_four]
    norm_num
  have hsv : stepVector Real.sqrt (⟨1, 0⟩ : Vector ℝ) (1 / 10 ^ 9) = ⟨0, 1 / 10 ^ 9⟩ := by
    rw [stepVector_unit Real.sqrt real_sqrtSpec _ _ (by norm_num)]
    norm_num
  have h5 : binary32.ofInt 5 = Binary.fin false 5 0 := rfl
  rw [hL, hc, hsv, hatchLines_intMin]
  refine ⟨by norm_num, ?_, ⟨⟨0, ?_, ?_⟩, ?_⟩, ?_, rfl, rfl, ?_⟩
  · push_cast
    intro h
    linarith
  · simp [hatchLine]
  · simp [hatchLine]
  · unfold InRect
    norm_num
  · rw [List.mem_singleton]
    intro h
    have h2 := congrArg (fun l => l.origin.y) h
    simp only [hatchLine] at h2
    norm_num at h2
  · rw [h5]; norm_num [Binary.toRat]

/-- C20 (amended): in exact arithmetic, for an axis-aligned rectangle with `x0 < x1`,
`y0 < y1` given by its four corners (in any order), every unit hatch direction and every
`step > 0` with `diagonal / step + 3 < 2^31 - 1` (so that the conversion to `int` is in
range and the loop counter does not overflow), with
`L = lines_per_side = floor(diagonal / step) + 3`: every corner has a
perpendicular offset from the centre of absolute value at most `diagonal / 2`, which is
`< L * step`; and every line `centre + i * offset` (`i` any integer) that meets the
rectangle has `-L < i < L` and is among the generated lines. -/
theorem rectangle_coverage [FloorRing α] (sqrt : α → α) (hs : SqrtSpec sqrt)
    (x0 x1 y0 y1 : α) (hx : x0 < x1) (hy : y0 < y1) (points : List (Point α))
    (hp : points.Perm [⟨x0, y0⟩, ⟨x1, y0⟩, ⟨x0, y1⟩, ⟨x1, y1⟩])
    (d : Vector α) (hd : d.x * d.x + d.y * d.y = 1) (step : α) (hstep : 0 < step)
    (hrange : diagonal sqrt (parseContour points).2 / step + 3 < 2 ^ 31 - 1) :
    linesPerSide sqrt (parseContour points).2 step =
      ⌊diagonal sqrt (parseContour points).2 / step⌋ + 3 ∧
    (∀ P ∈ points, |perpOffset (findCenter (parseContour points).2) d P| ≤
      diagonal sqrt (parseContour points).2 / 2) ∧
    diagonal sqrt (parseContour points).2 / 2 <
      (linesPerSide sqrt (parseContour points).2 step : α) * step ∧
    ∀ i : ℤ,
      (∃ X : Point α,
        OnLine (hatchLine (findCenter (parseContour points).2) (stepVector sqrt d step) d i) X ∧
        InRect x0 x1 y0 y1 X) →
      -linesPerSide sqrt (parseContour points).2 step < i ∧
      i < linesPerSide sqrt (parseContour points).2 step ∧
      hatchLine (findCenter (parseContour points).2) (stepVector sqrt d step) d i ∈
        hatchLines (findCenter (parseContour points).2) (stepVector sqrt d step) d
          (linesPerSide sqrt (parseContour points).2 step) := by
  have hL := linesPerSide_reach sqrt hs (parseContour points).2 step hstep hrange
  have hD0 := diagonal_nonneg sqrt hs (parseContour points).2
  have hpc := rectangle_parse_edges x0 x1 y0 y1 hx hy points hp
  have hc : findCenter (parseContour points).2 =
      ⟨(x0 + x1 + x0 + x1) / 4, (y0 + y0 + y1 + y1) / 4⟩ := by
    rw [hpc, findCenter_four]
  have hdiag : diagonal sqrt (parseContour points).2 =
      sqrt ((x1 - x0) ^ 2 + (y1 - y0) ^ 2) := by
    rw [hpc]
    simp [diagonal, at_]
  have hin : ∀ P : Point α, InRect x0 x1 y0 y1 P →
      |perpOffset (findCenter (parseContour points).2) d P| ≤
        diagonal sqrt (parseContour points).2 / 2 := by
    intro P hP
    rw [hc, hdiag]
    exact perpOffset_le_half_diagonal sqrt hs x0 x1 y0 y1 d hd P hP
  refine ⟨linesPerSide_eq_floor sqrt hs _ step hstep hrange, ?_, by linarith, ?_⟩
  · intro P hP
    apply hin
    have hP2 := hp.subset hP
    simp only [List.mem_cons, List.mem_singleton, List.not_mem_nil, or_false] at hP2
    rcases hP2 with rfl | rfl | rfl | rfl
    · exact ⟨le_refl _, hx.le, le_refl _, hy.le⟩
    · exact ⟨hx.le, le_refl _, le_refl _, hy.le⟩
    · exact ⟨le_refl _, hx.le, hy.le, le_refl _⟩
    · exact ⟨hx.le, le_refl _, hy.le, le_refl _⟩
  · rintro i ⟨X, hline, hX⟩
    have hoff := hin X hX
    rw [stepVector_unit sqrt hs d step hd] at hline ⊢
    rw [perpOffset_on_hatchLine _ d step i hd X hline, abs_le] at hoff
    have hlo : ((-linesPerSide sqrt (parseContour points).2 step : ℤ) : α) < (i : α) := by
      push_cast
      by_contra hcon
      push_neg at hcon
      nlinarith [mul_le_mul_of_nonneg_right hcon hstep.le]
    have hhi : (i : α) < (linesPerSide sqrt (parseContour points).2 step : α) := by
      by_contra hcon
      push_neg at hcon
      nlinarith [mul_le_mul_of_nonneg_right hcon hstep.le]
    have hlo2 := Int.cast_lt.mp hlo
    have hhi2 := Int.cast_lt.mp hhi
    refine ⟨hlo2, hhi2, ?_⟩
    have hmax := linesPerSide_le_intMax sqrt (parseContour points).2 step
    have hmin := (linesPerSide_ge_three sqrt hs (parseContour points).2 step hstep hrange)
    exact hatchLine_mem_hatchLines _ _ _ _ i (by omega) hmax hlo2.le hhi2.le

theorem rectangle_coverage_witness :
    SqrtSpec Real.sqrt ∧
    diagonal Real.sqrt (parseContour [(⟨10, 0⟩ : Point ℝ), ⟨0, 0⟩, ⟨0, 10⟩, ⟨10, 10⟩]).2 / 2 <
      (linesPerSide Real.sqrt
        (parseContour [(⟨10, 0⟩ : Point ℝ), ⟨0, 0⟩, ⟨0, 10⟩, ⟨10, 10⟩]).2 1 : ℝ) * 1 :=
  ⟨real_sqrtSpec,
    (rectangle_coverage Real.sqrt real_sqrtSpec 0 10 0 10 (by norm_num) (by norm_num)
      [⟨10, 0⟩, ⟨0, 0⟩, ⟨0, 10⟩, ⟨10, 10⟩] (List.Perm.swap _ _ _) ⟨1, 0⟩ (by norm_num) 1
      one_pos (by
        rw [rectangle_parse_edges (0 : ℝ) 10 0 10 (by norm_num) (by norm_num) _
          (List.Perm.swap _ _ _)]
        have h := square_diagonal_lt
        rw [rectangle_parse_edges (0 : ℝ) 10 0 10 (by norm_num) (by norm_num) _
          (List.Perm.refl _)] at h
        norm_num
        linarith)).2.2.1⟩

/-! ## The program over the arithmetic of the machine: intersector and emission -/

section
variable {F : Type}

theorem findIntersectionA_eq_none_iff (A : Arith F) (line : Line F) (segment : Segment F) :
    findIntersectionA A line segment = none ↔
      A.absLtTol (detA A line segment) = true ∨
      A.le (A.ofInt 0) (paramUA A line segment) = false ∨
      A.le (paramUA A line segment) (A.ofInt 1) = false := by
  unfold findIntersectionA
  cases h1 : A.absLtTol (detA A line segment) <;>
    cases h2 : A.le (A.ofInt 0) (paramUA A line segment) <;>
    cases h3 : A.le (paramUA A line segment) (A.ofInt 1) <;> simp

theorem findIntersectionA_of_ne_none (A : Arith F) (line : Line F) (segment : Segment F)
    (h : findIntersectionA A line segment ≠ none) :
    findIntersectionA A line segment =
      some ⟨A.add line.origin.x (A.mul line.direction.x (paramTA A line segment)),
            A.add line.origin.y (A.mul line.direction.y (paramTA A line segment))⟩ := by
  unfold findIntersectionA at h ⊢
  cases h1 : A.absLtTol (detA A line segment) <;>
    cases h2 : A.le (A.ofInt 0) (paramUA A line segment) <;>
    cases h3 : A.le (paramUA A line segment) (A.ofInt 1) <;> simp [h1, h2, h3] at h ⊢

theorem addIntersectionA_cases (A : Arith F) (line : Line F) (acc : List (Point F))
    (edge : Segment F) :
    addIntersectionA A line acc edge = acc ∨
      ∃ p : Point F, findIntersectionA A line edge = some p ∧ A.isnan p.x = false ∧
        isDuplicateA A acc p = false ∧ addIntersectionA A line acc edge = acc ++ [p] := by
  unfold addIntersectionA
  cases hf : findIntersectionA A line edge with
  | none => exact Or.inl rfl
  | some p =>
    cases hn : A.isnan p.x with
    | true => simp [hn]
    | false =>
      cases hd : isDuplicateA A acc p with
      | true => simp [hn, hd]
      | false => exact Or.inr ⟨p, rfl, hn, hd, by simp [hn, hd]⟩

theorem emitSegmentA_eq_some_iff (A : Arith F) (edges : List (Segment F)) (line : Line F)
    (s : Segment F) :
    emitSegmentA A edges line = some s ↔
      ∃ a b : Point F, collectIntersectionsA A edges line = [a, b] ∧ s = ⟨a, b⟩ := by
  unfold emitSegmentA
  constructor
  · intro h
    by_cases h2 : (collectIntersectionsA A edges line).length = 2
    · simp only [h2, if_true, Option.some.injEq] at h
      match hc : collectIntersectionsA A edges line, h2 with
      | [a, b], _ =>
        rw [hc] at h
        exact ⟨a, b, rfl, by rw [← h]; simp [atA]⟩
    · simp [h2] at h
  · rintro ⟨a, b, hc, rfl⟩
    simp [hc, atA]

theorem emitSegmentA_eq_none_iff (A : Arith F) (edges : List (Segment F)) (line : Line F) :
    emitSegmentA A edges line = none ↔ (collectIntersectionsA A edges line).length ≠ 2 := by
  unfold emitSegmentA
  by_cases h2 : (collectIntersectionsA A edges line).length = 2
  · simp [h2]
  · simp [h2]

theorem length_emittedSegmentsA_le (A : Arith F) (edges : List (Segment F))
    (lines : List (Line F)) : (emittedSegmentsA A edges lines).length ≤ lines.length :=
  List.length_filterMap_le _ _

theorem length_hatchLinesA (A : Arith F) (center : Point F) (sv d : Vector F) (L : ℤ)
    (h0 : -(2 ^ 31) < L) (h1 : L ≤ 2 ^ 31) :
    (hatchLinesA A center sv d L).length = (2 * L + 1).toNat := by
  simp only [hatchLinesA, List.length_map, length_intRange, wrapInt_neg L h0 h1]
  congr 1
  ring

theorem sortSegmentsA_perm (A : Arith F) (l : List (Segment F)) : (sortSegmentsA A l).Perm l :=
  List.perm_insertionSort _ l

theorem hatchA_eq_sort (A : Arith F) (points : List (Point F)) (d : Vector F) (step : F)
    (hlen : points.length = 4) :
    hatchA A points d step =
      some (sortSegmentsA A (emittedSegmentsA A (parseContourA A points).1
        (hatchLinesA A (findCenterA A (parseContourA A points).2) (stepVectorA A d step) d
          (linesPerSideA A (parseContourA A points).2 step)))) := by
  simp [hatchA, hlen]

theorem hatchA_ne_some_of_length (A : Arith F) (points : List (Point F)) (d : Vector F)
    (step : F) (out : List (Segment F)) (h : hatchA A points d step = some out) :
    points.length = 4 := by
  by_contra hlen
  simp [hatchA, hlen] at h

/-- Known values of the binary32 arithmetic: `0.1f = 0x3dcccccd`, `1/3 = 0x3eaaaaab`,
`sqrt(2) = 0x3fb504f3`, the ties `2^24 + 1 -> 2^24` and `2^24 + 3 -> 2^24 + 4` of the
conversion from `int`, `0.1f + 0.2f = 0x3e99999a`, the `float` of `sqrt(200.0)` computed in
`double`, the least subnormal `2^-149` for `1e-45`, the overflow of `2^127 * 2` to
infinity, and the `double` literal `1e-10 = 0x3ddb7cdfd9d7bdbb`. -/
theorem binary32_known_values :
    decimalLit 1 10 = Binary.fin false 13421773 (-27) ∧
    binary32.div (binary32.ofInt 1) (binary32.ofInt 3) = Binary.fin false 11184811 (-25) ∧
    binary32.sqrt (binary32.ofInt 2) = Binary.fin false 11863283 (-23) ∧
    binary32.ofInt (2 ^ 24 + 1) = Binary.fin false 1 24 ∧
    binary32.ofInt (2 ^ 24 + 3) = Binary.fin false 4194305 2 ∧
    binary32.add (decimalLit 1 10) (decimalLit 2 10) = Binary.fin false 5033165 (-24) ∧
    binary32.sqrtSumSq (binary32.ofInt 10) (binary32.ofInt 10) =
      Binary.fin false 926819 (-16) ∧
    decimalLit 1 (10 ^ 45) = Binary.fin false 1 (-149) ∧
    binary32.mul (Binary.fin false 1 127) (binary32.ofInt 2) = Binary.inf false ∧
    tolDouble = Binary.fin false 7737125245533627 (-86) :=
  ⟨rfl, rfl, rfl, rfl, rfl, rfl, rfl, rfl, rfl, rfl⟩

/-- The run of the program in binary32 on the square `(0,0), (10,0), (0,10), (10,10)` with
direction `(1, 0)` and step 1: 17 lines per side and the 11 segments `(0,k) -> (10,k)`,
`k = 0..10`, as in exact arithmetic. -/
theorem hatchA_binary32_square :
    linesPerSideA binary32
      (parseContourA binary32
        [⟨binary32.ofInt 0, binary32.ofInt 0⟩, ⟨binary32.ofInt 10, binary32.ofInt 0⟩,
          ⟨binary32.ofInt 0, binary32.ofInt 10⟩, ⟨binary32.ofInt 10, binary32.ofInt 10⟩]).2
      (binary32.ofInt 1) = 17 ∧
    hatchA binary32
      [⟨binary32.ofInt 0, binary32.ofInt 0⟩, ⟨binary32.ofInt 10, binary32.ofInt 0⟩,
        ⟨binary32.ofInt 0, binary32.ofInt 10⟩, ⟨binary32.ofInt 10, binary32.ofInt 10⟩]
      ⟨binary32.ofInt 1, binary32.ofInt 0⟩ (binary32.ofInt 1) =
      some ((List.range 11).map (fun (k : ℕ) =>
        (⟨⟨binary32.ofInt 0, binary32.ofInt (k : ℤ)⟩,
          ⟨binary32.ofInt 10, binary32.ofInt (k : ℤ)⟩⟩ : Segment Binary))) :=
  ⟨rfl, rfl⟩

/-- C3 (as stated it fails): the line through `(0, 0)` with direction `(4097, 4097)` and
the segment `(0, 1) -> (4097, 4097)`.  With `det` and `u` the stated formulas, `det = 4097`
and `u = 1`, so a point, `(4097, 4097)`, is to be returned, as in exact arithmetic.  The
program works in binary32: `4097 * 4097` rounds to `16785408`, the computed `det` is
`4096`, the computed `u` is `4097 / 4096 > 1`, and the sentinel is returned. -/
theorem intersection_lost_to_rounding :
    det (⟨⟨0, 0⟩, ⟨4097, 4097⟩⟩ : Line ℚ) ⟨⟨0, 1⟩, ⟨4097, 4097⟩⟩ = 4097 ∧
    paramU (⟨⟨0, 0⟩, ⟨4097, 4097⟩⟩ : Line ℚ) ⟨⟨0, 1⟩, ⟨4097, 4097⟩⟩ = 1 ∧
    findIntersection (⟨⟨0, 0⟩, ⟨4097, 4097⟩⟩ : Line ℚ) ⟨⟨0, 1⟩, ⟨4097, 4097⟩⟩ =
      some ⟨4097, 4097⟩ ∧
    Binary.toRat (binary32.ofInt 0) = 0 ∧ Binary.toRat (binary32.ofInt 1) = 1 ∧
    Binary.toRat (binary32.ofInt 4097) = 4097 ∧
    Binary.toRat (binary32.mul (binary32.ofInt 4097) (binary32.ofInt 4097)) = 16785408 ∧
    Binary.toRat (detA binary32
      ⟨⟨binary32.ofInt 0, binary32.ofInt 0⟩, ⟨binary32.ofInt 4097, binary32.ofInt 4097⟩⟩
      ⟨⟨binary32.ofInt 0, binary32.ofInt 1⟩, ⟨binary32.ofInt 4097, binary32.ofInt 4097⟩⟩)
      = 4096 ∧
    Binary.toRat (paramUA binary32
      ⟨⟨binary32.ofInt 0, binary32.ofInt 0⟩, ⟨binary32.ofInt 4097, binary32.ofInt 4097⟩⟩
      ⟨⟨binary32.ofInt 0, binary32.ofInt 1⟩, ⟨binary32.ofInt 4097, binary32.ofInt 4097⟩⟩)
      = 4097 / 4096 ∧
    findIntersectionA binary32
      ⟨⟨binary32.ofInt 0, binary32.ofInt 0⟩, ⟨binary32.ofInt 4097, binary32.ofInt 4097⟩⟩
      ⟨⟨binary32.ofInt 0, binary32.ofInt 1⟩, ⟨binary32.ofInt 4097, binary32.ofInt 4097⟩⟩
      = none := by
  have h0 : binary32.ofInt 0 = Binary.fin false 0 0 := rfl
  have h1 : binary32.ofInt 1 = Binary.fin false 1 0 := rfl
  have h2 : binary32.ofInt 4097 = Binary.fin false 4097 0 := rfl
  have h3 : binary32.mul (binary32.ofInt 4097) (binary32.ofInt 4097) =
      Binary.fin false 2049 13 := rfl
  have h4 : detA binary32
      ⟨⟨binary32.ofInt 0, binary32.ofInt 0⟩, ⟨binary32.ofInt 4097, binary32.ofInt 4097⟩⟩
      ⟨⟨binary32.ofInt 0, binary32.ofInt 1⟩, ⟨binary32.ofInt 4097, binary32.ofInt 4097⟩⟩ =
      Binary.fin false 1 12 := rfl
  have h5 : paramUA binary32
      ⟨⟨binary32.ofInt 0, binary32.ofInt 0⟩, ⟨binary32.ofInt 4097, binary32.ofInt 4097⟩⟩
      ⟨⟨binary32.ofInt 0, binary32.ofInt 1⟩, ⟨binary32.ofInt 4097, binary32.ofInt 4097⟩⟩ =
      Binary.fin false 4097 (-12) := rfl
  refine ⟨?_, ?_, ?_, ?_, ?_, ?_, ?_, ?_, ?_, rfl⟩
  · norm_num [det, segVec]
  · norm_num [paramU, det, segVec, rightSide]
  · norm_num [findIntersection, paramU, paramT, det, segVec, rightSide, tol, abs_lt]
  · rw [h0]; norm_num [Binary.toRat]
  · rw [h1]; norm_num [Binary.toRat]
  · rw [h2]; norm_num [Binary.toRat]
  · rw [h3]; norm_num [Binary.toRat]
  · rw [h4]; norm_num [Binary.toRat]
  · rw [h5]; norm_num [Binary.toRat]

/-- C13 (as stated it fails): for the direction `d = (3, 4)` and `step = 2` the program
computes in binary32 the offset vector `(-13421773 / 2^23, 10066330 / 2^23)`, that is
`(-1.6000000238, 1.2000000477)`: its dot product with `d` is `2^-23`, not 0, and its
squared length is not `step^2 = 4`. -/
theorem step_vector_rounding :
    Binary.toRat (binary32.ofInt 3) = 3 ∧ Binary.toRat (binary32.ofInt 4) = 4 ∧
    Binary.toRat (binary32.ofInt 2) = 2 ∧
    Binary.toRat (stepVectorA binary32 ⟨binary32.ofInt 3, binary32.ofInt 4⟩
      (binary32.ofInt 2)).x = -(13421773 / 2 ^ 23) ∧
    Binary.toRat (stepVectorA binary32 ⟨binary32.ofInt 3, binary32.ofInt 4⟩
      (binary32.ofInt 2)).y = 10066330 / 2 ^ 23 ∧
    Binary.toRat (stepVectorA binary32 ⟨binary32.ofInt 3, binary32.ofInt 4⟩
        (binary32.ofInt 2)).x * 3
      + Binary.toRat (stepVectorA binary32 ⟨binary32.ofInt 3, binary32.ofInt 4⟩
        (binary32.ofInt 2)).y * 4 = 1 / 2 ^ 23 ∧
    Binary.toRat (stepVectorA binary32 ⟨binary32.ofInt 3, binary32.ofInt 4⟩
        (binary32.ofInt 2)).x ^ 2
      + Binary.toRat (stepVectorA binary32 ⟨binary32.ofInt 3, binary32.ofInt 4⟩
        (binary32.ofInt 2)).y ^ 2 ≠ 2 ^ 2 := by
  have h2 : binary32.ofInt 2 = Binary.fin false 1 1 := rfl
  have h3 : binary32.ofInt 3 = Binary.fin false 3 0 := rfl
  have h4 : binary32.ofInt 4 = Binary.fin false 1 2 := rfl
  have hsv : stepVectorA binary32 ⟨binary32.ofInt 3, binary32.ofInt 4⟩ (binary32.ofInt 2) =
      ⟨Binary.fin true 13421773 (-23), Binary.fin false 5033165 (-22)⟩ := rfl
  rw [hsv, h2, h3, h4]
  norm_num [Binary.toRat]

/-- C12 (as stated it fails): for the square `(0,0), (10,0), (0,10), (10,10)` and
`step = 1e-9 > 0` the value `diagonal / step + 3` does not fit the `int`: `lines_per_side`
is `INT_MIN`, not `floor(diagonal / step) + 3`, and one line is generated, not `2L + 1`;
so it is in exact arithmetic with the 32-bit `int` and in binary32.  And in binary32, for
the rectangle `(0,0), (3,0), (0,4), (3,4)` and `step = 5.0000005`, the quotient
`diagonal / step` is `0.99999988`, the sum with 3 rounds to `4.0`, and `lines_per_side` is
4 with 9 lines, where `floor(diagonal / step) + 3 = 3`. -/
theorem lines_per_side_out_of_range :
    (0 : ℝ) < 1 / 10 ^ 9 ∧
    linesPerSide Real.sqrt
      (parseContour [(⟨0, 0⟩ : Point ℝ), ⟨10, 0⟩, ⟨0, 10⟩, ⟨10, 10⟩]).2 (1 / 10 ^ 9) = -(2 ^ 31) ∧
    linesPerSide Real.sqrt
      (parseContour [(⟨0, 0⟩ : Point ℝ), ⟨10, 0⟩, ⟨0, 10⟩, ⟨10, 10⟩]).2 (1 / 10 ^ 9) ≠
      ⌊diagonal Real.sqrt (parseContour [(⟨0, 0⟩ : Point ℝ), ⟨10, 0⟩, ⟨0, 10⟩, ⟨10, 10⟩]).2
        / (1 / 10 ^ 9)⌋ + 3 ∧
    (hatchLines (findCenter (parseContour [(⟨0, 0⟩ : Point ℝ), ⟨10, 0⟩, ⟨0, 10⟩, ⟨10, 10⟩]).2)
      (stepVector Real.sqrt ⟨1, 0⟩ (1 / 10 ^ 9)) ⟨1, 0⟩
      (linesPerSide Real.sqrt
        (parseContour [(⟨0, 0⟩ : Point ℝ), ⟨10, 0⟩, ⟨0, 10⟩, ⟨10, 10⟩]).2 (1 / 10 ^ 9))).length
      = 1 ∧
    linesPerSideA binary32
      (parseContourA binary32
        [⟨binary32.ofInt 0, binary32.ofInt 0⟩, ⟨binary32.ofInt 10, binary32.ofInt 0⟩,
          ⟨binary32.ofInt 0, binary32.ofInt 10⟩, ⟨binary32.ofInt 10, binary32.ofInt 10⟩]).2
      (decimalLit 1 (10 ^ 9)) = -(2 ^ 31) ∧
    (hatchLinesA binary32
      (findCenterA binary32 (parseContourA binary32
        [⟨binary32.ofInt 0, binary32.ofInt 0⟩, ⟨binary32.ofInt 10, binary32.ofInt 0⟩,
          ⟨binary32.ofInt 0, binary32.ofInt 10⟩, ⟨binary32.ofInt 10, binary32.ofInt 10⟩]).2)
      (stepVectorA binary32 ⟨binary32.ofInt 1, binary32.ofInt 0⟩ (decimalLit 1 (10 ^ 9)))
      ⟨binary32.ofInt 1, binary32.ofInt 0⟩
      (linesPerSideA binary32
        (parseContourA binary32
          [⟨binary32.ofInt 0, binary32.ofInt 0⟩, ⟨binary32.ofInt 10, binary32.ofInt 0⟩,
            ⟨binary32.ofInt 0, binary32.ofInt 10⟩, ⟨binary32.ofInt 10, binary32.ofInt 10⟩]).2
        (decimalLit 1 (10 ^ 9)))).length = 1 ∧
    Binary.toRat (decimalLit 50000005 (10 ^ 7)) = 10485761 / 2 ^ 21 ∧
    Binary.toRat (diagonalA binary32
      (parseContourA binary32
        [⟨binary32.ofInt 0, binary32.ofInt 0⟩, ⟨binary32.ofInt 3, binary32.ofInt 0⟩,
          ⟨binary32.ofInt 0, binary32.ofInt 4⟩, ⟨binary32.ofInt 3, binary32.ofInt 4⟩]).2) = 5 ∧
    ⌊(5 : ℚ) / (10485761 / 2 ^ 21)⌋ + 3 = 3 ∧
    linesPerSideA binary32
      (parseContourA binary32
        [⟨binary32.ofInt 0, binary32.ofInt 0⟩, ⟨binary32.ofInt 3, binary32.ofInt 0⟩,
          ⟨binary32.ofInt 0, binary32.ofInt 4⟩, ⟨binary32.ofInt 3, binary32.ofInt 4⟩]).2
      (decimalLit 50000005 (10 ^ 7)) = 4 ∧
    (hatchLinesA binary32
      (findCenterA binary32 (parseContourA binary32
        [⟨binary32.ofInt 0, binary32.ofInt 0⟩, ⟨binary32.ofInt 3, binary32.ofInt 0⟩,
          ⟨binary32.ofInt 0, binary32.ofInt 4⟩, ⟨binary32.ofInt 3, binary32.ofInt 4⟩]).2)
      (stepVectorA binary32 ⟨binary32.ofInt 1, binary32.ofInt 0⟩ (decimalLit 50000005 (10 ^ 7)))
      ⟨binary32.ofInt 1, binary32.ofInt 0⟩
      (linesPerSideA binary32
        (parseContourA binary32
          [⟨binary32.ofInt 0, binary32.ofInt 0⟩, ⟨binary32.ofInt 3, binary32.ofInt 0⟩,
            ⟨binary32.ofInt 0, binary32.ofInt 4⟩, ⟨binary32.ofInt 3, binary32.ofInt 4⟩]).2
        (decimalLit 50000005 (10 ^ 7)))).length = 9 := by
  have hbig := square_tiny_step_large
  have hL : linesPerSide Real.sqrt
      (parseContour [(⟨0, 0⟩ : Point ℝ), ⟨10, 0⟩, ⟨0, 10⟩, ⟨10, 10⟩]).2 (1 / 10 ^ 9) =
      -(2 ^ 31) := by
    unfold linesPerSide
    rw [truncToInt_of_large _ hbig]
    rfl
  have hstep : decimalLit 50000005 (10 ^ 7) = Binary.fin false 10485761 (-21) := rfl
  have hdiag : diagonalA binary32
      (parseContourA binary32
        [⟨binary32.ofInt 0, binary32.ofInt 0⟩, ⟨binary32.ofInt 3, binary32.ofInt 0⟩,
          ⟨binary32.ofInt 0, binary32.ofInt 4⟩, ⟨binary32.ofInt 3, binary32.ofInt 4⟩]).2 =
      Binary.fin false 5 0 := rfl
  refine ⟨by norm_num, hL, ?_, ?_, rfl, rfl, ?_, ?_, ?_, rfl, rfl⟩
  · rw [hL]
    intro h
    have h2 : (2 : ℤ) ^ 31 ≤ ⌊diagonal Real.sqrt
        (parseContour [(⟨0, 0⟩ : Point ℝ), ⟨10, 0⟩, ⟨0, 10⟩, ⟨10, 10⟩]).2 / (1 / 10 ^ 9)⌋ + 3 := by
      have h3 : ((3 : ℤ) : ℝ) = 3 := by norm_num
      rw [← Int.floor_add_int, Int.le_floor, h3]
      exact_mod_cast hbig
    omega
  · rw [hL]
    simp only [hatchLines, List.length_map, length_intRange]
    decide
  · rw [hstep]; norm_num [Binary.toRat]
  · rw [hdiag]; norm_num [Binary.toRat]
  · have h0 : ⌊(5 : ℚ) / (10485761 / 2 ^ 21)⌋ = 0 := by
      rw [Int.floor_eq_iff]
      constructor <;> norm_num
    rw [h0]; rfl

/-- C14 (as stated it fails): for the square `(0,0), (10,0), (0,10), (10,10)`, direction
`(1, 0)` and `step = 1e-9` the conversion of `diagonal / step + 3` to `int` is out of
range and `lines_per_side` is `INT_MIN`; the loop generates the single line of index
`INT_MIN`, the line `y = 2.8525...`, which crosses the square, so one segment is emitted:
more than `2L + 1`, which is negative.  This holds for the exact arithmetic with the 32-bit
`int` and for the binary32 arithmetic alike. -/
theorem segments_exceed_line_bound :
    hatch Real.sqrt [⟨0, 0⟩, ⟨10, 0⟩, ⟨0, 10⟩, ⟨10, 10⟩] ⟨1, 0⟩ (1 / 10 ^ 9) =
      some [⟨⟨0, 2852516352 / 10 ^ 9⟩, ⟨10, 2852516352 / 10 ^ 9⟩⟩] ∧
    2 * linesPerSide Real.sqrt
      (parseContour [(⟨0, 0⟩ : Point ℝ), ⟨10, 0⟩, ⟨0, 10⟩, ⟨10, 10⟩]).2 (1 / 10 ^ 9) + 1 < 1 ∧
    hatchA binary32
      [⟨binary32.ofInt 0, binary32.ofInt 0⟩, ⟨binary32.ofInt 10, binary32.ofInt 0⟩,
        ⟨binary32.ofInt 0, binary32.ofInt 10⟩, ⟨binary32.ofInt 10, binary32.ofInt 10⟩]
      ⟨binary32.ofInt 1, binary32.ofInt 0⟩ (decimalLit 1 (10 ^ 9)) =
      some [⟨⟨binary32.ofInt 0, Binary.fin false 11964321 (-22)⟩,
        ⟨binary32.ofInt 10, Binary.fin false 11964321 (-22)⟩⟩] ∧
    2 * linesPerSideA binary32
      (parseContourA binary32
        [⟨binary32.ofInt 0, binary32.ofInt 0⟩, ⟨binary32.ofInt 10, binary32.ofInt 0⟩,
          ⟨binary32.ofInt 0, binary32.ofInt 10⟩, ⟨binary32.ofInt 10, binary32.ofInt 10⟩]).2
      (decimalLit 1 (10 ^ 9)) + 1 < 1 := by
  have hL : linesPerSide Real.sqrt
      (parseContour [(⟨0, 0⟩ : Point ℝ), ⟨10, 0⟩, ⟨0, 10⟩, ⟨10, 10⟩]).2 (1 / 10 ^ 9) =
      -(2 ^ 31) := by
    unfold linesPerSide
    rw [truncToInt_of_large _ square_tiny_step_large]
    rfl
  have hpc := rectangle_parse_edges (0 : ℝ) 10 0 10 (by norm_num) (by norm_num)
    [⟨0, 0⟩, ⟨10, 0⟩, ⟨0, 10⟩, ⟨10, 10⟩] (List.Perm.refl _)
  have hc : findCenter [(⟨0, 0⟩ : Point ℝ), ⟨10, 0⟩, ⟨0, 10⟩, ⟨10, 10⟩] = ⟨5, 5⟩ := by
    rw [findCenter_four]; norm_num
  have hsv : stepVector Real.sqrt (⟨1, 0⟩ : Vector ℝ) (1 / 10 ^ 9) = ⟨0, 1 / 10 ^ 9⟩ := by
    rw [stepVector_unit Real.sqrt real_sqrtSpec _ _ (by norm_num)]
    norm_num
  have hline : hatchLine (⟨5, 5⟩ : Point ℝ) ⟨0, 1 / 10 ^ 9⟩ ⟨1, 0⟩ (-(2 ^ 31)) =
      ⟨⟨5, 2852516352 / 10 ^ 9⟩, ⟨1, 0⟩⟩ := by
    simp only [hatchLine]
    norm_num
  have hbinL : linesPerSideA binary32
      (parseContourA binary32
        [⟨binary32.ofInt 0, binary32.ofInt 0⟩, ⟨binary32.ofInt 10, binary32.ofInt 0⟩,
          ⟨binary32.ofInt 0, binary32.ofInt 10⟩, ⟨binary32.ofInt 10, binary32.ofInt 10⟩]).2
      (decimalLit 1 (10 ^ 9)) = -(2 ^ 31) := rfl
  refine ⟨?_, ?_, rfl, ?_⟩
  · rw [hatch_eq_sort Real.sqrt [⟨0, 0⟩, ⟨10, 0⟩, ⟨0, 10⟩, ⟨10, 10⟩] ⟨1, 0⟩ (1 / 10 ^ 9) rfl,
      hL, hpc]
    simp only [hc, hsv, hatchLines_intMin, hline, emittedSegments, List.filterMap_cons,
      List.filterMap_nil, emit_square_horizontal]
    norm_num [sortSegments]
  · rw [hL]; norm_num
  · rw [hbinL]; norm_num

/-- C14 (amended): over every arithmetic of `float` (binary32 included): the edge list is
bottom, top, left, right (the pairs 0-1, 2-3, 0-2, 1-3 of the sorted points); the edges are
looked at in the order of the list, each pass leaving the working set as it is or
appending the intersection found; a line emits a segment exactly
when exactly 2 unique points `a, b` were collected, and then it is `a -> b` in the order
found; with any other number of points nothing is emitted.  The output is a rearrangement
of the emitted segments and has no more segments than lines were generated; the number of
generated lines is `2L + 1` whenever the stored `lines_per_side = L` satisfies
`0 ≤ L ≤ INT_MAX`. -/
theorem emission_policy (A : Arith F) :
    (∀ points : List (Point F), points.length = 4 →
      (parseContourA A points).1 =
        [⟨atA A (sortPointsA A points) 0, atA A (sortPointsA A points) 1⟩,
         ⟨atA A (sortPointsA A points) 2, atA A (sortPointsA A points) 3⟩,
         ⟨atA A (sortPointsA A points) 0, atA A (sortPointsA A points) 2⟩,
         ⟨atA A (sortPointsA A points) 1, atA A (sortPointsA A points) 3⟩]) ∧
    (∀ (e1 e2 e3 e4 : Segment F) (line : Line F),
      collectIntersectionsA A [e1, e2, e3, e4] line =
        addIntersectionA A line (addIntersectionA A line (addIntersectionA A line
          (addIntersectionA A line [] e1) e2) e3) e4) ∧
    (∀ (line : Line F) (acc : List (Point F)) (edge : Segment F),
      addIntersectionA A line acc edge = acc ∨
        ∃ p : Point F, findIntersectionA A line edge = some p ∧
          addIntersectionA A line acc edge = acc ++ [p]) ∧
    (∀ (edges : List (Segment F)) (line : Line F),
      (∀ s : Segment F, emitSegmentA A edges line = some s ↔
        ∃ a b : Point F, collectIntersectionsA A edges line = [a, b] ∧ s = ⟨a, b⟩) ∧
      (emitSegmentA A edges line = none ↔ (collectIntersectionsA A edges line).length ≠ 2)) ∧
    (∀ (points : List (Point F)) (d : Vector F) (step : F) (out : List (Segment F)),
      hatchA A points d step = some out →
      out.Perm (emittedSegmentsA A (parseContourA A points).1
        (hatchLinesA A (findCenterA A (parseContourA A points).2) (stepVectorA A d step) d
          (linesPerSideA A (parseContourA A points).2 step))) ∧
      out.length ≤
        (hatchLinesA A (findCenterA A (parseContourA A points).2) (stepVectorA A d step) d
          (linesPerSideA A (parseContourA A points).2 step)).length ∧
      (0 ≤ linesPerSideA A (parseContourA A points).2 step →
        linesPerSideA A (parseContourA A points).2 step ≤ intMax →
        ((hatchLinesA A (findCenterA A (parseContourA A points).2) (stepVectorA A d step) d
          (linesPerSideA A (parseContourA A points).2 step)).length : ℤ) =
            2 * linesPerSideA A (parseContourA A points).2 step + 1 ∧
        (out.length : ℤ) ≤ 2 * linesPerSideA A (parseContourA A points).2 step + 1)) := by
  refine ⟨fun points hlen => by simp [parseContourA, hlen], fun _ _ _ _ _ => rfl, ?_,
    fun edges line =>
      ⟨emitSegmentA_eq_some_iff A edges line, emitSegmentA_eq_none_iff A edges line⟩, ?_⟩
  · intro line acc edge
    rcases addIntersectionA_cases A line acc edge with h | ⟨p, hp, _, _, h⟩
    · exact Or.inl h
    · exact Or.inr ⟨p, hp, h⟩
  · intro points d step out h
    have hlen := hatchA_ne_some_of_length A points d step out h
    rw [hatchA_eq_sort A points d step hlen, Option.some.injEq] at h
    have hperm : out.Perm (emittedSegmentsA A (parseContourA A points).1
        (hatchLinesA A (findCenterA A (parseContourA A points).2) (stepVectorA A d step) d
          (linesPerSideA A (parseContourA A points).2 step))) := by
      rw [← h]
      exact sortSegmentsA_perm A _
    have hle : out.length ≤
        (hatchLinesA A (findCenterA A (parseContourA A points).2) (stepVectorA A d step) d
          (linesPerSideA A (parseContourA A points).2 step)).length := by
      rw [hperm.length_eq]
      exact length_emittedSegmentsA_le A _ _
    refine ⟨hperm, hle, ?_⟩
    intro h0 h1
    unfold intMax at h1
    have hcount := length_hatchLinesA A (findCenterA A (parseContourA A points).2)
      (stepVectorA A d step) d (linesPerSideA A (parseContourA A points).2 step)
      (by omega) (by omega)
    constructor
    · rw [hcount]; omega
    · rw [hcount] at hle; omega

theorem emission_policy_witness :
    ((hatchLinesA binary32
      (findCenterA binary32 (parseContourA binary32
        [⟨binary32.ofInt 0, binary32.ofInt 0⟩, ⟨binary32.ofInt 10, binary32.ofInt 0⟩,
          ⟨binary32.ofInt 0, binary32.ofInt 10⟩, ⟨binary32.ofInt 10, binary32.ofInt 10⟩]).2)
      (stepVectorA binary32 ⟨binary32.ofInt 1, binary32.ofInt 0⟩ (binary32.ofInt 1))
      ⟨binary32.ofInt 1, binary32.ofInt 0⟩
      (linesPerSideA binary32 (parseContourA binary32
        [⟨binary32.ofInt 0, binary32.ofInt 0⟩, ⟨binary32.ofInt 10, binary32.ofInt 0⟩,
          ⟨binary32.ofInt 0, binary32.ofInt 10⟩, ⟨binary32.ofInt 10, binary32.ofInt 10⟩]).2
        (binary32.ofInt 1))).length : ℤ) =
      2 * linesPerSideA binary32 (parseContourA binary32
        [⟨binary32.ofInt 0, binary32.ofInt 0⟩, ⟨binary32.ofInt 10, binary32.ofInt 0⟩,
          ⟨binary32.ofInt 0, binary32.ofInt 10⟩, ⟨binary32.ofInt 10, binary32.ofInt 10⟩]).2
        (binary32.ofInt 1) + 1 :=
  (((emission_policy binary32).2.2.2.2
    [⟨binary32.ofInt 0, binary32.ofInt 0⟩, ⟨binary32.ofInt 10, binary32.ofInt 0⟩,
      ⟨binary32.ofInt 0, binary32.ofInt 10⟩, ⟨binary32.ofInt 10, binary32.ofInt 10⟩]
    ⟨binary32.ofInt 1, binary32.ofInt 0⟩ (binary32.ofInt 1) _
    (hatchA_eq_sort binary32 _ _ _ rfl)).2.2 (by decide) (by decide)).1

/-- C3 (amended): over every arithmetic of `float` (binary32 included),
`findIntersection` returns the sentinel exactly when the computed `det` passes the test
`fabs(det) < 1e-10` or the computed `u` fails `u >= 0` or `u <= 1`, and otherwise it
returns the point computed from `t`, whatever `t` is; in binary32 a computed `u` equal to
0 or to 1 is accepted.  In exact arithmetic the computed `det` and `u` are the numbers
`det = d.x * (-s.y) - d.y * (-s.x)` and `u = (d.x * r.y - d.y * r.x) / det` with
`s = end - start`, `r = start - origin`, the sentinel is returned exactly when
`|det| < 1e-10` or `u` lies outside `[0, 1]`, `u = 0` and `u = 1` are accepted, and every
value of the line parameter `t` occurs among returned intersections. -/
theorem findIntersection_guard :
    (∀ (G : Type) (A : Arith G) (line : Line G) (segment : Segment G),
      (findIntersectionA A line segment = none ↔
        A.absLtTol (detA A line segment) = true ∨
        A.le (A.ofInt 0) (paramUA A line segment) = false ∨
        A.le (paramUA A line segment) (A.ofInt 1) = false) ∧
      (findIntersectionA A line segment ≠ none →
        findIntersectionA A line segment =
          some ⟨A.add line.origin.x (A.mul line.direction.x (paramTA A line segment)),
                A.add line.origin.y (A.mul line.direction.y (paramTA A line segment))⟩)) ∧
    (∀ (line : Line Binary) (segment : Segment Binary),
      binary32.absLtTol (detA binary32 line segment) = false →
      (paramUA binary32 line segment = binary32.ofInt 0 ∨
        paramUA binary32 line segment = binary32.ofInt 1) →
      findIntersectionA binary32 line segment ≠ none) ∧
    (∀ (line : Line α) (segment : Segment α),
      (findIntersection line segment = none ↔
        |det line segment| < tol ∨ paramU line segment < 0 ∨ 1 < paramU line segment) ∧
      det line segment =
        line.direction.x * (-(segment.end_.y - segment.start.y))
          - line.direction.y * (-(segment.end_.x - segment.start.x)) ∧
      paramU line segment =
        (line.direction.x * (segment.start.y - line.origin.y)
          - line.direction.y * (segment.start.x - line.origin.x)) / det line segment ∧
      (¬ |det line segment| < tol → (paramU line segment = 0 ∨ paramU line segment = 1) →
        findIntersection line segment ≠ none)) ∧
    (∀ t0 : α, ∃ (line : Line α) (segment : Segment α),
      paramT line segment = t0 ∧ findIntersection line segment ≠ none) := by
  refine ⟨fun G A line segment => ⟨findIntersectionA_eq_none_iff A line segment,
    findIntersectionA_of_ne_none A line segment⟩, ?_, findIntersection_exact_iff.1,
    findIntersection_exact_iff.2⟩
  intro line segment hdet hu hnone
  rcases (findIntersectionA_eq_none_iff binary32 line segment).mp hnone with h | h | h
  · rw [hdet] at h; cases h
  · rcases hu with hu | hu <;> rw [hu] at h <;> revert h <;> decide
  · rcases hu with hu | hu <;> rw [hu] at h <;> revert h <;> decide

end

/-! ## Exact arithmetic is one arithmetic of the program

The program over `exactArith` is the exact-arithmetic embedding of the first part. -/

theorem orderedInsert_congr {β : Type} (r r2 : β → β → Prop) [DecidableRel r]
    [DecidableRel r2] (h : ∀ a b, r a b ↔ r2 a b) (a : β) (l : List β) :
    l.orderedInsert r a = l.orderedInsert r2 a := by
  induction l with
  | nil => rfl
  | cons b l ih =>
    simp only [List.orderedInsert]
    by_cases hab : r a b
    · rw [if_pos hab, if_pos ((h a b).mp hab)]
    · rw [if_neg hab, if_neg (fun h2 => hab ((h a b).mpr h2)), ih]

theorem insertionSort_congr {β : Type} (r r2 : β → β → Prop) [DecidableRel r]
    [DecidableRel r2] (h : ∀ a b, r a b ↔ r2 a b) (l : List β) :
    l.insertionSort r = l.insertionSort r2 := by
  induction l with
  | nil => rfl
  | cons b l ih =>
    simp only [List.insertionSort]
    rw [ih, orderedInsert_congr r r2 h]

theorem pointLtA_exact [FloorRing α] (sqrt : α → α) (p q : Point α) :
    Point.ltA (exactArith sqrt) p q = decide (Point.lt p q) := by
  unfold Point.ltA Point.lt exactArith
  by_cases h : p.y ≠ q.y
  · simp [h]
  · simp [h]

theorem segmentLtA_exact [FloorRing α] (sqrt : α → α) (s t : Segment α) :
    Segment.ltA (exactArith sqrt) s t = decide (Segment.lt s t) := by
  unfold Segment.ltA Segment.lt exactArith
  by_cases h1 : s.start.x ≠ t.start.x
  · simp [h1]
  · by_cases h2 : s.start.y ≠ t.start.y
    · simp [h1, h2]
    · by_cases h3 : s.end_.x ≠ t.end_.x
      · simp [h1, h2, h3]
      · simp [h1, h2, h3]

theorem sortPointsA_exact [FloorRing α] (sqrt : α → α) (points : List (Point α)) :
    sortPointsA (exactArith sqrt) points = sortPoints points := by
  unfold sortPointsA sortPoints
  apply insertionSort_congr
  intro a b
  rw [pointLtA_exact]
  simp [Point.notAfter]

theorem sortSegmentsA_exact [FloorRing α] (sqrt : α → α) (segs : List (Segment α)) :
    sortSegmentsA (exactArith sqrt) segs = sortSegments segs := by
  unfold sortSegmentsA sortSegments
  apply insertionSort_congr
  intro a b
  rw [segmentLtA_exact]
  simp [Segment.notAfter]

theorem parseContourA_exact [FloorRing α] (sqrt : α → α) (points : List (Point α)) :
    parseContourA (exactArith sqrt) points = parseContour points := by
  unfold parseContourA parseContour
  rw [sortPointsA_exact]
  rfl

theorem findCenterA_exact [FloorRing α] (sqrt : α → α) (points : List (Point α)) :
    findCenterA (exactArith sqrt) points = findCenter points := by
  simp [findCenterA, findCenter, exactArith]

theorem findIntersectionA_exact [FloorRing α] (sqrt : α → α) (line : Line α)
    (segment : Segment α) :
    detA (exactArith sqrt) line segment = det line segment ∧
    paramUA (exactArith sqrt) line segment = paramU line segment ∧
    paramTA (exactArith sqrt) line segment = paramT line segment ∧
    findIntersectionA (exactArith sqrt) line segment = findIntersection line segment := by
  refine ⟨rfl, rfl, rfl, ?_⟩
  have hd : detA (exactArith sqrt) line segment = det line segment := rfl
  have hu : paramUA (exactArith sqrt) line segment = paramU line segment := rfl
  have ht : paramTA (exactArith sqrt) line segment = paramT line segment := rfl
  unfold findIntersectionA findIntersection
  rw [hd, hu, ht]
  by_cases h1 : |det line segment| < tol
  · simp [exactArith, h1]
  · by_cases h2 : 0 ≤ paramU line segment ∧ paramU line segment ≤ 1
    · simp [exactArith, h1, h2.1, h2.2]
    · have h3 : ¬ (0 ≤ paramU line segment ∧ paramU line segment ≤ 1) := h2
      simp only [exactArith, h1, decide_False, Bool.false_eq_true, if_false, Int.cast_zero,
        Int.cast_one, Bool.and_eq_true, decide_eq_true_eq, h3]

theorem linesPerSideA_exact [FloorRing α] (sqrt : α → α) (points : List (Point α))
    (step : α) :
    linesPerSideA (exactArith sqrt) points step = linesPerSide sqrt points step := by
  simp [linesPerSideA, linesPerSide, diagonalA, diagonal, exactArith, atA, at_]

theorem stepVectorA_exact [FloorRing α] (sqrt : α → α) (d : Vector α) (step : α) :
    stepVectorA (exactArith sqrt) d step = stepVector sqrt d step := rfl

theorem hatchLinesA_exact [FloorRing α] (sqrt : α → α) (center : Point α) (sv d : Vector α)
    (L : ℤ) :
    hatchLinesA (exactArith sqrt) center sv d L = hatchLines center sv d L := rfl

theorem isDuplicateA_exact [FloorRing α] (sqrt : α → α) (acc : List (Point α))
    (p : Point α) : isDuplicateA (exactArith sqrt) acc p = isDuplicate acc p := by
  simp [isDuplicateA, isDuplicate, exactArith, Bool.decide_and]

theorem addIntersectionA_exact [FloorRing α] (sqrt : α → α) (line : Line α)
    (acc : List (Point α)) (edge : Segment α) :
    addIntersectionA (exactArith sqrt) line acc edge = addIntersection line acc edge := by
  unfold addIntersectionA addIntersection
  rw [(findIntersectionA_exact sqrt line edge).2.2.2]
  cases findIntersection line edge with
  | none => rfl
  | some p =>
    simp only [isDuplicateA_exact]
    simp [exactArith]

theorem emitSegmentA_exact [FloorRing α] (sqrt : α → α) (edges : List (Segment α))
    (line : Line α) :
    emitSegmentA (exactArith sqrt) edges line = emitSegment edges line := by
  have hadd : addIntersectionA (exactArith sqrt) line = addIntersection line := by
    funext acc edge
    exact addIntersectionA_exact sqrt line acc edge
  unfold emitSegmentA emitSegment collectIntersectionsA collectIntersections
  rw [hadd]
  rfl

/-- The program over exact arithmetic is the exact-arithmetic embedding. -/
theorem hatchA_exact [FloorRing α] (sqrt : α → α) (points : List (Point α)) (d : Vector α)
    (step : α) : hatchA (exactArith sqrt) points d step = hatch sqrt points d step := by
  have hemit : emitSegmentA (exactArith sqrt) (parseContour points).1 =
      emitSegment (parseContour points).1 := by
    funext line
    exact emitSegmentA_exact sqrt _ line
  unfold hatchA hatch emittedSegmentsA emittedSegments
  simp only [parseContourA_exact, findCenterA_exact, linesPerSideA_exact, stepVectorA_exact,
    hatchLinesA_exact, sortSegmentsA_exact, hemit]

end

end Hatch
